import Mathlib

/-!
# Verification of the Leanify ZIP engine (`src/formats/zip.cpp`)

This file gives a shallow embedding of `Zip::Leanify` over byte buffers
modelled as `List Nat` (each byte read is taken modulo 256), together with
theorems settling the specification claims about the engine.

The buffer list is indexed from `fp_w = fp_ - size_leanified`; the parameter
`sl` is `size_leanified`, so the file content starts at list index `sl`
(address `fp_`), and all writes of the engine use indices relative to `fp_w`
(list index 0).

External collaborators (`tinfl_decompress_mem_to_heap`, `ZopfliDeflate`,
`LeanifyFile`, `mz_crc32`) are modelled as oracle functions supplied as a
parameter; the engine's behaviour is proved for every choice of oracles,
with contracts (e.g. the recursive minifier never growing its input) taken
as hypotheses exactly where a claim needs them.
-/

namespace ZipSpec

/-- Truncation to an unsigned 16-bit value, as C assignment to `uint16_t`. -/
def u16 (v : Nat) : Nat := v % 65536

/-- Truncation to an unsigned 32-bit value, as C assignment to `uint32_t`. -/
def u32 (v : Nat) : Nat := v % 4294967296

/-- Read one byte at list index `a` (out-of-range reads give 0). -/
def rByte (l : List Nat) (a : Nat) : Nat := l.getD a 0 % 256

/-- Write one byte at list index `a` (out-of-range writes are dropped). -/
def wByte (l : List Nat) (a v : Nat) : List Nat := l.set a (v % 256)

/-- Read a little-endian `uint16_t` at index `a`. -/
def r16 (l : List Nat) (a : Nat) : Nat := rByte l a + 256 * rByte l (a + 1)

/-- Read a little-endian `uint32_t` at index `a`. -/
def r32 (l : List Nat) (a : Nat) : Nat :=
  rByte l a + 256 * rByte l (a + 1) + 65536 * rByte l (a + 2) + 16777216 * rByte l (a + 3)

/-- Write a little-endian `uint16_t` at index `a`. -/
def w16 (l : List Nat) (a v : Nat) : List Nat := wByte (wByte l a v) (a + 1) (v / 256)

/-- Write a little-endian `uint32_t` at index `a`. -/
def w32 (l : List Nat) (a v : Nat) : List Nat :=
  wByte (wByte (wByte (wByte l a v) (a + 1) (v / 256)) (a + 2) (v / 65536)) (a + 3) (v / 16777216)

/-- Read `n` consecutive bytes starting at index `a`. -/
def readBytesN (l : List Nat) (a n : Nat) : List Nat :=
  (List.range n).map fun k => rByte l (a + k)

/-- Write the bytes `bs` consecutively starting at index `a`. -/
def writeBytes (l : List Nat) (a : Nat) : List Nat → List Nat
  | [] => l
  | b :: bs => writeBytes (wByte l a b) (a + 1) bs

/-- `memmove(dst, src, n)`: overlap-safe, all source bytes are read before
any destination byte is written (the semantics of `std::memmove`). -/
def memmoveL (l : List Nat) (dst src n : Nat) : List Nat :=
  writeBytes l dst (readBytesN l src n)

/-- The local-file-header magic `PK\x03\x04` (`Zip::header_magic`). -/
def lfhMagic : List Nat := [0x50, 0x4B, 0x03, 0x04]

/-- The central-directory-header magic `PK\x01\x02`. -/
def cdMagic : List Nat := [0x50, 0x4B, 0x01, 0x02]

/-- The end-of-central-directory magic `PK\x05\x06`. -/
def eocdMagic : List Nat := [0x50, 0x4B, 0x05, 0x06]

/-- Does the 4-byte pattern `pat` occur at index `a`? -/
def matchAt (l : List Nat) (a : Nat) (pat : List Nat) : Bool :=
  readBytesN l a pat.length = pat

/-- Scan `a`, `a+1`, ..., for at most `fuel` steps, for the first index where
`pat` matches with the whole pattern inside `[a, hi)` (`std::search`). -/
def findFirstAux (l : List Nat) (hi : Nat) (pat : List Nat) : Nat → Nat → Option Nat
  | 0, _ => none
  | fuel + 1, a =>
    if a + pat.length ≤ hi ∧ matchAt l a pat then some a
    else findFirstAux l hi pat fuel (a + 1)

/-- `std::search(lo, hi, pat)`: first occurrence of `pat` in `[lo, hi)`,
or `none`. -/
def findFirst (l : List Nat) (lo hi : Nat) (pat : List Nat) : Option Nat :=
  findFirstAux l hi pat (hi - lo) lo

/-- Scan downward from `a` for at most `fuel` steps for the last index `≥ lo`
where `pat` matches. -/
def findLastAux (l : List Nat) (pat : List Nat) : Nat → Nat → Option Nat
  | 0, _ => none
  | _ + 1, 0 => if matchAt l 0 pat then some 0 else none
  | fuel + 1, a + 1 =>
    if matchAt l (a + 1) pat then some (a + 1) else findLastAux l pat fuel a

/-- `std::find_end(lo, hi, pat)`: last occurrence of `pat` fully inside
`[lo, hi)`, or `none`. -/
def findLast (l : List Nat) (lo hi : Nat) (pat : List Nat) : Option Nat :=
  if lo + pat.length ≤ hi then findLastAux l pat (hi - pat.length - lo + 1) (hi - pat.length)
  else none

/-- The central-directory header record (`struct CDHeader`), 46 bytes on
disk including the 4-byte magic. -/
structure CDHeader where
  versionMadeBy : Nat
  versionNeeded : Nat
  flag : Nat
  compressionMethod : Nat
  lastModTime : Nat
  lastModDate : Nat
  crc32 : Nat
  compressedSize : Nat
  uncompressedSize : Nat
  filenameLen : Nat
  extraFieldLen : Nat
  commentLen : Nat
  diskFileStart : Nat
  internalAttrs : Nat
  externalAttrs : Nat
  localHeaderOffset : Nat
  deriving Repr, DecidableEq

/-- Decode a `CDHeader` from the 46 bytes at index `a` (the magic at
`a..a+3` has been checked by the caller, as in the C++ `memcmp`). -/
def readCDHeader (l : List Nat) (a : Nat) : CDHeader where
  versionMadeBy := r16 l (a + 4)
  versionNeeded := r16 l (a + 6)
  flag := r16 l (a + 8)
  compressionMethod := r16 l (a + 10)
  lastModTime := r16 l (a + 12)
  lastModDate := r16 l (a + 14)
  crc32 := r32 l (a + 16)
  compressedSize := r32 l (a + 20)
  uncompressedSize := r32 l (a + 24)
  filenameLen := r16 l (a + 28)
  extraFieldLen := r16 l (a + 30)
  commentLen := r16 l (a + 32)
  diskFileStart := r16 l (a + 34)
  internalAttrs := r16 l (a + 36)
  externalAttrs := r32 l (a + 38)
  localHeaderOffset := r32 l (a + 42)

/-- Serialize a `CDHeader` (with its magic) to the 46 bytes at index `a`. -/
def writeCDHeader (l : List Nat) (a : Nat) (h : CDHeader) : List Nat :=
  w32 (w32 (w16 (w16 (w16 (w16 (w16 (w32 (w32 (w32 (w16 (w16 (w16 (w16 (w16 (w16
    (writeBytes l a cdMagic)
    (a + 4) h.versionMadeBy) (a + 6) h.versionNeeded) (a + 8) h.flag)
    (a + 10) h.compressionMethod) (a + 12) h.lastModTime) (a + 14) h.lastModDate)
    (a + 16) h.crc32) (a + 20) h.compressedSize) (a + 24) h.uncompressedSize)
    (a + 28) h.filenameLen) (a + 30) h.extraFieldLen) (a + 32) h.commentLen)
    (a + 34) h.diskFileStart) (a + 36) h.internalAttrs) (a + 38) h.externalAttrs)
    (a + 42) h.localHeaderOffset

/-- The end-of-central-directory record (`struct EOCD`), 22 bytes on disk
including the 4-byte magic. -/
structure EOCD where
  diskNum : Nat
  diskCdStart : Nat
  numRecords : Nat
  numRecordsTotal : Nat
  cdSize : Nat
  cdOffset : Nat
  commentLen : Nat
  deriving Repr, DecidableEq

/-- Decode an `EOCD` from the 22 bytes at index `a`. -/
def readEOCD (l : List Nat) (a : Nat) : EOCD where
  diskNum := r16 l (a + 4)
  diskCdStart := r16 l (a + 6)
  numRecords := r16 l (a + 8)
  numRecordsTotal := r16 l (a + 10)
  cdSize := r32 l (a + 12)
  cdOffset := r32 l (a + 16)
  commentLen := r16 l (a + 20)

/-- Serialize an `EOCD` (with its magic) to the 22 bytes at index `a`. -/
def writeEOCD (l : List Nat) (a : Nat) (e : EOCD) : List Nat :=
  w16 (w32 (w32 (w16 (w16 (w16 (w16
    (writeBytes l a eocdMagic)
    (a + 4) e.diskNum) (a + 6) e.diskCdStart) (a + 8) e.numRecords)
    (a + 10) e.numRecordsTotal) (a + 12) e.cdSize) (a + 16) e.cdOffset)
    (a + 20) e.commentLen

/-- Warnings/diagnostics printed to `cerr` by the engine (only the per-entry
and directory-reader diagnostics are tracked; the archive-level passthrough
diagnostics are not needed by any claim). -/
inductive Warn where
  | invalidLocalHeader
  | filenameLenMismatch
  | eofInLocalHeader
  | compressedSizeTooLarge
  | crcMismatch
  | cdPassedEnd
  | cdMagicMismatch
  | cdSizeMismatch
  deriving Repr, DecidableEq

/-- Oracles for the external collaborators of the engine:
`tinfl_decompress_mem_to_heap` (`inflate`, `none` = failure),
`ZopfliDeflate` (`deflate`), the recursive minifier `LeanifyFile`
(`leanify`, its result written where the engine puts it), and `mz_crc32`
(`crc32fn`). -/
structure Oracles where
  inflate : List Nat → Option (List Nat)
  deflate : List Nat → List Nat
  leanify : List Nat → List Nat
  crc32fn : List Nat → Nat

/-- Engine configuration: the fast-mode flag `is_fast`, the recursion depth
(already incremented, as `depth++` at the top of `Zip::Leanify`), and
`max_depth`. -/
structure Config where
  isFast : Bool
  depth : Nat
  maxDepth : Nat
  deriving Repr, DecidableEq

/-- How a single compaction-loop iteration ended: `normal` covers both the
fall-through to the next entry and the C++ `continue`s that keep processing;
`skipped` is the `continue` for an invalid local header (entry untouched);
`halted` is a `break`. -/
inductive Ctl where
  | normal
  | skipped
  | halted
  deriving Repr, DecidableEq

/-- Result of processing one entry of the compaction loop. -/
structure EntryOut where
  cd : CDHeader
  buf : List Nat
  pw : Nat
  warns : List Warn
  ctl : Ctl

/-- The number of bytes the compaction rewriter moves for a local header:
`30 + filename_length` where `filename_length` is read from the local
header itself (`*(uint16_t*)(p_read + 26)`, zip.cpp:141,147). -/
def movedHeaderSize (l : List Nat) (pr : Nat) : Nat := 30 + r16 l (pr + 26)

/-- The header size as the specification words it (§4.6 step 3: "header
size = 30 + filename_len (using the directory's filename_len)"); kept as a
separate definition to compare against `movedHeaderSize`, which is what the
source computes. -/
def dirHeaderSizeSpec (cd : CDHeader) : Nat := 30 + cd.filenameLen

/-- The compression dispatch (zip.cpp:193-259): decides, from the (already
rewritten) header at `pw`, whether to minify a stored payload in place, move
the payload verbatim, or run the deflate decompress/minify/recompress
pipeline.  `l3` is the buffer after the header move and fix-ups, `pwD`/`prD`
the data positions on the write/read side, `origComp` the authoritative
compressed size and `flag` the original header flag. -/
def entryDispatch (o : Oracles) (cfg : Config) (cd1 : CDHeader) (l3 : List Nat)
    (pw pwD prD origComp flag : Nat) (w1 : List Warn) : EntryOut :=
  let method := r16 l3 (pw + 8)
  if method ≠ 8 ∨ flag &&& 1 ≠ 0 ∨ cfg.isFast then
          if method = 0 ∧ cfg.depth ≤ cfg.maxDepth ∧ flag &&& 1 = 0 then
            if origComp ≠ 0 then
              let minified := o.leanify (readBytesN l3 prD origComp)
              let newSize := minified.length
              let l4 := writeBytes l3 pwD minified
              let l5 := w32 (w32 l4 (pw + 18) newSize) (pw + 22) newSize
              let c := o.crc32fn (readBytesN l5 pwD newSize)
              let l6 := w32 l5 (pw + 14) c
              let cd2 := { cd1 with
                compressedSize := u32 newSize
                uncompressedSize := u32 newSize
                crc32 := u32 c }
              ⟨cd2, l6, pwD + r32 l6 (pw + 18), w1, .normal⟩
            else
              ⟨cd1, l3, pwD + r32 l3 (pw + 18), w1, .normal⟩
          else
            let l4 := memmoveL l3 pwD prD origComp
            ⟨cd1, l4, pwD + r32 l4 (pw + 18), w1, .normal⟩
        else
          let usize := r32 l3 (pw + 22)
          if usize = 0 then
            let l4 := w32 (w16 l3 (pw + 8) 0) (pw + 18) 0
            ⟨{ cd1 with compressionMethod := 0, compressedSize := 0 }, l4, pwD, w1, .normal⟩
          else
            match o.inflate (readBytesN l3 prD origComp) with
            | none =>
              let l4 := memmoveL l3 pwD prD origComp
              ⟨cd1, l4, pwD + origComp, w1 ++ [.crcMismatch], .normal⟩
            | some buf =>
              if buf.length ≠ usize ∨ r32 l3 (pw + 14) ≠ o.crc32fn buf then
                let l4 := memmoveL l3 pwD prD origComp
                ⟨cd1, l4, pwD + origComp, w1 ++ [.crcMismatch], .normal⟩
              else
                let lbuf := o.leanify buf
                let newU := lbuf.length
                let outD := o.deflate lbuf
                let newC := outD.length
                if newU ≤ newC ∧ newU ≤ origComp then
                  let c := o.crc32fn lbuf
                  let l4 := w32 (w32 (w32 (w16 l3 (pw + 8) 0)
                    (pw + 14) c) (pw + 18) newU) (pw + 22) newU
                  let l5 := writeBytes l4 pwD lbuf
                  let cd2 := { cd1 with
                    compressionMethod := 0
                    crc32 := u32 c
                    compressedSize := u32 newU
                    uncompressedSize := u32 newU }
                  ⟨cd2, l5, pwD + r32 l5 (pw + 18), w1, .normal⟩
                else if newC < origComp then
                  let c := o.crc32fn lbuf
                  let l4 := w32 (w32 (w32 l3 (pw + 14) c) (pw + 18) newC) (pw + 22) newU
                  let l5 := writeBytes l4 pwD outD
                  let cd2 := { cd1 with
                    crc32 := u32 c
                    compressedSize := u32 newC
                    uncompressedSize := u32 newU }
                  ⟨cd2, l5, pwD + r32 l5 (pw + 18), w1, .normal⟩
                else
                  let l4 := memmoveL l3 pwD prD origComp
                  ⟨cd1, l4, pwD + r32 l4 (pw + 18), w1, .normal⟩

/-- One iteration of the local-file-header compaction loop
(zip.cpp:132-259).  `sl` is `size_leanified`, `size` is `size_`, `base` is
`base_offset`; list indices are relative to `fp_w = fp_ - size_leanified`,
so `p_end` is index `sl + size` and `fp_w_base` is index `base`.  The
compression dispatch on the moved header is `entryDispatch`. -/
def processEntry (o : Oracles) (cfg : Config) (sl size base : Nat)
    (cd : CDHeader) (l : List Nat) (pw : Nat) : EntryOut :=
  let pEnd := sl + size
  let pr := sl + base + cd.localHeaderOffset
  if pr + 30 > pEnd ∨ readBytesN l pr 4 ≠ lfhMagic then
    ⟨cd, l, pw, [.invalidLocalHeader], .skipped⟩
  else
    let cd1 := { cd with localHeaderOffset := u32 (pw - base) }
    let fnLen := r16 l (pr + 26)
    let w1 : List Warn := if fnLen = cd.filenameLen then [] else [.filenameLenMismatch]
    let hdrSize := movedHeaderSize l pr
    if pr + hdrSize > pEnd then
      ⟨cd1, l, pw, w1 ++ [.eofInLocalHeader], .halted⟩
    else
      let l1 := memmoveL l pw pr hdrSize
      let extraLen := r16 l1 (pw + 28)
      let l2 := if extraLen = 0 then l1 else w16 l1 (pw + 28) 0
      let prA := pr + extraLen
      let flag := r16 l2 (pw + 6)
      let origComp0 := r32 l2 (pw + 18)
      let l3 :=
        if flag &&& 8 ≠ 0 then
          w32 (w32 (w32 (w16 l2 (pw + 6) (flag &&& 65527))
            (pw + 14) cd.crc32) (pw + 18) cd.compressedSize) (pw + 22) cd.uncompressedSize
        else l2
      let origComp := if flag &&& 8 ≠ 0 then cd.compressedSize else origComp0
      if prA + origComp > pEnd then
        ⟨cd1, l3, pw, w1 ++ [.compressedSizeTooLarge], .halted⟩
      else
        entryDispatch o cfg cd1 l3 pw (pw + hdrSize) (prA + hdrSize) origComp flag w1

/-- Result of the whole compaction loop. -/
structure LoopOut where
  cds : List CDHeader
  buf : List Nat
  pw : Nat
  warns : List Warn

/-- The compaction loop over the sorted central-directory entries
(zip.cpp:132-260).  A `halted` entry stops processing; the current entry
(with whatever field updates it received) and all remaining entries stay
in the list, exactly as the C++ `break` leaves `cd_headers`. -/
def compactLoop (o : Oracles) (cfg : Config) (sl size base : Nat) :
    List CDHeader → List Nat → Nat → LoopOut
  | [], l, pw => ⟨[], l, pw, []⟩
  | cd :: rest, l, pw =>
    let e := processEntry o cfg sl size base cd l pw
    match e.ctl with
    | .halted => ⟨e.cd :: rest, e.buf, e.pw, e.warns⟩
    | _ =>
      let r := compactLoop o cfg sl size base rest e.buf e.pw
      ⟨e.cd :: r.cds, r.buf, r.pw, e.warns ++ r.warns⟩

/-- Result of the central-directory reader. -/
structure ReadOut where
  cds : List CDHeader
  baseOff : Nat
  prFinal : Nat
  cdEndFinal : Nat
  warns : List Warn

/-- The central-directory reader loop (zip.cpp:94-119): `fuel` counts the
remaining declared records, `first` is `i == 0` (the only iteration where
the base-offset recovery may fire). -/
def readCDsAux (l : List Nat) (pEnd zipOff : Nat) :
    Nat → Bool → Nat → Nat → Nat → ReadOut
  | 0, _, pr, cdEnd, baseOff => ⟨[], baseOff, pr, cdEnd, []⟩
  | fuel + 1, first, pr, cdEnd, baseOff =>
    if pr + 46 > cdEnd then ⟨[], baseOff, pr, cdEnd, [.cdPassedEnd]⟩
    else if readBytesN l pr 4 = cdMagic then
      let h := readCDHeader l pr
      let r := readCDsAux l pEnd zipOff fuel false
        (pr + 46 + h.filenameLen + h.extraFieldLen + h.commentLen) cdEnd baseOff
      ⟨h :: r.cds, r.baseOff, r.prFinal, r.cdEndFinal, r.warns⟩
    else if first ∧ cdEnd + zipOff ≤ pEnd ∧ readBytesN l (pr + zipOff) 4 = cdMagic then
      let pr2 := pr + zipOff
      let h := readCDHeader l pr2
      let r := readCDsAux l pEnd zipOff fuel false
        (pr2 + 46 + h.filenameLen + h.extraFieldLen + h.commentLen) (cdEnd + zipOff) zipOff
      ⟨h :: r.cds, r.baseOff, r.prFinal, r.cdEndFinal, r.warns⟩
    else ⟨[], baseOff, pr, cdEnd, [.cdMagicMismatch]⟩

/-- The central-directory reader with initial state (`base_offset = 0`,
first iteration). -/
def readCDs (l : List Nat) (pEnd zipOff fuel pr cdEnd : Nat) : ReadOut :=
  readCDsAux l pEnd zipOff fuel true pr cdEnd 0

/-- Insert one header into a list sorted by `local_header_offset`,
realizing the comparator of zip.cpp:124-125. -/
def insertByOffset (h : CDHeader) : List CDHeader → List CDHeader
  | [] => [h]
  | x :: xs =>
    if h.localHeaderOffset < x.localHeaderOffset then h :: x :: xs
    else x :: insertByOffset h xs

/-- Deterministic sort of the parsed headers by `local_header_offset`
(the model's realization of the `std::sort` call, whose order on equal
offsets is unspecified). -/
def sortByOffset (l : List CDHeader) : List CDHeader := l.foldr insertByOffset []

/-- The directory writer (zip.cpp:264-275): re-emit each record with the
data-descriptor bit cleared and extra/comment lengths zeroed, the filename
bytes copied from the rewritten local header at
`fp_w_base + local_header_offset + 30`.  Returns the buffer and the final
write cursor. -/
def writeDir (base : Nat) : List CDHeader → List Nat → Nat → List Nat × Nat
  | [], l, pw => (l, pw)
  | cd :: rest, l, pw =>
    let cd2 := { cd with flag := cd.flag &&& 65527, extraFieldLen := 0, commentLen := 0 }
    let l1 := writeCDHeader l pw cd2
    let l2 := memmoveL l1 (pw + 46) (base + cd2.localHeaderOffset + 30) cd2.filenameLen
    writeDir base rest l2 (pw + 46 + cd2.filenameLen)

/-- The engine's result: the buffer (indexed from `fp_ - size_leanified`),
the returned logical length, and the diagnostics. -/
structure ZipResult where
  buf : List Nat
  size : Nat
  warns : List Warn

/-- Modelled from the spec: `Format::Leanify`, the base-class fallback used
for every archive-level failure, is declared outside `src/` (only
`formats/zip.cpp` is available).  Per §4.1 and §7 it leaves the format
unmodified — a full passthrough that only shifts the file left by
`size_leanified` bytes, as every handler must, and returns the unchanged
length. -/
def formatLeanify (sl : Nat) (l : List Nat) (size : Nat) : ZipResult :=
  ⟨memmoveL l 0 sl size, size, []⟩

/-- The full engine `Zip::Leanify` (zip.cpp:56-287) over a byte buffer. -/
def zipLeanify (o : Oracles) (cfg : Config) (sl : Nat) (l : List Nat) (size : Nat) : ZipResult :=
  let pEnd := sl + size
  let pSearchStart := max sl (pEnd - 65539)
  match findLast l pSearchStart pEnd eocdMagic with
  | none => formatLeanify sl l size
  | some pe =>
    if pe + 22 > pEnd then formatLeanify sl l size
    else
      let eocd := readEOCD l pe
      if eocd.diskNum ≠ 0 ∨ eocd.diskCdStart ≠ 0 ∨ eocd.numRecords ≠ eocd.numRecordsTotal then
        formatLeanify sl l size
      else
        let cdEnd := sl + eocd.cdOffset + eocd.cdSize
        if cdEnd > pe then formatLeanify sl l size
        else
          let zipOff := ((findFirst l sl (sl + eocd.cdOffset) lfhMagic).getD (sl + eocd.cdOffset)) - sl
          let rd := readCDs l pEnd zipOff eocd.numRecords (sl + eocd.cdOffset) cdEnd
          let w0 : List Warn := if rd.prFinal = rd.cdEndFinal then [] else [.cdSizeMismatch]
          let sorted := sortByOffset rd.cds
          let l0 := memmoveL l 0 sl zipOff
          let lp := compactLoop o cfg sl size rd.baseOff sorted l0 zipOff
          let cdOffNew := lp.pw - rd.baseOff
          let dw := writeDir rd.baseOff lp.cds lp.buf lp.pw
          let eocd2 := { eocd with
            numRecords := u16 lp.cds.length
            numRecordsTotal := u16 lp.cds.length
            cdSize := u32 (dw.2 - rd.baseOff - u32 cdOffNew)
            cdOffset := u32 cdOffNew
            commentLen := 0 }
          ⟨writeEOCD dw.1 dw.2 eocd2, dw.2 + 22, rd.warns ++ w0 ++ lp.warns⟩

/-! ## Basic lemmas about the byte-buffer primitives -/

theorem length_wByte (l : List Nat) (a v : Nat) : (wByte l a v).length = l.length := by
  simp [wByte]

theorem length_w16 (l : List Nat) (a v : Nat) : (w16 l a v).length = l.length := by
  simp [w16, length_wByte]

theorem length_w32 (l : List Nat) (a v : Nat) : (w32 l a v).length = l.length := by
  simp [w32, wByte]

theorem length_writeBytes (bs : List Nat) : ∀ (l : List Nat) (a : Nat),
    (writeBytes l a bs).length = l.length := by
  induction bs with
  | nil => intro l a; rfl
  | cons b bs ih => intro l a; simp [writeBytes, ih, length_wByte]

theorem length_memmoveL (l : List Nat) (dst src n : Nat) :
    (memmoveL l dst src n).length = l.length := by
  simp [memmoveL, length_writeBytes]

theorem length_writeCDHeader (l : List Nat) (a : Nat) (h : CDHeader) :
    (writeCDHeader l a h).length = l.length := by
  simp [writeCDHeader, length_w16, length_w32, length_writeBytes]

theorem length_writeEOCD (l : List Nat) (a : Nat) (e : EOCD) :
    (writeEOCD l a e).length = l.length := by
  simp [writeEOCD, length_w16, length_w32, length_writeBytes]

theorem getD_set_eq (l : List Nat) (i v : Nat) (h : i < l.length) :
    (l.set i v).getD i 0 = v := by
  simp [List.getD, List.getElem?_set_self', h]

theorem getD_set_ne (l : List Nat) (i j v : Nat) (h : i ≠ j) :
    (l.set i v).getD j 0 = l.getD j 0 := by
  simp [List.getD, List.getElem?_set_ne h]

theorem rByte_wByte_self (l : List Nat) (a v : Nat) (h : a < l.length) :
    rByte (wByte l a v) a = v % 256 := by
  unfold rByte wByte
  rw [getD_set_eq _ _ _ h]
  omega

theorem rByte_wByte_of_ne (l : List Nat) (a b v : Nat) (h : a ≠ b) :
    rByte (wByte l a v) b = rByte l b := by
  unfold rByte wByte
  rw [getD_set_ne _ _ _ _ h]

theorem wByte_out (l : List Nat) (a v : Nat) (h : l.length ≤ a) : wByte l a v = l :=
  List.set_eq_of_length_le h

theorem rByte_lt (l : List Nat) (a : Nat) : rByte l a < 256 :=
  Nat.mod_lt _ (by omega)

theorem r16_lt (l : List Nat) (a : Nat) : r16 l a < 65536 := by
  have h1 := rByte_lt l a
  have h2 := rByte_lt l (a + 1)
  simp only [r16]; omega

theorem r32_lt (l : List Nat) (a : Nat) : r32 l a < 4294967296 := by
  have h1 := rByte_lt l a
  have h2 := rByte_lt l (a + 1)
  have h3 := rByte_lt l (a + 2)
  have h4 := rByte_lt l (a + 3)
  simp only [r32]; omega

theorem r16_w16 (l : List Nat) (a v : Nat) (h : a + 2 ≤ l.length) :
    r16 (w16 l a v) a = u16 v := by
  unfold w16 r16
  rw [rByte_wByte_of_ne _ _ _ _ (by omega), rByte_wByte_self _ _ _ (by omega),
    rByte_wByte_self _ _ _ (by simp [length_wByte]; omega)]
  unfold u16; omega

theorem r32_w32 (l : List Nat) (a v : Nat) (h : a + 4 ≤ l.length) :
    r32 (w32 l a v) a = u32 v := by
  unfold w32 r32
  rw [rByte_wByte_of_ne _ _ _ _ (by omega), rByte_wByte_of_ne _ _ _ _ (by omega),
    rByte_wByte_of_ne _ _ _ _ (by omega), rByte_wByte_self _ _ _ (by omega),
    rByte_wByte_of_ne _ _ _ _ (by omega), rByte_wByte_of_ne _ _ _ _ (by omega),
    rByte_wByte_self _ _ _ (by simp [length_wByte]; omega),
    rByte_wByte_of_ne _ _ _ _ (by omega),
    rByte_wByte_self _ _ _ (by simp [length_wByte]; omega),
    rByte_wByte_self _ _ _ (by simp [length_wByte]; omega)]
  unfold u32; omega

/-- A write at an index outside `[a, a+2)` does not affect `r16` at `a`. -/
theorem r16_wByte_out (l : List Nat) (a b v : Nat) (h : b < a ∨ a + 2 ≤ b) :
    r16 (wByte l b v) a = r16 l a := by
  unfold r16
  rw [rByte_wByte_of_ne _ _ _ _ (by omega), rByte_wByte_of_ne _ _ _ _ (by omega)]

theorem r32_wByte_out (l : List Nat) (a b v : Nat) (h : b < a ∨ a + 4 ≤ b) :
    r32 (wByte l b v) a = r32 l a := by
  unfold r32
  rw [rByte_wByte_of_ne _ _ _ _ (by omega), rByte_wByte_of_ne _ _ _ _ (by omega),
    rByte_wByte_of_ne _ _ _ _ (by omega), rByte_wByte_of_ne _ _ _ _ (by omega)]

theorem r16_w16_out (l : List Nat) (a b v : Nat) (h : b + 2 ≤ a ∨ a + 2 ≤ b) :
    r16 (w16 l b v) a = r16 l a := by
  unfold w16
  rw [r16_wByte_out _ _ _ _ (by omega), r16_wByte_out _ _ _ _ (by omega)]

theorem r16_w32_out (l : List Nat) (a b v : Nat) (h : b + 4 ≤ a ∨ a + 2 ≤ b) :
    r16 (w32 l b v) a = r16 l a := by
  unfold w32
  rw [r16_wByte_out _ _ _ _ (by omega), r16_wByte_out _ _ _ _ (by omega),
    r16_wByte_out _ _ _ _ (by omega), r16_wByte_out _ _ _ _ (by omega)]

theorem r32_w16_out (l : List Nat) (a b v : Nat) (h : b + 2 ≤ a ∨ a + 4 ≤ b) :
    r32 (w16 l b v) a = r32 l a := by
  unfold w16
  rw [r32_wByte_out _ _ _ _ (by omega), r32_wByte_out _ _ _ _ (by omega)]

theorem r32_w32_out (l : List Nat) (a b v : Nat) (h : b + 4 ≤ a ∨ a + 4 ≤ b) :
    r32 (w32 l b v) a = r32 l a := by
  unfold w32
  rw [r32_wByte_out _ _ _ _ (by omega), r32_wByte_out _ _ _ _ (by omega),
    r32_wByte_out _ _ _ _ (by omega), r32_wByte_out _ _ _ _ (by omega)]

/-- Reading a byte after `writeBytes`: inside the (in-range part of the)
written window it returns the written byte, outside it returns the old one. -/
theorem rByte_writeBytes (bs : List Nat) : ∀ (l : List Nat) (a b : Nat),
    rByte (writeBytes l a bs) b =
      if a ≤ b ∧ b < a + bs.length ∧ b < l.length then bs.getD (b - a) 0 % 256
      else rByte l b := by
  induction bs with
  | nil =>
    intro l a b
    simp only [writeBytes, List.length_nil]
    rw [if_neg (by omega)]
  | cons x bs ih =>
    intro l a b
    simp only [writeBytes]
    rw [ih, length_wByte]
    rcases eq_or_ne a b with rfl | hab
    · rw [if_neg (by omega)]
      by_cases hb : a < l.length
      · rw [rByte_wByte_self _ _ _ hb,
          if_pos (by simp only [List.length_cons]; omega : a ≤ a ∧ a < a + (x :: bs).length ∧ a < l.length)]
        simp
      · rw [wByte_out _ _ _ (by omega),
          if_neg (by simp only [List.length_cons]; omega)]
    · rw [rByte_wByte_of_ne _ _ _ _ hab]
      by_cases h1 : a + 1 ≤ b ∧ b < a + 1 + bs.length ∧ b < l.length
      · rw [if_pos h1,
          if_pos (by simp only [List.length_cons]; omega : a ≤ b ∧ b < a + (x :: bs).length ∧ b < l.length)]
        have hba : b - a = (b - (a + 1)) + 1 := by omega
        rw [hba, List.getD_cons_succ]
      · rw [if_neg h1, if_neg (by simp only [List.length_cons]; omega)]

theorem rByte_writeBytes_out (bs : List Nat) (l : List Nat) (a b : Nat)
    (h : b < a ∨ a + bs.length ≤ b) :
    rByte (writeBytes l a bs) b = rByte l b := by
  rw [rByte_writeBytes]
  have : ¬(a ≤ b ∧ b < a + bs.length ∧ b < l.length) := by omega
  simp [this]

theorem rByte_memmoveL (l : List Nat) (dst src n b : Nat) :
    rByte (memmoveL l dst src n) b =
      if dst ≤ b ∧ b < dst + n ∧ b < l.length then rByte l (src + (b - dst))
      else rByte l b := by
  unfold memmoveL
  rw [rByte_writeBytes]
  simp only [readBytesN, List.length_map, List.length_range]
  by_cases h : dst ≤ b ∧ b < dst + n ∧ b < l.length
  · obtain ⟨u, v, w⟩ := h
    simp only [u, v, w, and_self, if_pos trivial]
    rw [List.getD_eq_getElem?_getD]
    rw [List.getElem?_map, List.getElem?_range (by omega)]
    simp only [Option.map_some', Option.getD_some]
    exact Nat.mod_eq_of_lt (rByte_lt _ _)
  · simp only [if_neg h]

theorem rByte_memmoveL_out (l : List Nat) (dst src n b : Nat)
    (h : b < dst ∨ dst + n ≤ b) :
    rByte (memmoveL l dst src n) b = rByte l b := by
  rw [rByte_memmoveL]
  have : ¬(dst ≤ b ∧ b < dst + n ∧ b < l.length) := by omega
  simp [this]

/-- Reading a byte inside the moved window gives the source byte. -/
theorem rByte_memmoveL_in (l : List Nat) (dst src n k : Nat)
    (hk : k < n) (hlen : dst + n ≤ l.length) :
    rByte (memmoveL l dst src n) (dst + k) = rByte l (src + k) := by
  rw [rByte_memmoveL]
  have h : dst ≤ dst + k ∧ dst + k < dst + n ∧ dst + k < l.length := by omega
  simp [h]

/-- `readBytesN` only depends on the bytes it reads. -/
theorem readBytesN_congr {l l' : List Nat} {a n : Nat}
    (h : ∀ k, k < n → rByte l' (a + k) = rByte l (a + k)) :
    readBytesN l' a n = readBytesN l a n := by
  unfold readBytesN
  exact List.map_congr_left (by intro k hk; exact h k (List.mem_range.mp hk))

theorem r16_congr {l l' : List Nat} {a : Nat}
    (h : ∀ k, k < 2 → rByte l' (a + k) = rByte l (a + k)) :
    r16 l' a = r16 l a := by
  have h0 := h 0 (by omega)
  have h1 := h 1 (by omega)
  rw [Nat.add_zero] at h0
  unfold r16
  rw [h0, h1]

theorem r32_congr {l l' : List Nat} {a : Nat}
    (h : ∀ k, k < 4 → rByte l' (a + k) = rByte l (a + k)) :
    r32 l' a = r32 l a := by
  have h0 := h 0 (by omega)
  have h1 := h 1 (by omega)
  have h2 := h 2 (by omega)
  have h3 := h 3 (by omega)
  rw [Nat.add_zero] at h0
  unfold r32
  rw [h0, h1, h2, h3]

theorem readBytesN_writeBytes (bs : List Nat) (l : List Nat) (a : Nat)
    (h : a + bs.length ≤ l.length) :
    readBytesN (writeBytes l a bs) a bs.length = bs.map (· % 256) := by
  apply List.ext_getElem
  · simp [readBytesN]
  · intro k h1 h2
    have hk : k < bs.length := by simpa using h2
    simp only [readBytesN, List.getElem_map, List.getElem_range]
    rw [rByte_writeBytes, if_pos ⟨by omega, by omega, by omega⟩, Nat.add_sub_cancel_left]
    rw [List.getD_eq_getElem?_getD, List.getElem?_eq_getElem hk]
    rfl

theorem r16_memmoveL_in (l : List Nat) (dst src n k : Nat)
    (h : k + 2 ≤ n) (hl : dst + n ≤ l.length) :
    r16 (memmoveL l dst src n) (dst + k) = r16 l (src + k) := by
  unfold r16
  rw [show dst + k + 1 = dst + (k + 1) by omega,
    rByte_memmoveL_in _ _ _ _ _ (by omega) hl,
    rByte_memmoveL_in _ _ _ _ _ (by omega) hl,
    show src + (k + 1) = src + k + 1 by omega]

theorem r32_memmoveL_in (l : List Nat) (dst src n k : Nat)
    (h : k + 4 ≤ n) (hl : dst + n ≤ l.length) :
    r32 (memmoveL l dst src n) (dst + k) = r32 l (src + k) := by
  unfold r32
  rw [show dst + k + 1 = dst + (k + 1) by omega,
    show dst + k + 2 = dst + (k + 2) by omega,
    show dst + k + 3 = dst + (k + 3) by omega,
    rByte_memmoveL_in _ _ _ _ _ (by omega) hl,
    rByte_memmoveL_in _ _ _ _ _ (by omega) hl,
    rByte_memmoveL_in _ _ _ _ _ (by omega) hl,
    rByte_memmoveL_in _ _ _ _ _ (by omega) hl,
    show src + (k + 1) = src + k + 1 by omega,
    show src + (k + 2) = src + k + 2 by omega,
    show src + (k + 3) = src + k + 3 by omega]

theorem readBytesN_memmoveL_in (l : List Nat) (dst src n k m : Nat)
    (h : k + m ≤ n) (hl : dst + n ≤ l.length) :
    readBytesN (memmoveL l dst src n) (dst + k) m = readBytesN l (src + k) m := by
  unfold readBytesN
  apply List.map_congr_left
  intro j hj
  have hj' := List.mem_range.mp hj
  rw [show dst + k + j = dst + (k + j) by omega,
    rByte_memmoveL_in _ _ _ _ _ (by omega) hl,
    show src + (k + j) = src + k + j by omega]

theorem r16_memmoveL_out (l : List Nat) (dst src n b : Nat)
    (h : b + 2 ≤ dst ∨ dst + n ≤ b) :
    r16 (memmoveL l dst src n) b = r16 l b :=
  r16_congr fun j hj => rByte_memmoveL_out _ _ _ _ _ (by omega)

theorem r32_memmoveL_out (l : List Nat) (dst src n b : Nat)
    (h : b + 4 ≤ dst ∨ dst + n ≤ b) :
    r32 (memmoveL l dst src n) b = r32 l b :=
  r32_congr fun j hj => rByte_memmoveL_out _ _ _ _ _ (by omega)

theorem readBytesN_memmoveL_out (l : List Nat) (dst src n b m : Nat)
    (h : b + m ≤ dst ∨ dst + n ≤ b) :
    readBytesN (memmoveL l dst src n) b m = readBytesN l b m :=
  readBytesN_congr fun j hj => rByte_memmoveL_out _ _ _ _ _ (by omega)

theorem readBytesN_writeBytes_out (bs : List Nat) (l : List Nat) (a b m : Nat)
    (h : b + m ≤ a ∨ a + bs.length ≤ b) :
    readBytesN (writeBytes l a bs) b m = readBytesN l b m :=
  readBytesN_congr fun j hj => rByte_writeBytes_out _ _ _ _ (by omega)

theorem r16_writeBytes_out (bs : List Nat) (l : List Nat) (a b : Nat)
    (h : b + 2 ≤ a ∨ a + bs.length ≤ b) :
    r16 (writeBytes l a bs) b = r16 l b :=
  r16_congr fun j hj => rByte_writeBytes_out _ _ _ _ (by omega)

theorem r32_writeBytes_out (bs : List Nat) (l : List Nat) (a b : Nat)
    (h : b + 4 ≤ a ∨ a + bs.length ≤ b) :
    r32 (writeBytes l a bs) b = r32 l b :=
  r32_congr fun j hj => rByte_writeBytes_out _ _ _ _ (by omega)

theorem rByte_w16_out (l : List Nat) (a b v : Nat) (h : b < a ∨ a + 2 ≤ b) :
    rByte (w16 l a v) b = rByte l b := by
  unfold w16
  rw [rByte_wByte_of_ne _ _ _ _ (by omega), rByte_wByte_of_ne _ _ _ _ (by omega)]

theorem rByte_w32_out (l : List Nat) (a b v : Nat) (h : b < a ∨ a + 4 ≤ b) :
    rByte (w32 l a v) b = rByte l b := by
  unfold w32
  rw [rByte_wByte_of_ne _ _ _ _ (by omega), rByte_wByte_of_ne _ _ _ _ (by omega),
    rByte_wByte_of_ne _ _ _ _ (by omega), rByte_wByte_of_ne _ _ _ _ (by omega)]

theorem readBytesN_w16_out (l : List Nat) (a b v m : Nat) (h : b + m ≤ a ∨ a + 2 ≤ b) :
    readBytesN (w16 l a v) b m = readBytesN l b m :=
  readBytesN_congr fun j hj => rByte_w16_out _ _ _ _ (by omega)

theorem readBytesN_w32_out (l : List Nat) (a b v m : Nat) (h : b + m ≤ a ∨ a + 4 ≤ b) :
    readBytesN (w32 l a v) b m = readBytesN l b m :=
  readBytesN_congr fun j hj => rByte_w32_out _ _ _ _ (by omega)

/-! ## Characterization of the EOCD backward search -/

theorem findLastAux_eq_none (l pat : List Nat) :
    ∀ (fuel a : Nat), (∀ b, b ≤ a → a < b + fuel → matchAt l b pat = false) →
    findLastAux l pat fuel a = none := by
  intro fuel
  induction fuel with
  | zero => intro a _; rfl
  | succ f ih =>
    intro a h
    cases a with
    | zero =>
      rw [findLastAux, h 0 (le_refl 0) (by omega)]
      simp
    | succ a' =>
      rw [findLastAux, h (a' + 1) (le_refl _) (by omega)]
      simp only [Bool.false_eq_true, if_false]
      exact ih a' fun b hb1 hb2 => h b (by omega) (by omega)

theorem findLastAux_eq_some (l pat : List Nat) :
    ∀ (fuel a x : Nat), x ≤ a → a < x + fuel → matchAt l x pat = true →
    (∀ y, x < y → y ≤ a → matchAt l y pat = false) →
    findLastAux l pat fuel a = some x := by
  intro fuel
  induction fuel with
  | zero => intro a x h1 h2 _ _; omega
  | succ f ih =>
    intro a x h1 h2 hm hno
    cases a with
    | zero =>
      obtain rfl : x = 0 := by omega
      rw [findLastAux, hm]
      simp
    | succ a' =>
      rcases eq_or_ne (a' + 1) x with he | hax
      · rw [findLastAux, he, hm]
        simp [he]
      · rw [findLastAux, hno (a' + 1) (by omega) (le_refl _)]
        simp only [Bool.false_eq_true, if_false]
        exact ih a' x (by omega) (by omega) hm fun y hy1 hy2 => hno y hy1 (by omega)

theorem findLastAux_some_spec (l pat : List Nat) :
    ∀ (fuel a x : Nat), findLastAux l pat fuel a = some x →
    x ≤ a ∧ a < x + fuel ∧ matchAt l x pat = true ∧
      ∀ y, x < y → y ≤ a → matchAt l y pat = false := by
  intro fuel
  induction fuel with
  | zero => intro a x h; exact absurd h (by simp [findLastAux])
  | succ f ih =>
    intro a x h
    cases a with
    | zero =>
      rw [findLastAux] at h
      by_cases hm : matchAt l 0 pat
      · rw [hm] at h
        simp only [if_true] at h
        obtain rfl : 0 = x := by injection h
        exact ⟨le_refl 0, by omega, hm, fun y hy1 hy2 => by omega⟩
      · rw [Bool.not_eq_true] at hm
        rw [hm] at h
        exact absurd h (by simp)
    | succ a' =>
      rw [findLastAux] at h
      by_cases hm : matchAt l (a' + 1) pat
      · rw [hm] at h
        simp only [if_true] at h
        obtain rfl : a' + 1 = x := by injection h
        exact ⟨le_refl _, by omega, hm, fun y hy1 hy2 => by omega⟩
      · rw [Bool.not_eq_true] at hm
        rw [hm] at h
        simp only [Bool.false_eq_true, if_false] at h
        obtain ⟨u1, u2, u3, u4⟩ := ih a' x h
        refine ⟨by omega, by omega, u3, fun y hy1 hy2 => ?_⟩
        rcases eq_or_ne y (a' + 1) with rfl | hy
        · exact hm
        · exact u4 y hy1 (by omega)

theorem findLast_eq_none (l pat : List Nat) (lo hi : Nat)
    (h : ∀ b, lo ≤ b → b + pat.length ≤ hi → matchAt l b pat = false) :
    findLast l lo hi pat = none := by
  unfold findLast
  by_cases hr : lo + pat.length ≤ hi
  · rw [if_pos hr]
    exact findLastAux_eq_none l pat _ _ fun b hb1 hb2 => h b (by omega) (by omega)
  · rw [if_neg hr]

theorem findLast_eq_some (l pat : List Nat) (lo hi x : Nat)
    (h1 : lo ≤ x) (h2 : x + pat.length ≤ hi) (hm : matchAt l x pat = true)
    (hno : ∀ y, x < y → y + pat.length ≤ hi → matchAt l y pat = false) :
    findLast l lo hi pat = some x := by
  unfold findLast
  rw [if_pos (by omega)]
  exact findLastAux_eq_some l pat _ _ x (by omega) (by omega) hm
    fun y hy1 hy2 => hno y hy1 (by omega)

theorem findLast_some_spec (l pat : List Nat) (lo hi x : Nat)
    (h : findLast l lo hi pat = some x) :
    lo ≤ x ∧ x + pat.length ≤ hi ∧ matchAt l x pat = true ∧
      ∀ y, x < y → y + pat.length ≤ hi → matchAt l y pat = false := by
  unfold findLast at h
  by_cases hr : lo + pat.length ≤ hi
  · rw [if_pos hr] at h
    obtain ⟨u1, u2, u3, u4⟩ := findLastAux_some_spec l pat _ _ x h
    exact ⟨by omega, by omega, u3, fun y hy1 hy2 => u4 y hy1 (by omega)⟩
  · rw [if_neg hr] at h
    exact absurd h (by simp)

/-! ## Concrete objects used by witnesses and counterexamples -/

/-- Oracles whose minifier and recompressor are the identity and whose
CRC is constantly zero; decompression always fails. -/
def oid : Oracles := ⟨fun _ => none, fun x => x, fun x => x, fun _ => 0⟩

/-- A default configuration: not fast, depth 1 of max 10. -/
def cfg0 : Config := ⟨false, 1, 10⟩

/-- A 1-entry stored archive: local header (+ filename "a" + payload "XY"),
central directory, EOCD.  Valid and already minimal. -/
def lfhW : List Nat :=
  [0x50, 0x4B, 0x03, 0x04, 20, 0, 0, 0, 0, 0, 0, 0, 0, 0, 0, 0, 0, 0,
   2, 0, 0, 0, 2, 0, 0, 0, 1, 0, 0, 0, 97, 88, 89]

/-- The central-directory record of `archW` (filename length 1, offsets 0). -/
def cdW : List Nat :=
  [0x50, 0x4B, 0x01, 0x02, 20, 0, 20, 0, 0, 0, 0, 0, 0, 0, 0, 0, 0, 0, 0, 0,
   2, 0, 0, 0, 2, 0, 0, 0, 1, 0, 0, 0, 0, 0, 0, 0, 0, 0, 0, 0, 0, 0, 0, 0, 0, 0, 97]

/-- The EOCD record of `archW` (1 record, cd size 47 at offset 33). -/
def eocdW : List Nat :=
  [0x50, 0x4B, 0x05, 0x06, 0, 0, 0, 0, 1, 0, 1, 0, 47, 0, 0, 0, 33, 0, 0, 0, 0, 0]

/-- The complete 102-byte valid archive. -/
def archW : List Nat := lfhW ++ cdW ++ eocdW

/-! ## Claim C7 -/

/-- **C7**: for every input buffer in which no EOCD magic occurs within the
last `65535 + 4` trailing bytes, or in which the found EOCD record would
extend past the end of the buffer, the engine performs a full passthrough:
the output is byte-identical to the input and the returned length equals
the input length. -/
theorem C7_eocd_missing_passthrough (o : Oracles) (cfg : Config) (sl : Nat)
    (l : List Nat) (size : Nat) (hlen : sl + size ≤ l.length)
    (h : (∀ a, max sl (sl + size - 65539) ≤ a → a + 4 ≤ sl + size →
            matchAt l a eocdMagic = false) ∨
         (∃ pe, findLast l (max sl (sl + size - 65539)) (sl + size) eocdMagic = some pe ∧
            pe + 22 > sl + size)) :
    zipLeanify o cfg sl l size = formatLeanify sl l size ∧
    (zipLeanify o cfg sl l size).size = size ∧
    ∀ i, i < size → rByte (zipLeanify o cfg sl l size).buf i = rByte l (sl + i) := by
  have hpass : zipLeanify o cfg sl l size = formatLeanify sl l size := by
    rcases h with h | ⟨pe, hpe, hgt⟩
    · unfold zipLeanify
      dsimp only
      rw [findLast_eq_none l eocdMagic _ _
        (fun b hb1 hb2 => h b hb1 (by simpa [eocdMagic] using hb2))]
    · unfold zipLeanify
      dsimp only
      rw [hpe]
      simp only [if_pos hgt]
  refine ⟨hpass, ?_, ?_⟩
  · rw [hpass]
    rfl
  · intro i hi
    rw [hpass]
    show rByte (memmoveL l 0 sl size) i = rByte l (sl + i)
    rw [rByte_memmoveL, if_pos ⟨by omega, by omega, by omega⟩]
    simp

/-- Witness for C7: a 5-byte buffer with no EOCD magic passes through
unchanged. -/
theorem C7_eocd_missing_passthrough_witness :
    (zipLeanify oid cfg0 0 [1, 2, 3, 4, 5] 5).size = 5 ∧
    rByte (zipLeanify oid cfg0 0 [1, 2, 3, 4, 5] 5).buf 2 = 3 :=
  have hthm := C7_eocd_missing_passthrough oid cfg0 0 [1, 2, 3, 4, 5] 5 (by decide)
    (Or.inl (by
      intro a h1 h2
      have : a ≤ 1 := by omega
      interval_cases a <;> decide))
  ⟨hthm.2.1, by rw [hthm.2.2 2 (by omega)]; decide⟩

/-! ## Scenario equations for `processEntry` -/

/-- The header-handling prefix of the entry step, on entries with no extra
field and no data-descriptor bit, reduces to `entryDispatch` on the moved
header. -/
theorem processEntry_toDispatch (o : Oracles) (cfg : Config) (sl size base : Nat)
    (cd : CDHeader) (l : List Nat) (pw pr hdr comp : Nat)
    (hpr : pr = sl + base + cd.localHeaderOffset)
    (hhdr : hdr = movedHeaderSize l pr)
    (hcomp : comp = r32 l (pr + 18))
    (hb1 : pr + 30 ≤ sl + size)
    (hmagic : readBytesN l pr 4 = lfhMagic)
    (hb2 : pr + hdr ≤ sl + size)
    (hlen : pw + hdr ≤ l.length)
    (hext : r16 l (pr + 28) = 0)
    (hf8 : r16 l (pr + 6) &&& 8 = 0)
    (hb3 : pr + comp ≤ sl + size) :
    processEntry o cfg sl size base cd l pw =
      entryDispatch o cfg { cd with localHeaderOffset := u32 (pw - base) }
        (memmoveL l pw pr hdr) pw (pw + hdr) (pr + hdr) comp (r16 l (pr + 6))
        (if r16 l (pr + 26) = cd.filenameLen then [] else [Warn.filenameLenMismatch]) := by
  subst hpr
  subst hhdr
  subst hcomp
  set pr := sl + base + cd.localHeaderOffset with hprdef
  set hdr := movedHeaderSize l pr with hhdrdef
  have hdr30 : 30 ≤ hdr := by rw [hhdrdef]; unfold movedHeaderSize; omega
  unfold processEntry
  dsimp only
  rw [if_neg (by push_neg; exact ⟨by omega, hmagic⟩)]
  rw [← hprdef, ← hhdrdef]
  rw [if_neg (by omega)]
  have hrd28 : r16 (memmoveL l pw pr hdr) (pw + 28) = r16 l (pr + 28) :=
    r16_memmoveL_in l pw pr hdr 28 (by omega) hlen
  have hrd6 : r16 (memmoveL l pw pr hdr) (pw + 6) = r16 l (pr + 6) :=
    r16_memmoveL_in l pw pr hdr 6 (by omega) hlen
  have hrd18 : r32 (memmoveL l pw pr hdr) (pw + 18) = r32 l (pr + 18) :=
    r32_memmoveL_in l pw pr hdr 18 (by omega) hlen
  rw [hrd28, hext]
  rw [if_pos rfl]
  simp only [Nat.add_zero]
  rw [hrd6, hrd18]
  have hc8 : ¬(r16 l (pr + 6) &&& 8 ≠ 0) := by simp [hf8]
  rw [if_neg hc8, if_neg hc8]
  have hc1 : ¬(pr + r32 l (pr + 18) > sl + size) := by omega
  rw [if_neg hc1]

/-- `entryDispatch` on the plain-move branch (unsupported method, encrypted,
or fast mode, with the store sub-case disabled). -/
theorem entryDispatch_move (o : Oracles) (cfg : Config) (cd1 : CDHeader)
    (l3 : List Nat) (pw pwD prD origComp flag : Nat) (w1 : List Warn)
    (hdisp : r16 l3 (pw + 8) ≠ 8 ∨ flag &&& 1 ≠ 0 ∨ cfg.isFast = true)
    (hnost : ¬(r16 l3 (pw + 8) = 0 ∧ cfg.depth ≤ cfg.maxDepth ∧ flag &&& 1 = 0)) :
    entryDispatch o cfg cd1 l3 pw pwD prD origComp flag w1 =
      ⟨cd1, memmoveL l3 pwD prD origComp,
       pwD + r32 (memmoveL l3 pwD prD origComp) (pw + 18), w1, Ctl.normal⟩ := by
  unfold entryDispatch
  dsimp only
  rw [if_pos hdisp, if_neg hnost]

/-- `entryDispatch` on the in-place store-minify branch. -/
theorem entryDispatch_store (o : Oracles) (cfg : Config) (cd1 : CDHeader)
    (l3 : List Nat) (pw pwD prD origComp flag : Nat) (w1 : List Warn)
    (hm : r16 l3 (pw + 8) = 0)
    (hdepth : cfg.depth ≤ cfg.maxDepth)
    (henc : flag &&& 1 = 0)
    (hnz : origComp ≠ 0) :
    entryDispatch o cfg cd1 l3 pw pwD prD origComp flag w1 =
      (let minified := o.leanify (readBytesN l3 prD origComp)
       let newSize := minified.length
       let l5 := w32 (w32 (writeBytes l3 pwD minified) (pw + 18) newSize) (pw + 22) newSize
       let c := o.crc32fn (readBytesN l5 pwD newSize)
       let l6 := w32 l5 (pw + 14) c
       ⟨{ cd1 with
            compressedSize := u32 newSize
            uncompressedSize := u32 newSize
            crc32 := u32 c },
        l6, pwD + r32 l6 (pw + 18), w1, Ctl.normal⟩) := by
  unfold entryDispatch
  dsimp only
  rw [hm]
  rw [if_pos (Or.inl (by omega))]
  rw [if_pos ⟨rfl, hdepth, henc⟩, if_pos hnz]

/-- `entryDispatch` on the deflate branch when decompression fails or the
length/CRC integrity check fails: the original compressed bytes are moved
verbatim and the cursor advances by the original compressed size. -/
theorem entryDispatch_deflfail (o : Oracles) (cfg : Config) (cd1 : CDHeader)
    (l3 : List Nat) (pw pwD prD origComp flag : Nat) (w1 : List Warn)
    (hm : r16 l3 (pw + 8) = 8)
    (henc : flag &&& 1 = 0)
    (hfast : cfg.isFast = false)
    (hnz : r32 l3 (pw + 22) ≠ 0)
    (hfail : o.inflate (readBytesN l3 prD origComp) = none ∨
      ∃ buf, o.inflate (readBytesN l3 prD origComp) = some buf ∧
        (buf.length ≠ r32 l3 (pw + 22) ∨ r32 l3 (pw + 14) ≠ o.crc32fn buf)) :
    entryDispatch o cfg cd1 l3 pw pwD prD origComp flag w1 =
      ⟨cd1, memmoveL l3 pwD prD origComp, pwD + origComp,
       w1 ++ [Warn.crcMismatch], Ctl.normal⟩ := by
  unfold entryDispatch
  dsimp only
  rw [hm]
  rw [if_neg (by simp [henc, hfast])]
  rw [if_neg hnz]
  rcases hfail with hnone | ⟨buf, hsome, hbad⟩
  · rw [hnone]
  · rw [hsome]
    dsimp only
    rw [if_pos hbad]

/-- `entryDispatch` on the successful deflate branch: decompression succeeds
and the integrity check passes; the representation is then selected by the
strict priority store / recompressed / original. -/
theorem entryDispatch_deflok (o : Oracles) (cfg : Config) (cd1 : CDHeader)
    (l3 : List Nat) (pw pwD prD origComp flag : Nat) (w1 : List Warn) (buf : List Nat)
    (hm : r16 l3 (pw + 8) = 8)
    (henc : flag &&& 1 = 0)
    (hfast : cfg.isFast = false)
    (hnz : r32 l3 (pw + 22) ≠ 0)
    (hsome : o.inflate (readBytesN l3 prD origComp) = some buf)
    (hlen : buf.length = r32 l3 (pw + 22))
    (hcrc : r32 l3 (pw + 14) = o.crc32fn buf) :
    entryDispatch o cfg cd1 l3 pw pwD prD origComp flag w1 =
      (let lbuf := o.leanify buf
       let newU := lbuf.length
       let outD := o.deflate lbuf
       let newC := outD.length
       if newU ≤ newC ∧ newU ≤ origComp then
         let c := o.crc32fn lbuf
         let l4 := w32 (w32 (w32 (w16 l3 (pw + 8) 0) (pw + 14) c) (pw + 18) newU) (pw + 22) newU
         let l5 := writeBytes l4 pwD lbuf
         ⟨{ cd1 with
              compressionMethod := 0
              crc32 := u32 c
              compressedSize := u32 newU
              uncompressedSize := u32 newU },
          l5, pwD + r32 l5 (pw + 18), w1, Ctl.normal⟩
       else if newC < origComp then
         let c := o.crc32fn lbuf
         let l4 := w32 (w32 (w32 l3 (pw + 14) c) (pw + 18) newC) (pw + 22) newU
         let l5 := writeBytes l4 pwD outD
         ⟨{ cd1 with
              crc32 := u32 c
              compressedSize := u32 newC
              uncompressedSize := u32 newU },
          l5, pwD + r32 l5 (pw + 18), w1, Ctl.normal⟩
       else
         let l4 := memmoveL l3 pwD prD origComp
         ⟨cd1, l4, pwD + r32 l4 (pw + 18), w1, Ctl.normal⟩) := by
  unfold entryDispatch
  dsimp only
  rw [hm]
  rw [if_neg (by simp [henc, hfast])]
  rw [if_neg hnz]
  rw [hsome]
  dsimp only
  rw [if_neg (by push_neg; exact ⟨hlen, hcrc⟩)]

/-- The entry step on the plain-move path (no extra field, no data
descriptor, dispatch to "unsupported method / encrypted / fast" with the
store sub-case disabled): the header and the payload are moved verbatim. -/
theorem processEntry_move (o : Oracles) (cfg : Config) (sl size base : Nat)
    (cd : CDHeader) (l : List Nat) (pw pr hdr comp : Nat)
    (hpr : pr = sl + base + cd.localHeaderOffset)
    (hhdr : hdr = movedHeaderSize l pr)
    (hcomp : comp = r32 l (pr + 18))
    (hb1 : pr + 30 ≤ sl + size)
    (hmagic : readBytesN l pr 4 = lfhMagic)
    (hb2 : pr + hdr ≤ sl + size)
    (hlen : pw + hdr ≤ l.length)
    (hext : r16 l (pr + 28) = 0)
    (hf8 : r16 l (pr + 6) &&& 8 = 0)
    (hb3 : pr + comp ≤ sl + size)
    (hdisp : r16 l (pr + 8) ≠ 8 ∨ r16 l (pr + 6) &&& 1 ≠ 0 ∨ cfg.isFast = true)
    (hnost : ¬(r16 l (pr + 8) = 0 ∧ cfg.depth ≤ cfg.maxDepth ∧ r16 l (pr + 6) &&& 1 = 0)) :
    processEntry o cfg sl size base cd l pw =
      ⟨{ cd with localHeaderOffset := u32 (pw - base) },
       memmoveL (memmoveL l pw pr hdr) (pw + hdr) (pr + hdr) comp,
       pw + hdr + comp,
       if r16 l (pr + 26) = cd.filenameLen then [] else [Warn.filenameLenMismatch],
       Ctl.normal⟩ := by
  have hdr30 : 30 ≤ hdr := by rw [hhdr]; unfold movedHeaderSize; omega
  rw [processEntry_toDispatch o cfg sl size base cd l pw pr hdr comp
    hpr hhdr hcomp hb1 hmagic hb2 hlen hext hf8 hb3]
  have hrd8 : r16 (memmoveL l pw pr hdr) (pw + 8) = r16 l (pr + 8) := by
    subst hhdr
    exact r16_memmoveL_in l pw pr _ 8 (by omega) hlen
  rw [entryDispatch_move o cfg _ _ _ _ _ _ _ _ (by rw [hrd8]; exact hdisp)
    (by rw [hrd8]; exact hnost)]
  have hrd18 : r32 (memmoveL l pw pr hdr) (pw + 18) = r32 l (pr + 18) := by
    subst hhdr
    exact r32_memmoveL_in l pw pr _ 18 (by omega) hlen
  have hout : r32 (memmoveL (memmoveL l pw pr hdr) (pw + hdr) (pr + hdr) comp)
      (pw + 18) = comp := by
    rw [r32_memmoveL_out _ _ _ _ _ (by omega), hrd18, hcomp]
  rw [hout]

/-- The dispatch ignores `cd1.filenameLen` (it only copies it into the
returned record) and uses `w1` only for the warning list. -/
theorem entryDispatch_dirFnLen (o : Oracles) (cfg : Config) (cd1 : CDHeader)
    (l3 : List Nat) (pw pwD prD origComp flag : Nat) (w1 w1' : List Warn) (k : Nat) :
    ∃ w, entryDispatch o cfg { cd1 with filenameLen := k } l3 pw pwD prD origComp flag w1' =
      { entryDispatch o cfg cd1 l3 pw pwD prD origComp flag w1 with
        cd := { (entryDispatch o cfg cd1 l3 pw pwD prD origComp flag w1).cd with
                filenameLen := k }
        warns := w } := by
  unfold entryDispatch
  dsimp only
  split_ifs <;> try exact ⟨_, rfl⟩
  split <;> try exact ⟨_, rfl⟩
  split_ifs <;> exact ⟨_, rfl⟩

/-- The filename-length-mismatch warning can only come from the prefix:
membership in the dispatch result's warning list reduces to membership
in `w1`. -/
theorem entryDispatch_mem_w1 (o : Oracles) (cfg : Config) (cd1 : CDHeader)
    (l3 : List Nat) (pw pwD prD origComp flag : Nat) (w1 : List Warn) :
    (Warn.filenameLenMismatch ∈ (entryDispatch o cfg cd1 l3 pw pwD prD origComp flag w1).warns ↔
      Warn.filenameLenMismatch ∈ w1) := by
  unfold entryDispatch
  dsimp only
  split_ifs <;> try simp
  split <;> try simp
  split_ifs <;> simp

/-- The rewrite ignores the directory's `filename_len` entirely: changing it
changes only the warning list and the `filename_len` carried in the returned
directory record — never the buffer, the cursor, or the control flow. -/
theorem processEntry_dirFnLen_eq (o : Oracles) (cfg : Config) (sl size base : Nat)
    (cd : CDHeader) (l : List Nat) (pw k : Nat) :
    ∃ w, processEntry o cfg sl size base { cd with filenameLen := k } l pw =
      { processEntry o cfg sl size base cd l pw with
        cd := { (processEntry o cfg sl size base cd l pw).cd with filenameLen := k }
        warns := w } := by
  unfold processEntry
  dsimp only
  set pr := sl + base + cd.localHeaderOffset with hpr
  by_cases c1 : pr + 30 > sl + size ∨ readBytesN l pr 4 ≠ lfhMagic
  · rw [if_pos c1, if_pos c1]
    exact ⟨_, rfl⟩
  · rw [if_neg c1, if_neg c1]
    set hdr := movedHeaderSize l pr with hhdr
    by_cases c2 : pr + hdr > sl + size
    · rw [if_pos c2, if_pos c2]
      exact ⟨_, rfl⟩
    · rw [if_neg c2, if_neg c2]
      set L1 := memmoveL l pw pr hdr with hL1
      set L2 := (if r16 L1 (pw + 28) = 0 then L1 else w16 L1 (pw + 28) 0) with hL2
      set F := r16 L2 (pw + 6) with hF
      by_cases c4 : pr + r16 L1 (pw + 28) +
          (if F &&& 8 ≠ 0 then cd.compressedSize else r32 L2 (pw + 18)) > sl + size
      · rw [if_pos c4, if_pos c4]
        exact ⟨_, rfl⟩
      · rw [if_neg c4, if_neg c4]
        exact entryDispatch_dirFnLen o cfg
          { cd with localHeaderOffset := u32 (pw - base) } _ pw _ _ _ _ _ _ k

/-! ## Claim C3 -/

/-- A buffer whose local file header (at offset 10) declares filename
length 0 and carries a 1-byte payload `0xAA`, while the central directory
declares filename length 2. -/
def lC3 : List Nat :=
  [9, 9, 9, 9, 9, 9, 9, 9, 9, 9,
   0x50, 0x4B, 0x03, 0x04, 20, 0, 0, 0, 0, 0, 0, 0, 0, 0, 0, 0, 0, 0,
   1, 0, 0, 0, 1, 0, 0, 0, 0, 0, 0, 0, 170]

/-- The directory record for `lC3`: `filename_len = 2` (disagreeing with
the header's 0), offset 10. -/
def cdC3 : CDHeader :=
  ⟨20, 20, 0, 0, 0, 0, 0, 1, 1, 2, 0, 0, 0, 0, 0, 10⟩

/-- A configuration whose depth exceeds the maximum (so a store-method
entry is moved, not re-minified). -/
def cfgDeep : Config := ⟨false, 2, 1⟩

/-- **C3, counterexample**: the claim says the moved header size is
`30 + filename_len` *of the central directory* (here `32`).  On this entry
the engine moves `30 + 0` bytes — `30 +` the local header's own filename
length — so the 1-byte payload lands at write offset `30` (byte `0xAA`) and
the cursor advances to `31`, not `33`; the disagreement is only warned
about. -/
theorem C3_counterexample :
    movedHeaderSize lC3 10 = 30 ∧
    dirHeaderSizeSpec cdC3 = 32 ∧
    (processEntry oid cfgDeep 0 41 0 cdC3 lC3 0).warns = [Warn.filenameLenMismatch] ∧
    rByte (processEntry oid cfgDeep 0 41 0 cdC3 lC3 0).buf 30 = 170 ∧
    (processEntry oid cfgDeep 0 41 0 cdC3 lC3 0).pw = 31 := by
  refine ⟨by decide, by decide, ?_, ?_, ?_⟩ <;> decide

/-- **C3, amended**: the moved header size is `30 +` the *local header's*
`filename_len` field (`movedHeaderSize`), not the directory's; a
disagreement with the directory's `filename_len` produces only a warning:
the directory's value influences neither the bytes written, the cursor, nor
the control flow, and on the plain-move path the engine moves exactly
`movedHeaderSize l pr` header bytes from the local header to the write
cursor. -/
theorem C3_amended (o : Oracles) (cfg : Config) (sl size base : Nat)
    (cd : CDHeader) (l : List Nat) (pw k pr : Nat)
    (hpr : pr = sl + base + cd.localHeaderOffset) :
    ((processEntry o cfg sl size base { cd with filenameLen := k } l pw).buf =
       (processEntry o cfg sl size base cd l pw).buf ∧
     (processEntry o cfg sl size base { cd with filenameLen := k } l pw).pw =
       (processEntry o cfg sl size base cd l pw).pw ∧
     (processEntry o cfg sl size base { cd with filenameLen := k } l pw).ctl =
       (processEntry o cfg sl size base cd l pw).ctl) ∧
    (pr + 30 ≤ sl + size → readBytesN l pr 4 = lfhMagic →
      (Warn.filenameLenMismatch ∈ (processEntry o cfg sl size base cd l pw).warns ↔
        r16 l (pr + 26) ≠ cd.filenameLen)) ∧
    (pr + 30 ≤ sl + size → readBytesN l pr 4 = lfhMagic →
     pr + movedHeaderSize l pr ≤ sl + size → pw + movedHeaderSize l pr ≤ l.length →
     r16 l (pr + 28) = 0 → r16 l (pr + 6) &&& 8 = 0 →
     pr + r32 l (pr + 18) ≤ sl + size →
     (r16 l (pr + 8) ≠ 8 ∨ r16 l (pr + 6) &&& 1 ≠ 0 ∨ cfg.isFast = true) →
     ¬(r16 l (pr + 8) = 0 ∧ cfg.depth ≤ cfg.maxDepth ∧ r16 l (pr + 6) &&& 1 = 0) →
      readBytesN (processEntry o cfg sl size base cd l pw).buf pw (movedHeaderSize l pr) =
        readBytesN l pr (movedHeaderSize l pr)) := by
  subst hpr
  refine ⟨?_, ?_, ?_⟩
  · obtain ⟨w, hw⟩ := processEntry_dirFnLen_eq o cfg sl size base cd l pw k
    rw [hw]
    exact ⟨rfl, rfl, rfl⟩
  · intro h1 h2
    unfold processEntry
    dsimp only
    rw [if_neg (by push_neg; exact ⟨by omega, h2⟩)]
    set pr := sl + base + cd.localHeaderOffset with hprd
    have hw1 : Warn.filenameLenMismatch ∈
        (if r16 l (pr + 26) = cd.filenameLen then ([] : List Warn)
         else [Warn.filenameLenMismatch]) ↔ r16 l (pr + 26) ≠ cd.filenameLen := by
      split_ifs with hfn <;> simp [hfn]
    set hdr := movedHeaderSize l pr with hhdr
    by_cases c2 : pr + hdr > sl + size
    · rw [if_pos c2]
      dsimp only
      simp
    · rw [if_neg c2]
      set L1 := memmoveL l pw pr hdr with hL1
      set L2 := (if r16 L1 (pw + 28) = 0 then L1 else w16 L1 (pw + 28) 0) with hL2
      set F := r16 L2 (pw + 6) with hF
      by_cases c4 : pr + r16 L1 (pw + 28) +
          (if F &&& 8 ≠ 0 then cd.compressedSize else r32 L2 (pw + 18)) > sl + size
      · rw [if_pos c4]
        dsimp only
        simp
      · rw [if_neg c4]
        rw [entryDispatch_mem_w1]
        exact hw1
  · intro h1 h2 h3 h4 h5 h6 h7 h8 h9
    rw [processEntry_move o cfg sl size base cd l pw _ _ _ rfl rfl rfl h1 h2 h3 h4 h5 h6 h7 h8 h9]
    dsimp only
    rw [readBytesN_memmoveL_out _ _ _ _ _ _ (by omega)]
    have hin := readBytesN_memmoveL_in l pw (sl + base + cd.localHeaderOffset)
      (movedHeaderSize l (sl + base + cd.localHeaderOffset)) 0
      (movedHeaderSize l (sl + base + cd.localHeaderOffset)) (by omega) h4
    simpa using hin

/-- Witness for C3's amended theorem: on the valid archive `archW`'s entry
(header at 0, agreeing filename lengths), the warning is absent and the
payload is placed after the 31-byte header. -/
theorem C3_amended_witness :
    (Warn.filenameLenMismatch ∈ (processEntry oid cfgDeep 0 102 0
        (readCDHeader archW 33) archW 0).warns ↔ r16 archW 26 ≠ (readCDHeader archW 33).filenameLen) ∧
    readBytesN (processEntry oid cfgDeep 0 102 0 (readCDHeader archW 33) archW 0).buf 0
        (movedHeaderSize archW 0) = readBytesN archW 0 (movedHeaderSize archW 0) :=
  have hthm := C3_amended oid cfgDeep 0 102 0 (readCDHeader archW 33) archW 0 7 0 (by decide)
  ⟨hthm.2.1 (by decide) (by decide),
   hthm.2.2 (by decide) (by decide) (by decide) (by decide) (by decide) (by decide)
     (by decide) (Or.inl (by decide)) (by decide)⟩

/-! ## Claim C8 -/

/-- **C8**: when the fast-mode flag is set, a deflate-method entry's
compressed payload is moved to the write cursor unchanged — never
decompressed or recompressed — and its directory crc/sizes/method are left
untouched; a store-method, non-encrypted entry with nonzero size within the
recursion-depth limit is still passed through the external recursive
minifier in place, its directory crc and sizes updated to the minified
result. -/
theorem C8_fast_mode (o : Oracles) (cfg : Config) (sl size base : Nat)
    (cd : CDHeader) (l : List Nat) (pw pr hdr comp : Nat)
    (hpr : pr = sl + base + cd.localHeaderOffset)
    (hhdr : hdr = movedHeaderSize l pr)
    (hcomp : comp = r32 l (pr + 18))
    (hb1 : pr + 30 ≤ sl + size)
    (hmagic : readBytesN l pr 4 = lfhMagic)
    (hb2 : pr + hdr ≤ sl + size)
    (hlen : pw + hdr ≤ l.length)
    (hext : r16 l (pr + 28) = 0)
    (hf8 : r16 l (pr + 6) &&& 8 = 0)
    (hb3 : pr + comp ≤ sl + size)
    (hple : pw ≤ pr)
    (hfast : cfg.isFast = true) :
    (r16 l (pr + 8) = 8 → pw + hdr + comp ≤ l.length →
      readBytesN (processEntry o cfg sl size base cd l pw).buf (pw + hdr) comp =
        readBytesN l (pr + hdr) comp ∧
      (processEntry o cfg sl size base cd l pw).pw = pw + hdr + comp ∧
      (processEntry o cfg sl size base cd l pw).cd.crc32 = cd.crc32 ∧
      (processEntry o cfg sl size base cd l pw).cd.compressedSize = cd.compressedSize ∧
      (processEntry o cfg sl size base cd l pw).cd.uncompressedSize = cd.uncompressedSize ∧
      (processEntry o cfg sl size base cd l pw).cd.compressionMethod = cd.compressionMethod) ∧
    (r16 l (pr + 8) = 0 → cfg.depth ≤ cfg.maxDepth → r16 l (pr + 6) &&& 1 = 0 → comp ≠ 0 →
      ∀ mini, mini = o.leanify (readBytesN l (pr + hdr) comp) →
      pw + hdr + mini.length ≤ l.length → mini.length < 4294967296 →
      readBytesN (processEntry o cfg sl size base cd l pw).buf (pw + hdr) mini.length =
        mini.map (· % 256) ∧
      (processEntry o cfg sl size base cd l pw).cd.compressedSize = mini.length ∧
      (processEntry o cfg sl size base cd l pw).cd.uncompressedSize = mini.length ∧
      (processEntry o cfg sl size base cd l pw).cd.crc32 =
        u32 (o.crc32fn (mini.map (· % 256))) ∧
      (processEntry o cfg sl size base cd l pw).pw = pw + hdr + mini.length) := by
  have hdr30 : 30 ≤ hdr := by rw [hhdr]; unfold movedHeaderSize; omega
  constructor
  · intro hm8 hlen2
    rw [processEntry_move o cfg sl size base cd l pw pr hdr comp hpr hhdr hcomp
      hb1 hmagic hb2 hlen hext hf8 hb3 (Or.inr (Or.inr hfast)) (by rw [hm8]; simp)]
    dsimp only
    refine ⟨?_, rfl, rfl, rfl, rfl, rfl⟩
    have hout := readBytesN_memmoveL_in (memmoveL l pw pr hdr) (pw + hdr) (pr + hdr)
      comp 0 comp (by omega) (by rw [length_memmoveL]; omega)
    simp only [Nat.add_zero] at hout
    rw [hout]
    exact readBytesN_memmoveL_out _ _ _ _ _ _ (by omega)
  · intro hm0 hdep henc hnz mini hminidef hlenm hm32
    rw [processEntry_toDispatch o cfg sl size base cd l pw pr hdr comp hpr hhdr hcomp
      hb1 hmagic hb2 hlen hext hf8 hb3]
    have hrd8 : r16 (memmoveL l pw pr hdr) (pw + 8) = r16 l (pr + 8) := by
      rw [hhdr] at *
      exact r16_memmoveL_in l pw pr _ 8 (by unfold movedHeaderSize; omega) hlen
    rw [entryDispatch_store o cfg _ _ _ _ _ _ _ _ (by rw [hrd8]; exact hm0) hdep henc hnz]
    dsimp only
    have hpayload : readBytesN (memmoveL l pw pr hdr) (pr + hdr) comp =
        readBytesN l (pr + hdr) comp :=
      readBytesN_memmoveL_out _ _ _ _ _ _ (by omega)
    rw [hpayload, ← hminidef]
    set B0 := writeBytes (memmoveL l pw pr hdr) (pw + hdr) mini with hB0
    set B1 := w32 B0 (pw + 18) mini.length with hB1
    set B2 := w32 B1 (pw + 22) mini.length with hB2
    have hlB0 : B0.length = l.length := by
      rw [hB0, length_writeBytes, length_memmoveL]
    have hlB1 : B1.length = l.length := by rw [hB1, length_w32, hlB0]
    have hlB2 : B2.length = l.length := by rw [hB2, length_w32, hlB1]
    have hdata0 : readBytesN B0 (pw + hdr) mini.length = mini.map (· % 256) := by
      rw [hB0]
      exact readBytesN_writeBytes mini _ _ (by rw [length_memmoveL]; omega)
    have hdata : readBytesN B2 (pw + hdr) mini.length = mini.map (· % 256) := by
      rw [hB2, readBytesN_w32_out B1 (pw + 22) (pw + hdr) mini.length mini.length
          (Or.inr (by omega)),
        hB1, readBytesN_w32_out B0 (pw + 18) (pw + hdr) mini.length mini.length
          (Or.inr (by omega)), hdata0]
    rw [hdata]
    set c := o.crc32fn (mini.map (· % 256)) with hc
    have hrd18out : r32 (w32 B2 (pw + 14) c) (pw + 18) = mini.length := by
      rw [r32_w32_out B2 (pw + 18) (pw + 14) c (Or.inl (by omega)),
        hB2, r32_w32_out B1 (pw + 18) (pw + 22) mini.length (Or.inr (by omega)),
        hB1, r32_w32 B0 (pw + 18) mini.length (by rw [hlB0]; omega)]
      exact Nat.mod_eq_of_lt hm32
    have hdata2 : readBytesN (w32 B2 (pw + 14) c) (pw + hdr) mini.length =
        mini.map (· % 256) := by
      rw [readBytesN_w32_out B2 (pw + 14) (pw + hdr) c mini.length (Or.inr (by omega)), hdata]
    rw [hrd18out, hdata2]
    refine ⟨rfl, ?_, ?_, rfl, rfl⟩ <;>
      exact (by show u32 mini.length = mini.length; exact Nat.mod_eq_of_lt hm32)

/-- The fast-mode configuration. -/
def cfgF : Config := ⟨true, 1, 10⟩

/-- A 31-byte deflate-method entry (method 8, 1-byte payload `7`). -/
def lD8 : List Nat :=
  [0x50, 0x4B, 0x03, 0x04, 20, 0, 0, 0, 8, 0, 0, 0, 0, 0, 0, 0, 0, 0,
   1, 0, 0, 0, 1, 0, 0, 0, 0, 0, 0, 0, 7]

/-- The directory record of `lD8`. -/
def cdD8 : CDHeader := ⟨20, 20, 0, 8, 0, 0, 0, 1, 1, 0, 0, 0, 0, 0, 0, 0⟩

/-- Witness for C8: in fast mode, a deflate entry's payload byte is moved
verbatim and its directory sizes are untouched, while a store entry is
still minified (here to itself by the identity minifier). -/
theorem C8_fast_mode_witness :
    readBytesN (processEntry oid cfgF 0 31 0 cdD8 lD8 0).buf 30 1 = [7] ∧
    (processEntry oid cfgF 0 31 0 cdD8 lD8 0).cd.compressedSize = 1 ∧
    (processEntry oid cfgF 0 102 0 (readCDHeader archW 33) archW 0).cd.compressedSize = 2 :=
  have h1 := (C8_fast_mode oid cfgF 0 31 0 cdD8 lD8 0 0 30 1 (by decide) (by decide)
    (by decide) (by decide) (by decide) (by decide) (by decide) (by decide) (by decide)
    (by decide) (by decide) rfl).1 (by decide) (by decide)
  have h2 := (C8_fast_mode oid cfgF 0 102 0 (readCDHeader archW 33) archW 0 0 31 2
    (by decide) (by decide) (by decide) (by decide) (by decide) (by decide) (by decide)
    (by decide) (by decide) (by decide) (by decide) rfl).2 (by decide) (by decide)
    (by decide) (by decide) [88, 89] (by decide) (by decide) (by decide)
  ⟨by rw [h1.1]; decide, h1.2.2.2.1.trans (by decide), h2.2.1.trans (by decide)⟩

/-! ## Claim C2 -/

/-- **C2**: for a deflate entry (not encrypted, not fast mode, nonzero
uncompressed size) whose payload decompresses to `buf` with matching length
and CRC, the output representation follows the exact priority of
zip.cpp:241-254: store if `newU ≤ newC ∧ newU ≤ comp`; else the recompressed
bytes if `newC < comp`; else the original bytes verbatim — and method, crc,
and sizes are updated consistently on the directory record and the
rewritten header. -/
theorem C2_deflate_selection (o : Oracles) (cfg : Config) (sl size base : Nat)
    (cd : CDHeader) (l : List Nat) (pw pr hdr comp : Nat) (buf : List Nat)
    (hpr : pr = sl + base + cd.localHeaderOffset)
    (hhdr : hdr = movedHeaderSize l pr)
    (hcomp : comp = r32 l (pr + 18))
    (hb1 : pr + 30 ≤ sl + size)
    (hmagic : readBytesN l pr 4 = lfhMagic)
    (hb2 : pr + hdr ≤ sl + size)
    (hlen : pw + hdr ≤ l.length)
    (hext : r16 l (pr + 28) = 0)
    (hf8 : r16 l (pr + 6) &&& 8 = 0)
    (hb3 : pr + comp ≤ sl + size)
    (hple : pw ≤ pr)
    (hfast : cfg.isFast = false)
    (hm8 : r16 l (pr + 8) = 8)
    (hcdm : cd.compressionMethod = 8)
    (henc : r16 l (pr + 6) &&& 1 = 0)
    (husz : r32 l (pr + 22) ≠ 0)
    (hinf : o.inflate (readBytesN l (pr + hdr) comp) = some buf)
    (hblen : buf.length = r32 l (pr + 22))
    (hbcrc : o.crc32fn buf = r32 l (pr + 14)) :
    ∀ lbuf outD, lbuf = o.leanify buf → outD = o.deflate lbuf →
    pw + hdr + comp ≤ l.length → pw + hdr + lbuf.length ≤ l.length →
    pw + hdr + outD.length ≤ l.length →
    lbuf.length < 4294967296 → outD.length < 4294967296 →
    ((lbuf.length ≤ outD.length ∧ lbuf.length ≤ comp →
      (processEntry o cfg sl size base cd l pw).cd.compressionMethod = 0 ∧
      r16 (processEntry o cfg sl size base cd l pw).buf (pw + 8) = 0 ∧
      (processEntry o cfg sl size base cd l pw).cd.compressedSize = lbuf.length ∧
      r32 (processEntry o cfg sl size base cd l pw).buf (pw + 18) = lbuf.length ∧
      (processEntry o cfg sl size base cd l pw).cd.uncompressedSize = lbuf.length ∧
      r32 (processEntry o cfg sl size base cd l pw).buf (pw + 22) = lbuf.length ∧
      (processEntry o cfg sl size base cd l pw).cd.crc32 = u32 (o.crc32fn lbuf) ∧
      r32 (processEntry o cfg sl size base cd l pw).buf (pw + 14) = u32 (o.crc32fn lbuf) ∧
      readBytesN (processEntry o cfg sl size base cd l pw).buf (pw + hdr) lbuf.length =
        lbuf.map (· % 256) ∧
      (processEntry o cfg sl size base cd l pw).pw = pw + hdr + lbuf.length) ∧
     (¬(lbuf.length ≤ outD.length ∧ lbuf.length ≤ comp) → outD.length < comp →
      (processEntry o cfg sl size base cd l pw).cd.compressionMethod = 8 ∧
      r16 (processEntry o cfg sl size base cd l pw).buf (pw + 8) = 8 ∧
      (processEntry o cfg sl size base cd l pw).cd.compressedSize = outD.length ∧
      r32 (processEntry o cfg sl size base cd l pw).buf (pw + 18) = outD.length ∧
      (processEntry o cfg sl size base cd l pw).cd.uncompressedSize = lbuf.length ∧
      r32 (processEntry o cfg sl size base cd l pw).buf (pw + 22) = lbuf.length ∧
      (processEntry o cfg sl size base cd l pw).cd.crc32 = u32 (o.crc32fn lbuf) ∧
      r32 (processEntry o cfg sl size base cd l pw).buf (pw + 14) = u32 (o.crc32fn lbuf) ∧
      readBytesN (processEntry o cfg sl size base cd l pw).buf (pw + hdr) outD.length =
        outD.map (· % 256) ∧
      (processEntry o cfg sl size base cd l pw).pw = pw + hdr + outD.length) ∧
     (¬(lbuf.length ≤ outD.length ∧ lbuf.length ≤ comp) → ¬(outD.length < comp) →
      (processEntry o cfg sl size base cd l pw).cd.compressionMethod = 8 ∧
      r16 (processEntry o cfg sl size base cd l pw).buf (pw + 8) = 8 ∧
      (processEntry o cfg sl size base cd l pw).cd.compressedSize = cd.compressedSize ∧
      r32 (processEntry o cfg sl size base cd l pw).buf (pw + 18) = comp ∧
      (processEntry o cfg sl size base cd l pw).cd.uncompressedSize = cd.uncompressedSize ∧
      r32 (processEntry o cfg sl size base cd l pw).buf (pw + 22) = r32 l (pr + 22) ∧
      (processEntry o cfg sl size base cd l pw).cd.crc32 = cd.crc32 ∧
      r32 (processEntry o cfg sl size base cd l pw).buf (pw + 14) = r32 l (pr + 14) ∧
      readBytesN (processEntry o cfg sl size base cd l pw).buf (pw + hdr) comp =
        readBytesN l (pr + hdr) comp ∧
      (processEntry o cfg sl size base cd l pw).pw = pw + hdr + comp)) := by
  intro lbuf outD hlbuf houtD hc1 hc2 hc3 hm32U hm32C
  have hdr30 : 30 ≤ hdr := by rw [hhdr]; unfold movedHeaderSize; omega
  set L1 := memmoveL l pw pr hdr with hL1
  have hlL1 : L1.length = l.length := by rw [hL1, length_memmoveL]
  have hrd8 : r16 L1 (pw + 8) = r16 l (pr + 8) := by
    rw [hL1, hhdr] at *
    exact r16_memmoveL_in l pw pr _ 8 (by unfold movedHeaderSize; omega) hlen
  have hrd14 : r32 L1 (pw + 14) = r32 l (pr + 14) := by
    rw [hL1, hhdr] at *
    exact r32_memmoveL_in l pw pr _ 14 (by unfold movedHeaderSize; omega) hlen
  have hrd18 : r32 L1 (pw + 18) = r32 l (pr + 18) := by
    rw [hL1, hhdr] at *
    exact r32_memmoveL_in l pw pr _ 18 (by unfold movedHeaderSize; omega) hlen
  have hrd22 : r32 L1 (pw + 22) = r32 l (pr + 22) := by
    rw [hL1, hhdr] at *
    exact r32_memmoveL_in l pw pr _ 22 (by unfold movedHeaderSize; omega) hlen
  have hpay : readBytesN L1 (pr + hdr) comp = readBytesN l (pr + hdr) comp := by
    rw [hL1]
    exact readBytesN_memmoveL_out _ _ _ _ _ _ (by omega)
  rw [processEntry_toDispatch o cfg sl size base cd l pw pr hdr comp hpr hhdr hcomp
    hb1 hmagic hb2 hlen hext hf8 hb3, ← hL1]
  rw [entryDispatch_deflok o cfg _ L1 pw (pw + hdr) (pr + hdr) comp (r16 l (pr + 6)) _ buf
    (by rw [hrd8]; exact hm8) henc hfast (by rw [hrd22]; exact husz)
    (by rw [hpay]; exact hinf) (by rw [hrd22]; exact hblen) (by rw [hrd14]; exact hbcrc.symm)]
  dsimp only
  rw [← hlbuf, ← houtD]
  refine ⟨?_, ?_, ?_⟩
  · intro hsel
    rw [if_pos hsel]
    dsimp only
    set c := o.crc32fn lbuf with hcdef
    set B1 := w16 L1 (pw + 8) 0 with hB1
    set B2 := w32 B1 (pw + 14) c with hB2
    set B3 := w32 B2 (pw + 18) lbuf.length with hB3
    set B4 := w32 B3 (pw + 22) lbuf.length with hB4
    set B5 := writeBytes B4 (pw + hdr) lbuf with hB5
    have hlB1 : B1.length = l.length := by rw [hB1, length_w16, hlL1]
    have hlB2 : B2.length = l.length := by rw [hB2, length_w32, hlB1]
    have hlB3 : B3.length = l.length := by rw [hB3, length_w32, hlB2]
    have hlB4 : B4.length = l.length := by rw [hB4, length_w32, hlB3]
    have h8 : r16 B5 (pw + 8) = 0 := by
      rw [hB5, r16_writeBytes_out lbuf B4 (pw + hdr) (pw + 8) (Or.inl (by omega)),
        hB4, r16_w32_out B3 (pw + 8) (pw + 22) lbuf.length (Or.inr (by omega)),
        hB3, r16_w32_out B2 (pw + 8) (pw + 18) lbuf.length (Or.inr (by omega)),
        hB2, r16_w32_out B1 (pw + 8) (pw + 14) c (Or.inr (by omega)),
        hB1, r16_w16 L1 (pw + 8) 0 (by rw [hlL1]; omega)]
      rfl
    have h18 : r32 B5 (pw + 18) = lbuf.length := by
      rw [hB5, r32_writeBytes_out lbuf B4 (pw + hdr) (pw + 18) (Or.inl (by omega)),
        hB4, r32_w32_out B3 (pw + 18) (pw + 22) lbuf.length (Or.inr (by omega)),
        hB3, r32_w32 B2 (pw + 18) lbuf.length (by rw [hlB2]; omega)]
      exact Nat.mod_eq_of_lt hm32U
    have h22 : r32 B5 (pw + 22) = lbuf.length := by
      rw [hB5, r32_writeBytes_out lbuf B4 (pw + hdr) (pw + 22) (Or.inl (by omega)),
        hB4, r32_w32 B3 (pw + 22) lbuf.length (by rw [hlB3]; omega)]
      exact Nat.mod_eq_of_lt hm32U
    have h14 : r32 B5 (pw + 14) = u32 c := by
      rw [hB5, r32_writeBytes_out lbuf B4 (pw + hdr) (pw + 14) (Or.inl (by omega)),
        hB4, r32_w32_out B3 (pw + 14) (pw + 22) lbuf.length (Or.inr (by omega)),
        hB3, r32_w32_out B2 (pw + 14) (pw + 18) lbuf.length (Or.inr (by omega)),
        hB2, r32_w32 B1 (pw + 14) c (by rw [hlB1]; omega)]
    have hdata : readBytesN B5 (pw + hdr) lbuf.length = lbuf.map (· % 256) := by
      rw [hB5]
      exact readBytesN_writeBytes lbuf B4 (pw + hdr) (by rw [hlB4]; omega)
    exact ⟨rfl, h8, Nat.mod_eq_of_lt hm32U, h18, Nat.mod_eq_of_lt hm32U, h22, rfl, h14,
      hdata, by rw [h18]⟩
  · intro hsel1 hsel2
    rw [if_neg hsel1, if_pos hsel2]
    dsimp only
    set c := o.crc32fn lbuf with hcdef
    set B2 := w32 L1 (pw + 14) c with hB2
    set B3 := w32 B2 (pw + 18) outD.length with hB3
    set B4 := w32 B3 (pw + 22) lbuf.length with hB4
    set B5 := writeBytes B4 (pw + hdr) outD with hB5
    have hlB2 : B2.length = l.length := by rw [hB2, length_w32, hlL1]
    have hlB3 : B3.length = l.length := by rw [hB3, length_w32, hlB2]
    have hlB4 : B4.length = l.length := by rw [hB4, length_w32, hlB3]
    have h8 : r16 B5 (pw + 8) = 8 := by
      rw [hB5, r16_writeBytes_out outD B4 (pw + hdr) (pw + 8) (Or.inl (by omega)),
        hB4, r16_w32_out B3 (pw + 8) (pw + 22) lbuf.length (Or.inr (by omega)),
        hB3, r16_w32_out B2 (pw + 8) (pw + 18) outD.length (Or.inr (by omega)),
        hB2, r16_w32_out L1 (pw + 8) (pw + 14) c (Or.inr (by omega)),
        hrd8]
      exact hm8
    have h18 : r32 B5 (pw + 18) = outD.length := by
      rw [hB5, r32_writeBytes_out outD B4 (pw + hdr) (pw + 18) (Or.inl (by omega)),
        hB4, r32_w32_out B3 (pw + 18) (pw + 22) lbuf.length (Or.inr (by omega)),
        hB3, r32_w32 B2 (pw + 18) outD.length (by rw [hlB2]; omega)]
      exact Nat.mod_eq_of_lt hm32C
    have h22 : r32 B5 (pw + 22) = lbuf.length := by
      rw [hB5, r32_writeBytes_out outD B4 (pw + hdr) (pw + 22) (Or.inl (by omega)),
        hB4, r32_w32 B3 (pw + 22) lbuf.length (by rw [hlB3]; omega)]
      exact Nat.mod_eq_of_lt hm32U
    have h14 : r32 B5 (pw + 14) = u32 c := by
      rw [hB5, r32_writeBytes_out outD B4 (pw + hdr) (pw + 14) (Or.inl (by omega)),
        hB4, r32_w32_out B3 (pw + 14) (pw + 22) lbuf.length (Or.inr (by omega)),
        hB3, r32_w32_out B2 (pw + 14) (pw + 18) outD.length (Or.inr (by omega)),
        hB2, r32_w32 L1 (pw + 14) c (by rw [hlL1]; omega)]
    have hdata : readBytesN B5 (pw + hdr) outD.length = outD.map (· % 256) := by
      rw [hB5]
      exact readBytesN_writeBytes outD B4 (pw + hdr) (by rw [hlB4]; omega)
    exact ⟨hcdm, h8, Nat.mod_eq_of_lt hm32C, h18, Nat.mod_eq_of_lt hm32U, h22, rfl, h14,
      hdata, by rw [h18]⟩
  · intro hsel1 hsel2
    rw [if_neg hsel1, if_neg hsel2]
    dsimp only
    set B5 := memmoveL L1 (pw + hdr) (pr + hdr) comp with hB5
    have h8 : r16 B5 (pw + 8) = 8 := by
      rw [hB5, r16_memmoveL_out L1 (pw + hdr) (pr + hdr) comp (pw + 8) (Or.inl (by omega)),
        hrd8]
      exact hm8
    have h18 : r32 B5 (pw + 18) = comp := by
      rw [hB5, r32_memmoveL_out L1 (pw + hdr) (pr + hdr) comp (pw + 18) (Or.inl (by omega)),
        hrd18, hcomp]
    have h22 : r32 B5 (pw + 22) = r32 l (pr + 22) := by
      rw [hB5, r32_memmoveL_out L1 (pw + hdr) (pr + hdr) comp (pw + 22) (Or.inl (by omega)),
        hrd22]
    have h14 : r32 B5 (pw + 14) = r32 l (pr + 14) := by
      rw [hB5, r32_memmoveL_out L1 (pw + hdr) (pr + hdr) comp (pw + 14) (Or.inl (by omega)),
        hrd14]
    have hdata : readBytesN B5 (pw + hdr) comp = readBytesN l (pr + hdr) comp := by
      rw [hB5]
      have hin := readBytesN_memmoveL_in L1 (pw + hdr) (pr + hdr) comp 0 comp
        (by omega) (by rw [hlL1]; omega)
      simp only [Nat.add_zero] at hin
      rw [hin, hpay]
    exact ⟨hcdm, h8, rfl, h18, rfl, h22, rfl, h14, hdata, by rw [h18]⟩

/-- Oracles for the C2 witness: decompression yields `[65, 66, 67]` with
CRC 5, the minifier is the identity, and recompression yields the 2-byte
stream `[1, 2]`. -/
def oC2 : Oracles :=
  ⟨fun _ => some [65, 66, 67], fun _ => [1, 2], fun x => x,
   fun bs => if bs = [65, 66, 67] then 5 else 9⟩

/-- A 34-byte deflate entry: crc 5, compressed size 4, uncompressed size 3. -/
def lC2 : List Nat :=
  [0x50, 0x4B, 0x03, 0x04, 20, 0, 0, 0, 8, 0, 0, 0, 0, 0, 5, 0, 0, 0,
   4, 0, 0, 0, 3, 0, 0, 0, 0, 0, 0, 0, 9, 9, 9, 9]

/-- The directory record of `lC2`. -/
def cdC2 : CDHeader := ⟨20, 20, 0, 8, 0, 0, 5, 4, 3, 0, 0, 0, 0, 0, 0, 0⟩

/-- Witness for C2: on `lC2` the recompressed stream (2 bytes) beats the
original (4 bytes) but not store (3 bytes), so the new deflate bytes are
chosen and both size fields are updated to 2. -/
theorem C2_deflate_selection_witness :
    r32 (processEntry oC2 cfg0 0 34 0 cdC2 lC2 0).buf 18 = 2 ∧
    readBytesN (processEntry oC2 cfg0 0 34 0 cdC2 lC2 0).buf 30 2 = [1, 2] ∧
    (processEntry oC2 cfg0 0 34 0 cdC2 lC2 0).cd.compressedSize = 2 :=
  have h := (C2_deflate_selection oC2 cfg0 0 34 0 cdC2 lC2 0 0 30 4 [65, 66, 67]
    (by decide) (by decide) (by decide) (by decide) (by decide) (by decide) (by decide)
    (by decide) (by decide) (by decide) (by decide) rfl (by decide) (by decide) (by decide)
    (by decide) (by decide) (by decide) (by decide))
    [65, 66, 67] [1, 2] (by decide) (by decide) (by decide) (by decide) (by decide)
    (by decide) (by decide)
  have h2 := h.2.1 (by decide) (by decide)
  ⟨h2.2.2.2.1.trans (by decide), h2.2.2.2.2.2.2.2.2.1.trans (by decide),
   h2.2.2.1.trans (by decide)⟩

/-! ## Claim C6 -/

/-- Oracles for the C6 counterexample: decompression yields `[7]` whose CRC
is 100; recompression yields 2 bytes. -/
def oC6 : Oracles :=
  ⟨fun _ => some [7], fun _ => [9, 9], fun x => x,
   fun bs => if bs = [7] then 100 else 0⟩

/-- A deflate entry whose *local header* CRC (100) matches the decompressed
data but whose *central directory* CRC (999) does not. -/
def lC6 : List Nat :=
  [0x50, 0x4B, 0x03, 0x04, 20, 0, 0, 0, 8, 0, 0, 0, 0, 0, 100, 0, 0, 0,
   3, 0, 0, 0, 1, 0, 0, 0, 0, 0, 0, 0, 3, 3, 3]

/-- The directory record of `lC6`, with `crc32 = 999 ≠ 100`. -/
def cdC6 : CDHeader := ⟨20, 20, 0, 8, 0, 0, 999, 3, 1, 0, 0, 0, 0, 0, 0, 0⟩

/-- **C6, counterexample**: this entry's decompressed CRC (100) does *not*
match the central directory's recorded value (999), so by the claim its
original compressed bytes `[3,3,3]` must be copied unchanged.  The engine,
however, verifies against the rewritten local header's CRC (100), which
matches — so it transforms the entry: the payload becomes the 1-byte store
`[7]` and `compressed_size` becomes 1. -/
theorem C6_counterexample :
    cdC6.crc32 ≠ oC6.crc32fn [7] ∧
    oC6.inflate (readBytesN lC6 30 3) = some [7] ∧
    rByte (processEntry oC6 cfg0 0 33 0 cdC6 lC6 0).buf 30 = 7 ∧
    r32 (processEntry oC6 cfg0 0 33 0 cdC6 lC6 0).buf 18 = 1 ∧
    (processEntry oC6 cfg0 0 33 0 cdC6 lC6 0).cd.compressedSize = 1 := by
  refine ⟨by decide, by decide, ?_, ?_, ?_⟩ <;> decide

/-- **C6, amended**: for a deflate entry whose decompression fails, or whose
decompressed length or CRC32 does not match the values in the *rewritten
local header* (which coincide with the directory's values whenever the
data-descriptor bit was set, and with the header's own values otherwise —
here the bit-3-clear case), the original compressed bytes are copied
unchanged, the directory record keeps its crc/sizes, only a diagnostic is
emitted, and the loop continues with the remaining entries. -/
theorem C6_amended (o : Oracles) (cfg : Config) (sl size base : Nat)
    (cd : CDHeader) (l : List Nat) (pw pr hdr comp : Nat)
    (hpr : pr = sl + base + cd.localHeaderOffset)
    (hhdr : hdr = movedHeaderSize l pr)
    (hcomp : comp = r32 l (pr + 18))
    (hb1 : pr + 30 ≤ sl + size)
    (hmagic : readBytesN l pr 4 = lfhMagic)
    (hb2 : pr + hdr ≤ sl + size)
    (hlen : pw + hdr ≤ l.length)
    (hext : r16 l (pr + 28) = 0)
    (hf8 : r16 l (pr + 6) &&& 8 = 0)
    (hb3 : pr + comp ≤ sl + size)
    (hple : pw ≤ pr)
    (hfast : cfg.isFast = false)
    (hm8 : r16 l (pr + 8) = 8)
    (henc : r16 l (pr + 6) &&& 1 = 0)
    (husz : r32 l (pr + 22) ≠ 0)
    (hfail : o.inflate (readBytesN l (pr + hdr) comp) = none ∨
      ∃ buf, o.inflate (readBytesN l (pr + hdr) comp) = some buf ∧
        (buf.length ≠ r32 l (pr + 22) ∨ r32 l (pr + 14) ≠ o.crc32fn buf))
    (hc1 : pw + hdr + comp ≤ l.length) :
    readBytesN (processEntry o cfg sl size base cd l pw).buf (pw + hdr) comp =
      readBytesN l (pr + hdr) comp ∧
    (processEntry o cfg sl size base cd l pw).pw = pw + hdr + comp ∧
    (processEntry o cfg sl size base cd l pw).ctl = Ctl.normal ∧
    (processEntry o cfg sl size base cd l pw).cd =
      { cd with localHeaderOffset := u32 (pw - base) } ∧
    Warn.crcMismatch ∈ (processEntry o cfg sl size base cd l pw).warns ∧
    ∀ rest, compactLoop o cfg sl size base (cd :: rest) l pw =
      ⟨(processEntry o cfg sl size base cd l pw).cd ::
         (compactLoop o cfg sl size base rest (processEntry o cfg sl size base cd l pw).buf
           (processEntry o cfg sl size base cd l pw).pw).cds,
       (compactLoop o cfg sl size base rest (processEntry o cfg sl size base cd l pw).buf
         (processEntry o cfg sl size base cd l pw).pw).buf,
       (compactLoop o cfg sl size base rest (processEntry o cfg sl size base cd l pw).buf
         (processEntry o cfg sl size base cd l pw).pw).pw,
       (processEntry o cfg sl size base cd l pw).warns ++
         (compactLoop o cfg sl size base rest (processEntry o cfg sl size base cd l pw).buf
           (processEntry o cfg sl size base cd l pw).pw).warns⟩ := by
  have hdr30 : 30 ≤ hdr := by rw [hhdr]; unfold movedHeaderSize; omega
  set L1 := memmoveL l pw pr hdr with hL1
  have hlL1 : L1.length = l.length := by rw [hL1, length_memmoveL]
  have hrd8 : r16 L1 (pw + 8) = r16 l (pr + 8) := by
    rw [hL1, hhdr] at *
    exact r16_memmoveL_in l pw pr _ 8 (by unfold movedHeaderSize; omega) hlen
  have hrd14 : r32 L1 (pw + 14) = r32 l (pr + 14) := by
    rw [hL1, hhdr] at *
    exact r32_memmoveL_in l pw pr _ 14 (by unfold movedHeaderSize; omega) hlen
  have hrd22 : r32 L1 (pw + 22) = r32 l (pr + 22) := by
    rw [hL1, hhdr] at *
    exact r32_memmoveL_in l pw pr _ 22 (by unfold movedHeaderSize; omega) hlen
  have hpay : readBytesN L1 (pr + hdr) comp = readBytesN l (pr + hdr) comp := by
    rw [hL1]
    exact readBytesN_memmoveL_out _ _ _ _ _ _ (by omega)
  have heq : processEntry o cfg sl size base cd l pw =
      ⟨{ cd with localHeaderOffset := u32 (pw - base) },
       memmoveL L1 (pw + hdr) (pr + hdr) comp, pw + hdr + comp,
       (if r16 l (pr + 26) = cd.filenameLen then [] else [Warn.filenameLenMismatch]) ++
         [Warn.crcMismatch], Ctl.normal⟩ := by
    rw [processEntry_toDispatch o cfg sl size base cd l pw pr hdr comp hpr hhdr hcomp
      hb1 hmagic hb2 hlen hext hf8 hb3, ← hL1]
    rw [entryDispatch_deflfail o cfg _ L1 pw (pw + hdr) (pr + hdr) comp (r16 l (pr + 6)) _
      (by rw [hrd8]; exact hm8) henc hfast (by rw [hrd22]; exact husz)
      (by rw [hpay, hrd22, hrd14]; exact hfail)]
  rw [heq]
  dsimp only
  refine ⟨?_, rfl, rfl, rfl, by simp, ?_⟩
  · have hin := readBytesN_memmoveL_in L1 (pw + hdr) (pr + hdr) comp 0 comp
      (by omega) (by rw [hlL1]; omega)
    simp only [Nat.add_zero] at hin
    rw [hin, hpay]
  · intro rest
    rw [compactLoop, heq]

/-- Witness for C6's amended theorem: with an always-failing decompressor,
the 1-byte payload of `lD8` is copied unchanged and the loop continues. -/
theorem C6_amended_witness :
    readBytesN (processEntry oid cfg0 0 31 0 cdD8 lD8 0).buf 30 1 = [7] ∧
    (processEntry oid cfg0 0 31 0 cdD8 lD8 0).pw = 31 ∧
    Warn.crcMismatch ∈ (processEntry oid cfg0 0 31 0 cdD8 lD8 0).warns :=
  have h := C6_amended oid cfg0 0 31 0 cdD8 lD8 0 0 30 1 (by decide) (by decide)
    (by decide) (by decide) (by decide) (by decide) (by decide) (by decide) (by decide)
    (by decide) (by decide) rfl (by decide) (by decide) (by decide)
    (Or.inl (by decide)) (by decide)
  ⟨h.1.trans (by decide), h.2.1, h.2.2.2.2.1⟩

/-! ## Claim C5 -/

/-- The prefix lemma for entries with the data-descriptor bit set: the
header is moved, bit 3 is cleared in the written copy, and the crc/sizes
fields are overwritten with the directory's authoritative values before
dispatch; the authoritative compressed size is the directory's. -/
theorem processEntry_toDispatch8 (o : Oracles) (cfg : Config) (sl size base : Nat)
    (cd : CDHeader) (l : List Nat) (pw pr hdr : Nat)
    (hpr : pr = sl + base + cd.localHeaderOffset)
    (hhdr : hdr = movedHeaderSize l pr)
    (hb1 : pr + 30 ≤ sl + size)
    (hmagic : readBytesN l pr 4 = lfhMagic)
    (hb2 : pr + hdr ≤ sl + size)
    (hlen : pw + hdr ≤ l.length)
    (hext : r16 l (pr + 28) = 0)
    (hf8 : r16 l (pr + 6) &&& 8 ≠ 0)
    (hb3 : pr + cd.compressedSize ≤ sl + size) :
    processEntry o cfg sl size base cd l pw =
      entryDispatch o cfg { cd with localHeaderOffset := u32 (pw - base) }
        (w32 (w32 (w32 (w16 (memmoveL l pw pr hdr) (pw + 6) (r16 l (pr + 6) &&& 65527))
          (pw + 14) cd.crc32) (pw + 18) cd.compressedSize) (pw + 22) cd.uncompressedSize)
        pw (pw + hdr) (pr + hdr) cd.compressedSize (r16 l (pr + 6))
        (if r16 l (pr + 26) = cd.filenameLen then [] else [Warn.filenameLenMismatch]) := by
  subst hpr
  subst hhdr
  set pr := sl + base + cd.localHeaderOffset with hprdef
  set hdr := movedHeaderSize l pr with hhdrdef
  have hdr30 : 30 ≤ hdr := by rw [hhdrdef]; unfold movedHeaderSize; omega
  unfold processEntry
  dsimp only
  rw [if_neg (by push_neg; exact ⟨by omega, hmagic⟩)]
  rw [← hprdef, ← hhdrdef]
  rw [if_neg (by omega)]
  have hrd28 : r16 (memmoveL l pw pr hdr) (pw + 28) = r16 l (pr + 28) :=
    r16_memmoveL_in l pw pr hdr 28 (by omega) hlen
  have hrd6 : r16 (memmoveL l pw pr hdr) (pw + 6) = r16 l (pr + 6) :=
    r16_memmoveL_in l pw pr hdr 6 (by omega) hlen
  rw [hrd28, hext]
  rw [if_pos rfl]
  simp only [Nat.add_zero]
  rw [hrd6]
  rw [if_pos hf8, if_pos hf8]
  rw [if_neg (by omega : ¬(pr + cd.compressedSize > sl + size))]

/-- Bit 3 of `x &&& 0xFFF7` is always clear. -/
theorem and_65527_bit3 (x : Nat) : (x &&& 65527) &&& 8 = 0 := by
  rw [Nat.and_assoc, show (65527 &&& 8 : Nat) = 0 by decide, Nat.and_zero]

/-- `x &&& 0xFFF7` fits in 16 bits whenever `x` is a 16-bit read. -/
theorem and_65527_lt (x : Nat) : x &&& 65527 < 65536 :=
  lt_of_le_of_lt (Nat.and_le_right) (by omega)

/-- Oracles for the C5 counterexample: decompression yields 4 bytes of CRC
77; recompression yields a single byte. -/
def oC5 : Oracles := ⟨fun _ => some [5, 5, 5, 5], fun _ => [1], fun x => x, fun _ => 77⟩

/-- A deflate entry with the data-descriptor bit set: the header's crc and
sizes are zero, the directory holds the authoritative crc 77 and sizes
3 / 4. -/
def lC5 : List Nat :=
  [0x50, 0x4B, 0x03, 0x04, 20, 0, 8, 0, 8, 0, 0, 0, 0, 0, 0, 0, 0, 0,
   0, 0, 0, 0, 0, 0, 0, 0, 0, 0, 0, 0, 9, 9, 9]

/-- The directory record of `lC5`: bit 3 set, crc 77, compressed size 3,
uncompressed size 4. -/
def cdC5 : CDHeader := ⟨20, 20, 8, 8, 0, 0, 77, 3, 4, 0, 0, 0, 0, 0, 0, 0⟩

/-- **C5, counterexample**: this entry had the data-descriptor bit set, so
by the claim the rewritten header's `compressed_size` must equal the
original central directory's value (3).  The engine first installs 3, but
then recompresses the payload to 1 byte and overwrites the field: the final
header (and directory record) say 1, not 3. -/
theorem C5_counterexample :
    r16 lC5 6 &&& 8 ≠ 0 ∧
    cdC5.compressedSize = 3 ∧
    r32 (processEntry oC5 cfg0 0 33 0 cdC5 lC5 0).buf 18 = 1 ∧
    (processEntry oC5 cfg0 0 33 0 cdC5 lC5 0).cd.compressedSize = 1 := by
  refine ⟨by decide, by decide, ?_, ?_⟩ <;> decide

/-- The start offsets of the records the directory writer emits. -/
def dirRecordPos : List CDHeader → Nat → List Nat
  | [], _ => []
  | cd :: rest, pw => pw :: dirRecordPos rest (pw + 46 + cd.filenameLen)

theorem length_writeDir (base : Nat) :
    ∀ (cds : List CDHeader) (l : List Nat) (pw : Nat),
    (writeDir base cds l pw).1.length = l.length := by
  intro cds
  induction cds with
  | nil => intro l pw; rfl
  | cons cd rest ih =>
    intro l pw
    show (writeDir base rest _ _).1.length = _
    rw [ih, length_memmoveL, length_writeCDHeader]

/-- The directory writer never touches bytes below its write cursor. -/
theorem rByte_writeDir_lt (base : Nat) :
    ∀ (cds : List CDHeader) (l : List Nat) (pw j : Nat), j < pw →
    rByte (writeDir base cds l pw).1 j = rByte l j := by
  intro cds
  induction cds with
  | nil => intro l pw j _; rfl
  | cons cd rest ih =>
    intro l pw j hj
    show rByte (writeDir base rest _ _).1 j = _
    rw [ih _ _ _ (by omega)]
    unfold memmoveL
    rw [rByte_writeBytes_out _ _ _ _ (Or.inl (by omega))]
    unfold writeCDHeader
    rw [rByte_w32_out _ _ _ _ (by omega), rByte_w32_out _ _ _ _ (by omega),
      rByte_w16_out _ _ _ _ (by omega), rByte_w16_out _ _ _ _ (by omega),
      rByte_w16_out _ _ _ _ (by omega), rByte_w16_out _ _ _ _ (by omega),
      rByte_w16_out _ _ _ _ (by omega), rByte_w32_out _ _ _ _ (by omega),
      rByte_w32_out _ _ _ _ (by omega), rByte_w32_out _ _ _ _ (by omega),
      rByte_w16_out _ _ _ _ (by omega), rByte_w16_out _ _ _ _ (by omega),
      rByte_w16_out _ _ _ _ (by omega), rByte_w16_out _ _ _ _ (by omega),
      rByte_w16_out _ _ _ _ (by omega), rByte_w16_out _ _ _ _ (by omega),
      rByte_writeBytes_out _ _ _ _ (Or.inl (by omega))]

/-- The flag field written for a directory record reads back with bit 3
clear. -/
theorem r16_writeCDHeader_flag (l : List Nat) (a : Nat) (h : CDHeader)
    (hl : a + 10 ≤ l.length) :
    r16 (writeCDHeader l a h) (a + 8) = u16 h.flag := by
  unfold writeCDHeader
  rw [r16_w32_out _ _ _ _ (by omega), r16_w32_out _ _ _ _ (by omega),
    r16_w16_out _ _ _ _ (by omega), r16_w16_out _ _ _ _ (by omega),
    r16_w16_out _ _ _ _ (by omega), r16_w16_out _ _ _ _ (by omega),
    r16_w16_out _ _ _ _ (by omega), r16_w32_out _ _ _ _ (by omega),
    r16_w32_out _ _ _ _ (by omega), r16_w32_out _ _ _ _ (by omega),
    r16_w16_out _ _ _ _ (by omega), r16_w16_out _ _ _ _ (by omega),
    r16_w16_out _ _ _ _ (by omega),
    r16_w16 _ _ _ (by rw [length_w16, length_w16, length_writeBytes]; omega)]

/-- Every record the directory writer emits has the data-descriptor bit
cleared in its flag field. -/
theorem writeDir_bit3_clear (base : Nat) :
    ∀ (cds : List CDHeader) (l : List Nat) (pw p : Nat),
    p ∈ dirRecordPos cds pw → p + 10 ≤ l.length →
    r16 (writeDir base cds l pw).1 (p + 8) &&& 8 = 0 := by
  intro cds
  induction cds with
  | nil => intro l pw p hp _; exact absurd hp (by simp [dirRecordPos])
  | cons cd rest ih =>
    intro l pw p hp hl
    have hstep : writeDir base (cd :: rest) l pw = writeDir base rest
        (memmoveL (writeCDHeader l pw { cd with flag := cd.flag &&& 65527, extraFieldLen := 0, commentLen := 0 })
          (pw + 46) (base + cd.localHeaderOffset + 30) cd.filenameLen)
        (pw + 46 + cd.filenameLen) := rfl
    rw [hstep]
    rcases (by simpa [dirRecordPos] using hp :
        p = pw ∨ p ∈ dirRecordPos rest (pw + 46 + cd.filenameLen)) with rfl | hp2
    · have h1 : r16 (writeDir base rest
          (memmoveL (writeCDHeader l p { cd with flag := cd.flag &&& 65527, extraFieldLen := 0, commentLen := 0 })
            (p + 46) (base + cd.localHeaderOffset + 30) cd.filenameLen)
          (p + 46 + cd.filenameLen)).1 (p + 8) =
          r16 (memmoveL (writeCDHeader l p { cd with flag := cd.flag &&& 65527, extraFieldLen := 0, commentLen := 0 })
            (p + 46) (base + cd.localHeaderOffset + 30) cd.filenameLen) (p + 8) :=
        r16_congr fun k hk => rByte_writeDir_lt base rest _ _ _ (by omega)
      rw [h1, r16_memmoveL_out _ _ _ _ _ (Or.inl (by omega)),
        r16_writeCDHeader_flag _ _ _ (by omega)]
      dsimp only
      rw [show u16 (cd.flag &&& 65527) = cd.flag &&& 65527 from
        Nat.mod_eq_of_lt (and_65527_lt _), and_65527_bit3]
    · exact ih _ _ _ hp2 (by rw [length_memmoveL, length_writeCDHeader]; omega)

/-- **C5, amended**: (i) every record the directory writer emits has the
data-descriptor bit cleared; (ii) for an entry that had the bit set, the
rewritten header has the bit cleared and its crc32 / compressed_size /
uncompressed_size fields are set to the central directory's authoritative
values; they still equal those original directory values in the final
output whenever the engine copies the payload unchanged (shown here for the
unsupported-method move path), and the returned directory record carries
the same values — the compression engine may later update header and
directory together, which is why "always equal the original values" had to
be weakened (see the counterexample). -/
theorem C5_amended (o : Oracles) (cfg : Config) (sl size base : Nat)
    (cd : CDHeader) (l : List Nat) (pw pr hdr : Nat)
    (hpr : pr = sl + base + cd.localHeaderOffset)
    (hhdr : hdr = movedHeaderSize l pr)
    (hb1 : pr + 30 ≤ sl + size)
    (hmagic : readBytesN l pr 4 = lfhMagic)
    (hb2 : pr + hdr ≤ sl + size)
    (hlen : pw + hdr ≤ l.length)
    (hext : r16 l (pr + 28) = 0)
    (hf8 : r16 l (pr + 6) &&& 8 ≠ 0)
    (hb3 : pr + cd.compressedSize ≤ sl + size)
    (hm8 : r16 l (pr + 8) ≠ 8)
    (hm0 : r16 l (pr + 8) ≠ 0) :
    (∀ (cds : List CDHeader) (l2 : List Nat) (pw2 p : Nat),
      p ∈ dirRecordPos cds pw2 → p + 10 ≤ l2.length →
      r16 (writeDir base cds l2 pw2).1 (p + 8) &&& 8 = 0) ∧
    r16 (processEntry o cfg sl size base cd l pw).buf (pw + 6) &&& 8 = 0 ∧
    r32 (processEntry o cfg sl size base cd l pw).buf (pw + 14) = u32 cd.crc32 ∧
    (processEntry o cfg sl size base cd l pw).cd.crc32 = cd.crc32 ∧
    r32 (processEntry o cfg sl size base cd l pw).buf (pw + 18) = u32 cd.compressedSize ∧
    (processEntry o cfg sl size base cd l pw).cd.compressedSize = cd.compressedSize ∧
    r32 (processEntry o cfg sl size base cd l pw).buf (pw + 22) = u32 cd.uncompressedSize ∧
    (processEntry o cfg sl size base cd l pw).cd.uncompressedSize = cd.uncompressedSize ∧
    (processEntry o cfg sl size base cd l pw).pw = pw + hdr + u32 cd.compressedSize := by
  have hdr30 : 30 ≤ hdr := by rw [hhdr]; unfold movedHeaderSize; omega
  refine ⟨fun cds l2 pw2 p hp hl2 => writeDir_bit3_clear base cds l2 pw2 p hp hl2, ?_⟩
  set L1 := memmoveL l pw pr hdr with hL1
  have hlL1 : L1.length = l.length := by rw [hL1, length_memmoveL]
  have hrd8 : r16 L1 (pw + 8) = r16 l (pr + 8) := by
    rw [hL1, hhdr] at *
    exact r16_memmoveL_in l pw pr _ 8 (by unfold movedHeaderSize; omega) hlen
  rw [processEntry_toDispatch8 o cfg sl size base cd l pw pr hdr hpr hhdr
    hb1 hmagic hb2 hlen hext hf8 hb3, ← hL1]
  set B1 := w16 L1 (pw + 6) (r16 l (pr + 6) &&& 65527) with hB1
  set B2 := w32 B1 (pw + 14) cd.crc32 with hB2
  set B3 := w32 B2 (pw + 18) cd.compressedSize with hB3
  set B4 := w32 B3 (pw + 22) cd.uncompressedSize with hB4
  have hlB1 : B1.length = l.length := by rw [hB1, length_w16, hlL1]
  have hlB2 : B2.length = l.length := by rw [hB2, length_w32, hlB1]
  have hlB3 : B3.length = l.length := by rw [hB3, length_w32, hlB2]
  have hlB4 : B4.length = l.length := by rw [hB4, length_w32, hlB3]
  have hm : r16 B4 (pw + 8) = r16 l (pr + 8) := by
    rw [hB4, r16_w32_out B3 (pw + 8) (pw + 22) cd.uncompressedSize (Or.inr (by omega)),
      hB3, r16_w32_out B2 (pw + 8) (pw + 18) cd.compressedSize (Or.inr (by omega)),
      hB2, r16_w32_out B1 (pw + 8) (pw + 14) cd.crc32 (Or.inr (by omega)),
      hB1, r16_w16_out L1 (pw + 8) (pw + 6) (r16 l (pr + 6) &&& 65527) (Or.inl (by omega)),
      hrd8]
  rw [entryDispatch_move o cfg _ B4 pw (pw + hdr) (pr + hdr) cd.compressedSize
    (r16 l (pr + 6)) _ (Or.inl (by rw [hm]; exact hm8)) (by rw [hm]; exact fun hc => hm0 hc.1)]
  dsimp only
  set L4 := memmoveL B4 (pw + hdr) (pr + hdr) cd.compressedSize with hL4
  have h6 : r16 L4 (pw + 6) = u16 (r16 l (pr + 6) &&& 65527) := by
    rw [hL4, r16_memmoveL_out B4 (pw + hdr) (pr + hdr) cd.compressedSize (pw + 6)
        (Or.inl (by omega)),
      hB4, r16_w32_out B3 (pw + 6) (pw + 22) cd.uncompressedSize (Or.inr (by omega)),
      hB3, r16_w32_out B2 (pw + 6) (pw + 18) cd.compressedSize (Or.inr (by omega)),
      hB2, r16_w32_out B1 (pw + 6) (pw + 14) cd.crc32 (Or.inr (by omega)),
      hB1, r16_w16 L1 (pw + 6) (r16 l (pr + 6) &&& 65527) (by rw [hlL1]; omega)]
  have h14 : r32 L4 (pw + 14) = u32 cd.crc32 := by
    rw [hL4, r32_memmoveL_out B4 (pw + hdr) (pr + hdr) cd.compressedSize (pw + 14)
        (Or.inl (by omega)),
      hB4, r32_w32_out B3 (pw + 14) (pw + 22) cd.uncompressedSize (Or.inr (by omega)),
      hB3, r32_w32_out B2 (pw + 14) (pw + 18) cd.compressedSize (Or.inr (by omega)),
      hB2, r32_w32 B1 (pw + 14) cd.crc32 (by rw [hlB1]; omega)]
  have h18 : r32 L4 (pw + 18) = u32 cd.compressedSize := by
    rw [hL4, r32_memmoveL_out B4 (pw + hdr) (pr + hdr) cd.compressedSize (pw + 18)
        (Or.inl (by omega)),
      hB4, r32_w32_out B3 (pw + 18) (pw + 22) cd.uncompressedSize (Or.inr (by omega)),
      hB3, r32_w32 B2 (pw + 18) cd.compressedSize (by rw [hlB2]; omega)]
  have h22 : r32 L4 (pw + 22) = u32 cd.uncompressedSize := by
    rw [hL4, r32_memmoveL_out B4 (pw + hdr) (pr + hdr) cd.compressedSize (pw + 22)
        (Or.inl (by omega)),
      hB4, r32_w32 B3 (pw + 22) cd.uncompressedSize (by rw [hlB3]; omega)]
  refine ⟨?_, h14, rfl, h18, rfl, h22, rfl, by rw [h18]⟩
  rw [h6, show u16 (r16 l (pr + 6) &&& 65527) = r16 l (pr + 6) &&& 65527 from
    Nat.mod_eq_of_lt (and_65527_lt _), and_65527_bit3]

/-- A variant of `lC5` whose compression method is the unsupported value
99 (still with the data-descriptor bit set). -/
def lC5w : List Nat :=
  [0x50, 0x4B, 0x03, 0x04, 20, 0, 8, 0, 99, 0, 0, 0, 0, 0, 0, 0, 0, 0,
   0, 0, 0, 0, 0, 0, 0, 0, 0, 0, 0, 0, 9, 9, 9]

/-- The directory record of `lC5w`. -/
def cdC5w : CDHeader := ⟨20, 20, 8, 99, 0, 0, 77, 3, 4, 0, 0, 0, 0, 0, 0, 0⟩

/-- Witness for C5's amended theorem: an entry with bit 3 set and an
unsupported compression method (99) is moved unchanged; its header reads
back the directory's crc 77 and sizes 3 / 4 with bit 3 cleared. -/
theorem C5_amended_witness :
    r16 (processEntry oid cfg0 0 33 0 cdC5w lC5w 0).buf 6 &&& 8 = 0 ∧
    r32 (processEntry oid cfg0 0 33 0 cdC5w lC5w 0).buf 14 = 77 ∧
    r32 (processEntry oid cfg0 0 33 0 cdC5w lC5w 0).buf 18 = 3 ∧
    r32 (processEntry oid cfg0 0 33 0 cdC5w lC5w 0).buf 22 = 4 :=
  have h := C5_amended oid cfg0 0 33 0 cdC5w lC5w 0 0 30 (by decide) (by decide)
    (by decide) (by decide) (by decide) (by decide) (by decide) (by decide) (by decide)
    (by decide) (by decide)
  ⟨h.2.1, h.2.2.1.trans (by decide), h.2.2.2.2.1.trans (by decide),
   h.2.2.2.2.2.2.1.trans (by decide)⟩

/-! ## The rewrite path of `zipLeanify` as one equation -/

/-- When the EOCD is found and all archive-level validations pass, the
engine takes the rewrite path; this spells that path out once for the
claims about the whole run. -/
theorem zipLeanify_eq (o : Oracles) (cfg : Config) (sl : Nat) (l : List Nat)
    (size pe : Nat)
    (hfl : findLast l (max sl (sl + size - 65539)) (sl + size) eocdMagic = some pe)
    (hpe : pe + 22 ≤ sl + size)
    (hd1 : (readEOCD l pe).diskNum = 0)
    (hd2 : (readEOCD l pe).diskCdStart = 0)
    (hd3 : (readEOCD l pe).numRecords = (readEOCD l pe).numRecordsTotal)
    (hcd : sl + (readEOCD l pe).cdOffset + (readEOCD l pe).cdSize ≤ pe) :
    zipLeanify o cfg sl l size =
      (let eocd := readEOCD l pe
       let zipOff := ((findFirst l sl (sl + eocd.cdOffset) lfhMagic).getD
         (sl + eocd.cdOffset)) - sl
       let rd := readCDs l (sl + size) zipOff eocd.numRecords (sl + eocd.cdOffset)
         (sl + eocd.cdOffset + eocd.cdSize)
       let w0 : List Warn := if rd.prFinal = rd.cdEndFinal then [] else [Warn.cdSizeMismatch]
       let lp := compactLoop o cfg sl size rd.baseOff (sortByOffset rd.cds)
         (memmoveL l 0 sl zipOff) zipOff
       let cdOffNew := lp.pw - rd.baseOff
       let dw := writeDir rd.baseOff lp.cds lp.buf lp.pw
       let eocd2 := { eocd with numRecords := u16 lp.cds.length, numRecordsTotal := u16 lp.cds.length, cdSize := u32 (dw.2 - rd.baseOff - u32 cdOffNew), cdOffset := u32 cdOffNew, commentLen := 0 }
       ⟨writeEOCD dw.1 dw.2 eocd2, dw.2 + 22, rd.warns ++ w0 ++ lp.warns⟩) := by
  unfold zipLeanify
  dsimp only
  rw [hfl]
  dsimp only
  have h1 : ¬ (pe + 22 > sl + size) := by omega
  rw [if_neg h1]
  have h2 : ¬ ((readEOCD l pe).diskNum ≠ 0 ∨ (readEOCD l pe).diskCdStart ≠ 0 ∨
      (readEOCD l pe).numRecords ≠ (readEOCD l pe).numRecordsTotal) := by
    push_neg; exact ⟨hd1, hd2, hd3⟩
  rw [if_neg h2]
  have h3 : ¬ (sl + (readEOCD l pe).cdOffset + (readEOCD l pe).cdSize > pe) := by omega
  rw [if_neg h3]

theorem length_insertByOffset (h : CDHeader) :
    ∀ l : List CDHeader, (insertByOffset h l).length = l.length + 1 := by
  intro l
  induction l with
  | nil => rfl
  | cons x xs ih =>
    unfold insertByOffset
    split_ifs <;> simp [ih]

theorem length_sortByOffset (l : List CDHeader) :
    (sortByOffset l).length = l.length := by
  induction l with
  | nil => rfl
  | cons x xs ih =>
    show (insertByOffset x (sortByOffset xs)).length = _
    rw [length_insertByOffset, ih, List.length_cons]

/-- The compaction loop never drops an entry: skipped and unprocessed
entries stay in the list the directory writer will emit. -/
theorem compactLoop_length (o : Oracles) (cfg : Config) (sl size base : Nat) :
    ∀ (cds : List CDHeader) (l : List Nat) (pw : Nat),
    (compactLoop o cfg sl size base cds l pw).cds.length = cds.length := by
  intro cds
  induction cds with
  | nil => intro l pw; rfl
  | cons cd rest ih =>
    intro l pw
    unfold compactLoop
    dsimp only
    split
    · simp
    · simp [ih]

theorem r16_writeEOCD_num (l : List Nat) (a : Nat) (e : EOCD)
    (hl : a + 10 ≤ l.length) :
    r16 (writeEOCD l a e) (a + 8) = u16 e.numRecords := by
  unfold writeEOCD
  rw [r16_w16_out _ _ _ _ (by omega), r16_w32_out _ _ _ _ (by omega),
    r16_w32_out _ _ _ _ (by omega), r16_w16_out _ _ _ _ (by omega),
    r16_w16 _ _ _ (by rw [length_w16, length_w16, length_writeBytes]; omega)]

theorem r16_writeEOCD_total (l : List Nat) (a : Nat) (e : EOCD)
    (hl : a + 12 ≤ l.length) :
    r16 (writeEOCD l a e) (a + 10) = u16 e.numRecordsTotal := by
  unfold writeEOCD
  rw [r16_w16_out _ _ _ _ (by omega), r16_w32_out _ _ _ _ (by omega),
    r16_w32_out _ _ _ _ (by omega),
    r16_w16 _ _ _ (by rw [length_w16, length_w16, length_w16, length_writeBytes]; omega)]

theorem r32_writeEOCD_cdSize (l : List Nat) (a : Nat) (e : EOCD)
    (hl : a + 16 ≤ l.length) :
    r32 (writeEOCD l a e) (a + 12) = u32 e.cdSize := by
  unfold writeEOCD
  rw [r32_w16_out _ _ _ _ (by omega), r32_w32_out _ _ _ _ (by omega),
    r32_w32 _ _ _ (by rw [length_w16, length_w16, length_w16, length_w16,
      length_writeBytes]; omega)]

theorem r32_writeEOCD_cdOffset (l : List Nat) (a : Nat) (e : EOCD)
    (hl : a + 20 ≤ l.length) :
    r32 (writeEOCD l a e) (a + 16) = u32 e.cdOffset := by
  unfold writeEOCD
  rw [r32_w16_out _ _ _ _ (by omega),
    r32_w32 _ _ _ (by rw [length_w32, length_w16, length_w16, length_w16, length_w16,
      length_writeBytes]; omega)]

theorem r16_writeEOCD_comment (l : List Nat) (a : Nat) (e : EOCD)
    (hl : a + 22 ≤ l.length) :
    r16 (writeEOCD l a e) (a + 20) = u16 e.commentLen := by
  unfold writeEOCD
  rw [r16_w16 _ _ _ (by rw [length_w32, length_w32, length_w16, length_w16, length_w16,
    length_w16, length_writeBytes]; omega)]

theorem readBytesN_writeEOCD_magic (l : List Nat) (a : Nat) (e : EOCD)
    (hl : a + 22 ≤ l.length) :
    readBytesN (writeEOCD l a e) a 4 = eocdMagic := by
  unfold writeEOCD
  rw [readBytesN_w16_out _ _ _ _ _ (Or.inl (by omega)),
    readBytesN_w32_out _ _ _ _ _ (Or.inl (by omega)),
    readBytesN_w32_out _ _ _ _ _ (Or.inl (by omega)),
    readBytesN_w16_out _ _ _ _ _ (Or.inl (by omega)),
    readBytesN_w16_out _ _ _ _ _ (Or.inl (by omega)),
    readBytesN_w16_out _ _ _ _ _ (Or.inl (by omega)),
    readBytesN_w16_out _ _ _ _ _ (Or.inl (by omega))]
  have h := readBytesN_writeBytes eocdMagic l a (by simp [eocdMagic]; omega)
  simp only [eocdMagic, List.length_cons, List.length_nil] at h ⊢
  exact h.trans (by decide)

/-! ## Claim C1 -/

/-- An archive whose single central-directory record points its
local-header offset at 10 junk bytes (no local-header magic there): the
record parses, but its entry is skipped by the compaction loop.
Layout: bytes 0-9 junk, bytes 10-56 the 46-byte CD record plus a 1-byte
filename, bytes 57-78 the EOCD (num_records 1, cd_size 47, cd_offset 10). -/
def archC1 : List Nat :=
  [1, 1, 1, 1, 1, 1, 1, 1, 1, 1] ++
  ([80, 75, 1, 2] ++ [0, 0, 0, 0, 0, 0, 0, 0, 0, 0, 0, 0] ++
   [0, 0, 0, 0] ++ [0, 0, 0, 0] ++ [0, 0, 0, 0] ++
   [1, 0] ++ [0, 0] ++ [0, 0] ++ [0, 0] ++ [0, 0] ++ [0, 0, 0, 0] ++
   [0, 0, 0, 0] ++ [97]) ++
  ([80, 75, 5, 6] ++ [0, 0] ++ [0, 0] ++ [1, 0] ++ [1, 0] ++
   [47, 0, 0, 0] ++ [10, 0, 0, 0] ++ [0, 0])

/-- The parsed directory of `archC1`, as the engine's front end computes it. -/
def rdC1 : ReadOut :=
  readCDs archC1 (0 + 79)
    ((findFirst archC1 0 (0 + (readEOCD archC1 57).cdOffset) lfhMagic).getD
      (0 + (readEOCD archC1 57).cdOffset) - 0)
    (readEOCD archC1 57).numRecords (0 + (readEOCD archC1 57).cdOffset)
    (0 + (readEOCD archC1 57).cdOffset + (readEOCD archC1 57).cdSize)

/-- The compaction-loop outcome on `archC1`. -/
def lpC1 : LoopOut :=
  compactLoop oid cfg0 0 79 rdC1.baseOff (sortByOffset rdC1.cds)
    (memmoveL archC1 0 0
      ((findFirst archC1 0 (0 + (readEOCD archC1 57).cdOffset) lfhMagic).getD
        (0 + (readEOCD archC1 57).cdOffset) - 0))
    ((findFirst archC1 0 (0 + (readEOCD archC1 57).cdOffset) lfhMagic).getD
      (0 + (readEOCD archC1 57).cdOffset) - 0)

/-- The directory-writer outcome on `archC1`. -/
def dwC1 : List Nat × Nat := writeDir rdC1.baseOff lpC1.cds lpC1.buf lpC1.pw

/-- C1: counterexample.  In `archC1` the only entry is excluded from
compaction (invalid local-header magic, warning emitted) and zero entry
bytes are written, yet the rewritten central directory still contains its
record - re-emitted at offset 10 with the stale, never-reassigned
local-header offset 0 - and the output EOCD's num_records and
num_records_total are 1, not the count 0 of entries actually written
(zip.cpp:264 re-emits every parsed record; zip.cpp:278 counts them all). -/
theorem C1_counterexample :
    (zipLeanify oid cfg0 0 archC1 79).warns = [Warn.invalidLocalHeader] ∧
    readBytesN (zipLeanify oid cfg0 0 archC1 79).buf 10 4 = cdMagic ∧
    r32 (zipLeanify oid cfg0 0 archC1 79).buf 52 = 0 ∧
    r16 (zipLeanify oid cfg0 0 archC1 79).buf 65 = 1 ∧
    r16 (zipLeanify oid cfg0 0 archC1 79).buf 67 = 1 ∧
    r32 (zipLeanify oid cfg0 0 archC1 79).buf 73 = 10 := by decide

/-- C1 (amended): on the rewrite path the compaction loop never drops a
parsed record - skipped and post-halt entries included - so the list the
directory writer re-emits has exactly the length of the parsed directory,
and the output EOCD's num_records and num_records_total fields (written at
EOCD offsets +8 and +10) equal that parsed-record count, not the count of
entries actually compacted. -/
theorem C1_amended (o : Oracles) (cfg : Config) (sl : Nat) (l : List Nat)
    (size pe : Nat)
    (hfl : findLast l (max sl (sl + size - 65539)) (sl + size) eocdMagic = some pe)
    (hpe : pe + 22 ≤ sl + size)
    (hd1 : (readEOCD l pe).diskNum = 0)
    (hd2 : (readEOCD l pe).diskCdStart = 0)
    (hd3 : (readEOCD l pe).numRecords = (readEOCD l pe).numRecordsTotal)
    (hcd : sl + (readEOCD l pe).cdOffset + (readEOCD l pe).cdSize ≤ pe)
    (rd : ReadOut) (lp : LoopOut) (dw : List Nat × Nat)
    (hrd : rd = readCDs l (sl + size)
      ((findFirst l sl (sl + (readEOCD l pe).cdOffset) lfhMagic).getD
        (sl + (readEOCD l pe).cdOffset) - sl)
      (readEOCD l pe).numRecords (sl + (readEOCD l pe).cdOffset)
      (sl + (readEOCD l pe).cdOffset + (readEOCD l pe).cdSize))
    (hlp : lp = compactLoop o cfg sl size rd.baseOff (sortByOffset rd.cds)
      (memmoveL l 0 sl
        ((findFirst l sl (sl + (readEOCD l pe).cdOffset) lfhMagic).getD
          (sl + (readEOCD l pe).cdOffset) - sl))
      ((findFirst l sl (sl + (readEOCD l pe).cdOffset) lfhMagic).getD
        (sl + (readEOCD l pe).cdOffset) - sl))
    (hdw : dw = writeDir rd.baseOff lp.cds lp.buf lp.pw)
    (hcap : dw.2 + 12 ≤ dw.1.length) :
    lp.cds.length = rd.cds.length ∧
    r16 (zipLeanify o cfg sl l size).buf (dw.2 + 8) = u16 rd.cds.length ∧
    r16 (zipLeanify o cfg sl l size).buf (dw.2 + 10) = u16 rd.cds.length := by
  have hlen : lp.cds.length = rd.cds.length := by
    rw [hlp, compactLoop_length, length_sortByOffset]
  refine ⟨hlen, ?_, ?_⟩
  · rw [zipLeanify_eq o cfg sl l size pe hfl hpe hd1 hd2 hd3 hcd]
    dsimp only
    rw [← hrd, ← hlp, ← hdw]
    rw [r16_writeEOCD_num _ _ _ (by omega)]
    show u16 (u16 lp.cds.length) = u16 rd.cds.length
    rw [hlen]
    unfold u16
    omega
  · rw [zipLeanify_eq o cfg sl l size pe hfl hpe hd1 hd2 hd3 hcd]
    dsimp only
    rw [← hrd, ← hlp, ← hdw]
    rw [r16_writeEOCD_total _ _ _ (by omega)]
    show u16 (u16 lp.cds.length) = u16 rd.cds.length
    rw [hlen]
    unfold u16
    omega

/-- C1 (amended), instantiated on `archC1`. -/
theorem C1_amended_witness :
    lpC1.cds.length = rdC1.cds.length ∧
    r16 (zipLeanify oid cfg0 0 archC1 79).buf (dwC1.2 + 8) = u16 rdC1.cds.length ∧
    r16 (zipLeanify oid cfg0 0 archC1 79).buf (dwC1.2 + 10) = u16 rdC1.cds.length :=
  C1_amended oid cfg0 0 archC1 79 57 (by decide) (by decide) (by decide) (by decide)
    (by decide) (by decide) rdC1 lpC1 dwC1 rfl rfl rfl (by decide)

/-! ## Write-cursor monotonicity and base-offset range -/

theorem entryDispatch_pw_mono (o : Oracles) (cfg : Config) (cd1 : CDHeader)
    (l3 : List Nat) (pw pwD prD origComp flag : Nat) (w1 : List Warn) :
    pwD ≤ (entryDispatch o cfg cd1 l3 pw pwD prD origComp flag w1).pw := by
  unfold entryDispatch
  dsimp only
  split_ifs with h1 h2 h3 h4
  · dsimp only; omega
  · dsimp only; omega
  · dsimp only; omega
  · dsimp only; omega
  · split
    · dsimp only; omega
    · split_ifs <;> dsimp only <;> omega

theorem processEntry_pw_mono (o : Oracles) (cfg : Config) (sl size base : Nat)
    (cd : CDHeader) (l : List Nat) (pw : Nat) :
    pw ≤ (processEntry o cfg sl size base cd l pw).pw := by
  unfold processEntry
  dsimp only
  set pr := sl + base + cd.localHeaderOffset with hpr
  by_cases c1 : pr + 30 > sl + size ∨ readBytesN l pr 4 ≠ lfhMagic
  · rw [if_pos c1]
  · rw [if_neg c1]
    set hdr := movedHeaderSize l pr with hhdr
    by_cases c2 : pr + hdr > sl + size
    · rw [if_pos c2]
    · rw [if_neg c2]
      set L1 := memmoveL l pw pr hdr with hL1
      set L2 := (if r16 L1 (pw + 28) = 0 then L1 else w16 L1 (pw + 28) 0) with hL2
      set F := r16 L2 (pw + 6) with hF
      by_cases c4 : pr + r16 L1 (pw + 28) +
          (if F &&& 8 ≠ 0 then cd.compressedSize else r32 L2 (pw + 18)) > sl + size
      · rw [if_pos c4]
      · rw [if_neg c4]
        exact Nat.le_trans (Nat.le_add_right pw hdr)
          (entryDispatch_pw_mono _ _ _ _ _ _ _ _ _ _)

theorem compactLoop_pw_mono (o : Oracles) (cfg : Config) (sl size base : Nat) :
    ∀ (cds : List CDHeader) (l : List Nat) (pw : Nat),
    pw ≤ (compactLoop o cfg sl size base cds l pw).pw := by
  intro cds
  induction cds with
  | nil => intro l pw; exact Nat.le_refl pw
  | cons cd rest ih =>
    intro l pw
    unfold compactLoop
    dsimp only
    have he := processEntry_pw_mono o cfg sl size base cd l pw
    split
    · exact he
    · exact Nat.le_trans he (ih _ _)

theorem writeDir_pw_mono (base : Nat) :
    ∀ (cds : List CDHeader) (l : List Nat) (pw : Nat),
    pw ≤ (writeDir base cds l pw).2 := by
  intro cds
  induction cds with
  | nil => intro l pw; exact Nat.le_refl pw
  | cons cd rest ih =>
    intro l pw
    unfold writeDir
    dsimp only
    refine Nat.le_trans ?_ (ih _ _)
    omega

theorem readCDsAux_baseOff (l : List Nat) (pEnd zipOff : Nat) :
    ∀ (fuel : Nat) (first : Bool) (pr cdEnd b : Nat),
    (readCDsAux l pEnd zipOff fuel first pr cdEnd b).baseOff = b ∨
    (readCDsAux l pEnd zipOff fuel first pr cdEnd b).baseOff = zipOff := by
  intro fuel
  induction fuel with
  | zero => intro first pr cdEnd b; exact Or.inl rfl
  | succ n ih =>
    intro first pr cdEnd b
    unfold readCDsAux
    dsimp only
    split_ifs with h1 h2 h3
    · exact Or.inl rfl
    · exact ih false _ _ b
    · rcases ih false _ _ zipOff with h | h <;> exact Or.inr h
    · exact Or.inl rfl

theorem readCDs_baseOff (l : List Nat) (pEnd zipOff fuel pr cdEnd : Nat) :
    (readCDs l pEnd zipOff fuel pr cdEnd).baseOff = 0 ∨
    (readCDs l pEnd zipOff fuel pr cdEnd).baseOff = zipOff :=
  readCDsAux_baseOff l pEnd zipOff fuel true pr cdEnd 0

/-! ## Claim C10 -/

/-- C10: whenever the engine rewrites an archive (the EOCD was found and
every archive-level validation passed), the output is structurally
self-describing: the returned logical length is the EOCD write position
plus 22, the EOCD magic sits exactly 22 bytes before the end with its
comment_len field 0 (so no bytes trail it), and the cd_offset and cd_size
fields read back from the output EOCD locate the rewritten central
directory exactly - base_offset + cd_offset is the cursor where the
directory writer started and cd_offset + cd_size its end, so the returned
length equals base_offset + cd_offset + cd_size + 22 (zip.cpp:262-286).
The two capacity hypotheses say the EOCD position fits in 32 bits and the
buffer can hold the record. -/
theorem C10_self_describing (o : Oracles) (cfg : Config) (sl : Nat) (l : List Nat)
    (size pe : Nat)
    (hfl : findLast l (max sl (sl + size - 65539)) (sl + size) eocdMagic = some pe)
    (hpe : pe + 22 ≤ sl + size)
    (hd1 : (readEOCD l pe).diskNum = 0)
    (hd2 : (readEOCD l pe).diskCdStart = 0)
    (hd3 : (readEOCD l pe).numRecords = (readEOCD l pe).numRecordsTotal)
    (hcd : sl + (readEOCD l pe).cdOffset + (readEOCD l pe).cdSize ≤ pe)
    (rd : ReadOut) (lp : LoopOut) (dw : List Nat × Nat)
    (hrd : rd = readCDs l (sl + size)
      ((findFirst l sl (sl + (readEOCD l pe).cdOffset) lfhMagic).getD
        (sl + (readEOCD l pe).cdOffset) - sl)
      (readEOCD l pe).numRecords (sl + (readEOCD l pe).cdOffset)
      (sl + (readEOCD l pe).cdOffset + (readEOCD l pe).cdSize))
    (hlp : lp = compactLoop o cfg sl size rd.baseOff (sortByOffset rd.cds)
      (memmoveL l 0 sl
        ((findFirst l sl (sl + (readEOCD l pe).cdOffset) lfhMagic).getD
          (sl + (readEOCD l pe).cdOffset) - sl))
      ((findFirst l sl (sl + (readEOCD l pe).cdOffset) lfhMagic).getD
        (sl + (readEOCD l pe).cdOffset) - sl))
    (hdw : dw = writeDir rd.baseOff lp.cds lp.buf lp.pw)
    (hfit : dw.2 < 4294967296)
    (hcap : dw.2 + 22 ≤ dw.1.length) :
    (zipLeanify o cfg sl l size).size = dw.2 + 22 ∧
    readBytesN (zipLeanify o cfg sl l size).buf dw.2 4 = eocdMagic ∧
    r16 (zipLeanify o cfg sl l size).buf (dw.2 + 20) = 0 ∧
    rd.baseOff + r32 (zipLeanify o cfg sl l size).buf (dw.2 + 16) = lp.pw ∧
    lp.pw + r32 (zipLeanify o cfg sl l size).buf (dw.2 + 12) = dw.2 := by
  have hb : rd.baseOff ≤ lp.pw := by
    have hzo := readCDs_baseOff l (sl + size)
      ((findFirst l sl (sl + (readEOCD l pe).cdOffset) lfhMagic).getD
        (sl + (readEOCD l pe).cdOffset) - sl)
      (readEOCD l pe).numRecords (sl + (readEOCD l pe).cdOffset)
      (sl + (readEOCD l pe).cdOffset + (readEOCD l pe).cdSize)
    rw [← hrd] at hzo
    have hcm := compactLoop_pw_mono o cfg sl size rd.baseOff (sortByOffset rd.cds)
      (memmoveL l 0 sl
        ((findFirst l sl (sl + (readEOCD l pe).cdOffset) lfhMagic).getD
          (sl + (readEOCD l pe).cdOffset) - sl))
      ((findFirst l sl (sl + (readEOCD l pe).cdOffset) lfhMagic).getD
        (sl + (readEOCD l pe).cdOffset) - sl)
    rw [← hlp] at hcm
    rcases hzo with h | h <;> omega
  have hpd : lp.pw ≤ dw.2 := by
    have := writeDir_pw_mono rd.baseOff lp.cds lp.buf lp.pw
    rw [← hdw] at this
    exact this
  refine ⟨?_, ?_, ?_, ?_, ?_⟩
  · rw [zipLeanify_eq o cfg sl l size pe hfl hpe hd1 hd2 hd3 hcd]
    dsimp only
    rw [← hrd, ← hlp, ← hdw]
  · rw [zipLeanify_eq o cfg sl l size pe hfl hpe hd1 hd2 hd3 hcd]
    dsimp only
    rw [← hrd, ← hlp, ← hdw]
    exact readBytesN_writeEOCD_magic _ _ _ hcap
  · rw [zipLeanify_eq o cfg sl l size pe hfl hpe hd1 hd2 hd3 hcd]
    dsimp only
    rw [← hrd, ← hlp, ← hdw]
    rw [r16_writeEOCD_comment _ _ _ hcap]
    rfl
  · rw [zipLeanify_eq o cfg sl l size pe hfl hpe hd1 hd2 hd3 hcd]
    dsimp only
    rw [← hrd, ← hlp, ← hdw]
    rw [r32_writeEOCD_cdOffset _ _ _ (by omega)]
    show rd.baseOff + u32 (u32 (lp.pw - rd.baseOff)) = lp.pw
    unfold u32
    omega
  · rw [zipLeanify_eq o cfg sl l size pe hfl hpe hd1 hd2 hd3 hcd]
    dsimp only
    rw [← hrd, ← hlp, ← hdw]
    rw [r32_writeEOCD_cdSize _ _ _ (by omega)]
    show lp.pw + u32 (u32 (dw.2 - rd.baseOff - u32 (lp.pw - rd.baseOff))) = dw.2
    unfold u32
    omega

/-! ## Claim C4: entry spans, directory span, and the size bound -/

theorem length_readBytesN (l : List Nat) (a n : Nat) :
    (readBytesN l a n).length = n := by
  simp [readBytesN]

/-- The number of bytes the directory writer emits for a record list:
46 bytes of fixed record plus the filename, per record (extra field and
comment are zeroed, zip.cpp:267-274). -/
def dirSpan : List CDHeader → Nat
  | [] => 0
  | cd :: rest => 46 + cd.filenameLen + dirSpan rest

theorem dirSpan_cons (cd : CDHeader) (rest : List CDHeader) :
    dirSpan (cd :: rest) = 46 + cd.filenameLen + dirSpan rest := rfl

/-- The end of an entry's extent in the input file, as the engine itself
computes it: local header (30 + its own filename_len), the extra field the
reader skips, and the compressed payload (the directory's value when the
data-descriptor bit is set, the header's own field otherwise). -/
def entryEnd (l : List Nat) (sl base : Nat) (cd : CDHeader) : Nat :=
  sl + base + cd.localHeaderOffset +
    movedHeaderSize l (sl + base + cd.localHeaderOffset) +
    r16 l (sl + base + cd.localHeaderOffset + 28) +
    (if r16 l (sl + base + cd.localHeaderOffset + 6) &&& 8 ≠ 0 then cd.compressedSize
     else r32 l (sl + base + cd.localHeaderOffset + 18))

theorem le_entryEnd (l : List Nat) (sl base : Nat) (cd : CDHeader) :
    sl + base + cd.localHeaderOffset ≤ entryEnd l sl base cd := by
  unfold entryEnd
  omega

/-- Well-formedness of a (sorted) entry list: starting from output cursor
`cur`, each entry begins at or after `cur` and the next entry begins at or
after this one's extent end; the last extent ends at or before `D`. -/
def spanOK (l : List Nat) (sl base D : Nat) : List CDHeader → Nat → Bool
  | [], cur => decide (cur ≤ D)
  | cd :: rest, cur =>
    decide (cur ≤ sl + base + cd.localHeaderOffset) &&
    spanOK l sl base D rest (entryEnd l sl base cd)

theorem spanOK_le (l : List Nat) (sl base D : Nat) :
    ∀ (cds : List CDHeader) (cur : Nat),
    spanOK l sl base D cds cur = true → cur ≤ D := by
  intro cds
  induction cds with
  | nil =>
    intro cur h
    simpa [spanOK] using h
  | cons cd rest ih =>
    intro cur h
    simp only [spanOK, Bool.and_eq_true, decide_eq_true_eq] at h
    have h2 := ih _ h.2
    have hPE := le_entryEnd l sl base cd
    omega

theorem entryDispatch_fnLen (o : Oracles) (cfg : Config) (cd1 : CDHeader)
    (l3 : List Nat) (pw pwD prD origComp flag : Nat) (w1 : List Warn) :
    (entryDispatch o cfg cd1 l3 pw pwD prD origComp flag w1).cd.filenameLen =
      cd1.filenameLen := by
  unfold entryDispatch
  dsimp only
  split_ifs <;> try rfl
  split
  · rfl
  · split_ifs <;> rfl

theorem processEntry_fnLen (o : Oracles) (cfg : Config) (sl size base : Nat)
    (cd : CDHeader) (l : List Nat) (pw : Nat) :
    (processEntry o cfg sl size base cd l pw).cd.filenameLen = cd.filenameLen := by
  unfold processEntry
  dsimp only
  set pr := sl + base + cd.localHeaderOffset with hpr
  by_cases c1 : pr + 30 > sl + size ∨ readBytesN l pr 4 ≠ lfhMagic
  · rw [if_pos c1]
  · rw [if_neg c1]
    set hdr := movedHeaderSize l pr with hhdr
    by_cases c2 : pr + hdr > sl + size
    · rw [if_pos c2]
    · rw [if_neg c2]
      set L1 := memmoveL l pw pr hdr with hL1
      set L2 := (if r16 L1 (pw + 28) = 0 then L1 else w16 L1 (pw + 28) 0) with hL2
      set F := r16 L2 (pw + 6) with hF
      by_cases c4 : pr + r16 L1 (pw + 28) +
          (if F &&& 8 ≠ 0 then cd.compressedSize else r32 L2 (pw + 18)) > sl + size
      · rw [if_pos c4]
      · rw [if_neg c4]
        exact entryDispatch_fnLen _ _ _ _ _ _ _ _ _ _

theorem compactLoop_dirSpan (o : Oracles) (cfg : Config) (sl size base : Nat) :
    ∀ (cds : List CDHeader) (l : List Nat) (pw : Nat),
    dirSpan (compactLoop o cfg sl size base cds l pw).cds = dirSpan cds := by
  intro cds
  induction cds with
  | nil => intro l pw; rfl
  | cons cd rest ih =>
    intro l pw
    unfold compactLoop
    dsimp only
    split
    · rw [dirSpan_cons, dirSpan_cons, processEntry_fnLen]
    · rw [dirSpan_cons, dirSpan_cons, processEntry_fnLen, ih]

theorem dirSpan_insertByOffset (h : CDHeader) :
    ∀ l : List CDHeader,
    dirSpan (insertByOffset h l) = 46 + h.filenameLen + dirSpan l := by
  intro l
  induction l with
  | nil => rfl
  | cons x xs ih =>
    unfold insertByOffset
    split_ifs
    · rfl
    · simp only [dirSpan_cons, ih]
      omega

theorem dirSpan_sortByOffset (l : List CDHeader) :
    dirSpan (sortByOffset l) = dirSpan l := by
  induction l with
  | nil => rfl
  | cons x xs ih =>
    show dirSpan (insertByOffset x (sortByOffset xs)) = _
    rw [dirSpan_insertByOffset, ih, dirSpan_cons]

theorem writeDir_pw_eq (base : Nat) :
    ∀ (cds : List CDHeader) (l : List Nat) (pw : Nat),
    (writeDir base cds l pw).2 = pw + dirSpan cds := by
  intro cds
  induction cds with
  | nil => intro l pw; rfl
  | cons cd rest ih =>
    intro l pw
    unfold writeDir
    dsimp only
    rw [ih, dirSpan_cons]
    have hfn : ({ cd with flag := cd.flag &&& 65527, extraFieldLen := 0, commentLen := 0 } : CDHeader).filenameLen = cd.filenameLen := rfl
    rw [hfn]
    omega

/-- The compression dispatch advances the cursor by at most the entry's
authoritative compressed size, writes only below that point, and preserves
the buffer length. -/
theorem entryDispatch_adv (o : Oracles) (cfg : Config) (cd1 : CDHeader)
    (l3 : List Nat) (pw pwD prD origComp flag : Nat) (w1 : List Warn)
    (hmin : ∀ b, (o.leanify b).length ≤ b.length)
    (hoc : r32 l3 (pw + 18) ≤ origComp)
    (hpwD : pw + 30 ≤ pwD)
    (hl3 : pw + 30 ≤ l3.length) :
    (entryDispatch o cfg cd1 l3 pw pwD prD origComp flag w1).pw ≤ pwD + origComp ∧
    (∀ j, pwD + origComp ≤ j →
      rByte (entryDispatch o cfg cd1 l3 pw pwD prD origComp flag w1).buf j = rByte l3 j) ∧
    (entryDispatch o cfg cd1 l3 pw pwD prD origComp flag w1).buf.length = l3.length := by
  unfold entryDispatch
  dsimp only
  split_ifs with h1 h2 h3 h4
  · -- store: minify the payload in place
    set ms := o.leanify (readBytesN l3 prD origComp) with hms
    have hns : ms.length ≤ origComp := by
      rw [hms]
      have h := hmin (readBytesN l3 prD origComp)
      rwa [length_readBytesN] at h
    set L4 := writeBytes l3 pwD ms with hL4
    have hlen4 : L4.length = l3.length := by rw [hL4, length_writeBytes]
    set L5 := w32 (w32 L4 (pw + 18) ms.length) (pw + 22) ms.length with hL5
    have hlen5 : L5.length = l3.length := by rw [hL5, length_w32, length_w32, hlen4]
    set c := o.crc32fn (readBytesN L5 pwD ms.length) with hc
    set L6 := w32 L5 (pw + 14) c with hL6
    have hlen6 : L6.length = l3.length := by rw [hL6, length_w32, hlen5]
    have hfield : r32 L6 (pw + 18) = u32 ms.length := by
      rw [hL6, r32_w32_out _ _ _ _ (by omega), hL5, r32_w32_out _ _ _ _ (by omega),
        r32_w32 _ _ _ (by rw [hlen4]; omega)]
    refine ⟨?_, ?_, ?_⟩
    · dsimp only
      rw [hfield]
      have := Nat.mod_le ms.length 4294967296
      unfold u32
      omega
    · intro j hj
      dsimp only
      rw [hL6, rByte_w32_out _ _ _ _ (Or.inr (by omega)),
        hL5, rByte_w32_out _ _ _ _ (Or.inr (by omega)),
        rByte_w32_out _ _ _ _ (Or.inr (by omega)),
        hL4, rByte_writeBytes_out _ _ _ _ (Or.inr (by omega))]
    · exact hlen6
  · -- store with empty payload: nothing moves
    exact ⟨by dsimp only; omega, fun j hj => rfl, rfl⟩
  · -- unsupported method or encrypted: move the payload verbatim
    set L4 := memmoveL l3 pwD prD origComp with hL4
    have hfield : r32 L4 (pw + 18) = r32 l3 (pw + 18) := by
      rw [hL4]
      exact r32_memmoveL_out _ _ _ _ _ (by omega)
    refine ⟨?_, ?_, ?_⟩
    · dsimp only
      rw [hfield]
      omega
    · intro j hj
      dsimp only
      rw [hL4]
      exact rByte_memmoveL_out _ _ _ _ _ (Or.inr (by omega))
    · dsimp only
      rw [hL4, length_memmoveL]
  · -- deflate with empty uncompressed size: switch to store, no payload
    refine ⟨by dsimp only; omega, ?_, ?_⟩
    · intro j hj
      dsimp only
      rw [rByte_w32_out _ _ _ _ (Or.inr (by omega)),
        rByte_w16_out _ _ _ _ (Or.inr (by omega))]
    · dsimp only
      rw [length_w32, length_w16]
  · -- deflate pipeline
    split
    · -- decompression failed: copy verbatim
      refine ⟨by dsimp only; omega, ?_, ?_⟩
      · intro j hj
        dsimp only
        exact rByte_memmoveL_out _ _ _ _ _ (Or.inr (by omega))
      · dsimp only
        rw [length_memmoveL]
    · -- decompression succeeded
      split_ifs with h5 h6 h7
      · -- length or CRC mismatch: copy verbatim
        refine ⟨by dsimp only; omega, ?_, ?_⟩
        · intro j hj
          dsimp only
          exact rByte_memmoveL_out _ _ _ _ _ (Or.inr (by omega))
        · dsimp only
          rw [length_memmoveL]
      · -- store wins the priority
        rename_i buf heq
        set lb := o.leanify buf with hlb
        have hnu : lb.length ≤ origComp := h6.2
        set c := o.crc32fn lb with hc
        set L4 := w32 (w32 (w32 (w16 l3 (pw + 8) 0) (pw + 14) c)
          (pw + 18) lb.length) (pw + 22) lb.length with hL4
        have hlen4 : L4.length = l3.length := by
          rw [hL4, length_w32, length_w32, length_w32, length_w16]
        set L5 := writeBytes L4 pwD lb with hL5
        have hlen5 : L5.length = l3.length := by rw [hL5, length_writeBytes, hlen4]
        have hfield : r32 L5 (pw + 18) = u32 lb.length := by
          rw [hL5, r32_writeBytes_out _ _ _ _ (Or.inl (by omega)),
            hL4, r32_w32_out _ _ _ _ (Or.inr (by omega)),
            r32_w32 _ _ _ (by rw [length_w32, length_w16]; omega)]
        refine ⟨?_, ?_, ?_⟩
        · dsimp only
          rw [hfield]
          have := Nat.mod_le lb.length 4294967296
          unfold u32
          omega
        · intro j hj
          dsimp only
          rw [hL5, rByte_writeBytes_out _ _ _ _ (Or.inr (by omega)),
            hL4, rByte_w32_out _ _ _ _ (Or.inr (by omega)),
            rByte_w32_out _ _ _ _ (Or.inr (by omega)),
            rByte_w32_out _ _ _ _ (Or.inr (by omega)),
            rByte_w16_out _ _ _ _ (Or.inr (by omega))]
        · exact hlen5
      · -- recompressed stream wins
        rename_i buf heq
        set lb := o.leanify buf with hlb
        set od := o.deflate lb with hod
        have hnc : od.length ≤ origComp := le_of_lt h7
        set c := o.crc32fn lb with hc
        set L4 := w32 (w32 (w32 l3 (pw + 14) c) (pw + 18) od.length)
          (pw + 22) lb.length with hL4
        have hlen4 : L4.length = l3.length := by
          rw [hL4, length_w32, length_w32, length_w32]
        set L5 := writeBytes L4 pwD od with hL5
        have hlen5 : L5.length = l3.length := by rw [hL5, length_writeBytes, hlen4]
        have hfield : r32 L5 (pw + 18) = u32 od.length := by
          rw [hL5, r32_writeBytes_out _ _ _ _ (Or.inl (by omega)),
            hL4, r32_w32_out _ _ _ _ (Or.inr (by omega)),
            r32_w32 _ _ _ (by rw [length_w32]; omega)]
        refine ⟨?_, ?_, ?_⟩
        · dsimp only
          rw [hfield]
          have := Nat.mod_le od.length 4294967296
          unfold u32
          omega
        · intro j hj
          dsimp only
          rw [hL5, rByte_writeBytes_out _ _ _ _ (Or.inr (by omega)),
            hL4, rByte_w32_out _ _ _ _ (Or.inr (by omega)),
            rByte_w32_out _ _ _ _ (Or.inr (by omega)),
            rByte_w32_out _ _ _ _ (Or.inr (by omega))]
        · exact hlen5
      · -- neither improves: copy verbatim
        set L4 := memmoveL l3 pwD prD origComp with hL4
        have hfield : r32 L4 (pw + 18) = r32 l3 (pw + 18) := by
          rw [hL4]
          exact r32_memmoveL_out _ _ _ _ _ (by omega)
        refine ⟨?_, ?_, ?_⟩
        · dsimp only
          rw [hfield]
          omega
        · intro j hj
          dsimp only
          rw [hL4]
          exact rByte_memmoveL_out _ _ _ _ _ (Or.inr (by omega))
        · dsimp only
          rw [hL4, length_memmoveL]

/-- Processing one entry whose original position lies at or beyond the
write cursor (shifted by `size_leanified`): the cursor ends at or before
the entry's declared extent end, all writes stay below that end, and the
buffer length is preserved. -/
theorem processEntry_adv (o : Oracles) (cfg : Config) (sl size base : Nat)
    (cd : CDHeader) (l : List Nat) (pw : Nat)
    (hmin : ∀ b, (o.leanify b).length ≤ b.length)
    (hlen : sl + size ≤ l.length)
    (hppr : pw + sl ≤ sl + base + cd.localHeaderOffset) :
    (processEntry o cfg sl size base cd l pw).pw + sl ≤
      max (pw + sl) (entryEnd l sl base cd) ∧
    (∀ j, max (pw + sl) (entryEnd l sl base cd) ≤ j + sl →
      rByte (processEntry o cfg sl size base cd l pw).buf j = rByte l j) ∧
    (processEntry o cfg sl size base cd l pw).buf.length = l.length := by
  unfold processEntry
  dsimp only
  set pr := sl + base + cd.localHeaderOffset with hpr
  have hE : entryEnd l sl base cd = pr + movedHeaderSize l pr + r16 l (pr + 28) +
      (if r16 l (pr + 6) &&& 8 ≠ 0 then cd.compressedSize else r32 l (pr + 18)) := by
    rw [hpr]; rfl
  by_cases c1 : pr + 30 > sl + size ∨ readBytesN l pr 4 ≠ lfhMagic
  · rw [if_pos c1]
    exact ⟨Nat.le_max_left _ _, fun j _ => rfl, rfl⟩
  · rw [if_neg c1]
    set hdr := movedHeaderSize l pr with hhdr
    have hhdr30 : 30 ≤ hdr := by rw [hhdr]; unfold movedHeaderSize; omega
    have hprE : pr + hdr ≤ entryEnd l sl base cd := by rw [hE]; omega
    by_cases c2 : pr + hdr > sl + size
    · rw [if_pos c2]
      exact ⟨Nat.le_max_left _ _, fun j _ => rfl, rfl⟩
    · rw [if_neg c2]
      have hwr : pw + hdr ≤ l.length := by omega
      set L1 := memmoveL l pw pr hdr with hL1
      have hlen1 : L1.length = l.length := by rw [hL1, length_memmoveL]
      have hex : r16 L1 (pw + 28) = r16 l (pr + 28) := by
        rw [hL1]; exact r16_memmoveL_in l pw pr hdr 28 (by omega) hwr
      set L2 := (if r16 L1 (pw + 28) = 0 then L1 else w16 L1 (pw + 28) 0) with hL2
      have hlen2 : L2.length = l.length := by
        rw [hL2]; split
        · exact hlen1
        · rw [length_w16, hlen1]
      have hflag : r16 L2 (pw + 6) = r16 l (pr + 6) := by
        rw [hL2]; split
        · rw [hL1]; exact r16_memmoveL_in l pw pr hdr 6 (by omega) hwr
        · rw [r16_w16_out _ _ _ _ (Or.inr (by omega)), hL1]
          exact r16_memmoveL_in l pw pr hdr 6 (by omega) hwr
      have hcomp0 : r32 L2 (pw + 18) = r32 l (pr + 18) := by
        rw [hL2]; split
        · rw [hL1]; exact r32_memmoveL_in l pw pr hdr 18 (by omega) hwr
        · rw [r32_w16_out _ _ _ _ (Or.inr (by omega)), hL1]
          exact r32_memmoveL_in l pw pr hdr 18 (by omega) hwr
      have hL2loc : ∀ j, pw + hdr ≤ j → rByte L2 j = rByte l j := by
        intro j hj
        rw [hL2]
        have h1 : rByte L1 j = rByte l j := by
          rw [hL1]; exact rByte_memmoveL_out _ _ _ _ _ (Or.inr (by omega))
        split
        · exact h1
        · rw [rByte_w16_out _ _ _ _ (Or.inr (by omega))]
          exact h1
      set F := r16 L2 (pw + 6) with hF
      set OC := (if F &&& 8 ≠ 0 then cd.compressedSize else r32 L2 (pw + 18)) with hOC
      have hOCs : OC = (if r16 l (pr + 6) &&& 8 ≠ 0 then cd.compressedSize
          else r32 l (pr + 18)) := by
        rw [hOC, hflag, hcomp0]
      have hEfull : entryEnd l sl base cd = pr + hdr + r16 l (pr + 28) + OC := by
        rw [hE, hOCs]
      set L3 := (if F &&& 8 ≠ 0 then
          w32 (w32 (w32 (w16 L2 (pw + 6) (F &&& 65527)) (pw + 14) cd.crc32)
            (pw + 18) cd.compressedSize) (pw + 22) cd.uncompressedSize
        else L2) with hL3
      have hlen3 : L3.length = l.length := by
        rw [hL3]; split
        · rw [length_w32, length_w32, length_w32, length_w16, hlen2]
        · exact hlen2
      have hL3loc : ∀ j, pw + hdr ≤ j → rByte L3 j = rByte l j := by
        intro j hj
        rw [hL3]
        split
        · rw [rByte_w32_out _ _ _ _ (Or.inr (by omega)),
            rByte_w32_out _ _ _ _ (Or.inr (by omega)),
            rByte_w32_out _ _ _ _ (Or.inr (by omega)),
            rByte_w16_out _ _ _ _ (Or.inr (by omega))]
          exact hL2loc j hj
        · exact hL2loc j hj
      have hoc3 : r32 L3 (pw + 18) ≤ OC := by
        rw [hL3, hOC]
        by_cases hb : F &&& 8 ≠ 0
        · rw [if_pos hb, if_pos hb,
            r32_w32_out _ _ _ _ (Or.inr (by omega)),
            r32_w32 _ _ _ (by rw [length_w32, length_w16, hlen2]; omega)]
          have := Nat.mod_le cd.compressedSize 4294967296
          unfold u32
          omega
        · rw [if_neg hb, if_neg hb]
      by_cases c4 : pr + r16 L1 (pw + 28) + OC > sl + size
      · rw [if_pos c4]
        refine ⟨Nat.le_max_left _ _, ?_, hlen3⟩
        intro j hj
        have hj1 : entryEnd l sl base cd ≤ j + sl :=
          Nat.le_trans (Nat.le_max_right _ _) hj
        rw [hEfull] at hj1
        exact hL3loc j (by omega)
      · rw [if_neg c4]
        have hD := entryDispatch_adv o cfg { cd with localHeaderOffset := u32 (pw - base) }
          L3 pw (pw + hdr) (pr + r16 L1 (pw + 28) + hdr) OC F
          (if r16 l (pr + 26) = cd.filenameLen then ([] : List Warn)
           else [Warn.filenameLenMismatch]) hmin hoc3
          (by omega) (by rw [hlen3]; omega)
        obtain ⟨hD1, hD2, hD3⟩ := hD
        refine ⟨?_, ?_, ?_⟩
        · refine Nat.le_trans ?_ (Nat.le_max_right _ _)
          rw [hEfull]
          omega
        · intro j hj
          have hj1 : entryEnd l sl base cd ≤ j + sl :=
            Nat.le_trans (Nat.le_max_right _ _) hj
          rw [hEfull] at hj1
          rw [hD2 j (by omega)]
          exact hL3loc j (by omega)
        · rw [hD3, hlen3]

/-- The compaction loop over a span-well-formed entry list: starting from
a buffer that agrees with the original beyond the current chain position,
the final write cursor stays at or below the chain bound `D`. -/
theorem compactLoop_le (o : Oracles) (cfg : Config) (sl size base : Nat)
    (l0 : List Nat) (D : Nat)
    (hmin : ∀ b, (o.leanify b).length ≤ b.length)
    (hlen0 : sl + size ≤ l0.length) :
    ∀ (cds : List CDHeader) (l : List Nat) (pw cur : Nat),
    spanOK l0 sl base D cds cur = true →
    (∀ j, cur ≤ j + sl → rByte l j = rByte l0 j) →
    l.length = l0.length →
    pw + sl ≤ cur →
    (compactLoop o cfg sl size base cds l pw).pw + sl ≤ D := by
  intro cds
  induction cds with
  | nil =>
    intro l pw cur hsp hag hl hpw
    simp only [spanOK, decide_eq_true_eq] at hsp
    show pw + sl ≤ D
    omega
  | cons cd rest ih =>
    intro l pw cur hsp hag hl hpw
    simp only [spanOK, Bool.and_eq_true, decide_eq_true_eq] at hsp
    obtain ⟨hcP, hrest⟩ := hsp
    have hppr : pw + sl ≤ sl + base + cd.localHeaderOffset := by omega
    have hadv := processEntry_adv o cfg sl size base cd l pw hmin (by omega) hppr
    obtain ⟨h1, h2, h3⟩ := hadv
    have e1 : r16 l (sl + base + cd.localHeaderOffset + 26) =
        r16 l0 (sl + base + cd.localHeaderOffset + 26) :=
      r16_congr fun k hk => hag _ (by omega)
    have e2 : r16 l (sl + base + cd.localHeaderOffset + 28) =
        r16 l0 (sl + base + cd.localHeaderOffset + 28) :=
      r16_congr fun k hk => hag _ (by omega)
    have e3 : r16 l (sl + base + cd.localHeaderOffset + 6) =
        r16 l0 (sl + base + cd.localHeaderOffset + 6) :=
      r16_congr fun k hk => hag _ (by omega)
    have e4 : r32 l (sl + base + cd.localHeaderOffset + 18) =
        r32 l0 (sl + base + cd.localHeaderOffset + 18) :=
      r32_congr fun k hk => hag _ (by omega)
    have hEeq : entryEnd l sl base cd = entryEnd l0 sl base cd := by
      unfold entryEnd movedHeaderSize
      rw [e1, e2, e3, e4]
    have hPE := le_entryEnd l0 sl base cd
    have hED := spanOK_le l0 sl base D rest _ hrest
    rw [hEeq] at h1 h2
    have h1e : (processEntry o cfg sl size base cd l pw).pw + sl ≤
        entryEnd l0 sl base cd :=
      Nat.le_trans h1 (Nat.max_le.mpr ⟨by omega, Nat.le_refl _⟩)
    unfold compactLoop
    dsimp only
    split
    · dsimp only
      omega
    · refine ih _ _ (entryEnd l0 sl base cd) hrest ?_ (h3.trans hl) h1e
      intro j hj
      rw [h2 j (Nat.max_le.mpr ⟨by omega, by omega⟩)]
      exact hag j (by omega)

/-- C4: for every valid input archive - the EOCD and archive-level checks
pass, the sorted entries' declared extents are pairwise non-overlapping
starting at the preserved-prefix boundary and end at or before `D`
(`spanOK`), the rewritten directory and EOCD fit in the space after `D`
(`hfinal`, with `dirSpan` counting 46 + filename_len per record, never more
than the original directory), and the recursive minifier never returns a
length greater than its input (`hmin`) - the logical length returned by the
engine is at most the input length. -/
theorem C4_output_le_input (o : Oracles) (cfg : Config) (sl : Nat) (l : List Nat)
    (size pe : Nat)
    (hfl : findLast l (max sl (sl + size - 65539)) (sl + size) eocdMagic = some pe)
    (hpe : pe + 22 ≤ sl + size)
    (hd1 : (readEOCD l pe).diskNum = 0)
    (hd2 : (readEOCD l pe).diskCdStart = 0)
    (hd3 : (readEOCD l pe).numRecords = (readEOCD l pe).numRecordsTotal)
    (hcd : sl + (readEOCD l pe).cdOffset + (readEOCD l pe).cdSize ≤ pe)
    (rd : ReadOut) (lp : LoopOut)
    (hrd : rd = readCDs l (sl + size)
      ((findFirst l sl (sl + (readEOCD l pe).cdOffset) lfhMagic).getD
        (sl + (readEOCD l pe).cdOffset) - sl)
      (readEOCD l pe).numRecords (sl + (readEOCD l pe).cdOffset)
      (sl + (readEOCD l pe).cdOffset + (readEOCD l pe).cdSize))
    (hlp : lp = compactLoop o cfg sl size rd.baseOff (sortByOffset rd.cds)
      (memmoveL l 0 sl
        ((findFirst l sl (sl + (readEOCD l pe).cdOffset) lfhMagic).getD
          (sl + (readEOCD l pe).cdOffset) - sl))
      ((findFirst l sl (sl + (readEOCD l pe).cdOffset) lfhMagic).getD
        (sl + (readEOCD l pe).cdOffset) - sl))
    (hmin : ∀ b, (o.leanify b).length ≤ b.length)
    (hlen : sl + size ≤ l.length)
    (D : Nat)
    (hchain : spanOK l sl rd.baseOff D (sortByOffset rd.cds)
      (((findFirst l sl (sl + (readEOCD l pe).cdOffset) lfhMagic).getD
        (sl + (readEOCD l pe).cdOffset) - sl) + sl) = true)
    (hfinal : D + dirSpan rd.cds + 22 ≤ sl + size) :
    (zipLeanify o cfg sl l size).size ≤ size := by
  rw [zipLeanify_eq o cfg sl l size pe hfl hpe hd1 hd2 hd3 hcd]
  dsimp only
  rw [← hrd, ← hlp]
  rw [writeDir_pw_eq]
  have hds : dirSpan lp.cds = dirSpan rd.cds := by
    rw [hlp, compactLoop_dirSpan, dirSpan_sortByOffset]
  have hloop : lp.pw + sl ≤ D := by
    rw [hlp]
    refine compactLoop_le o cfg sl size rd.baseOff l D hmin hlen _ _ _
      (((findFirst l sl (sl + (readEOCD l pe).cdOffset) lfhMagic).getD
        (sl + (readEOCD l pe).cdOffset) - sl) + sl) hchain ?_ ?_ ?_
    · intro j hj
      exact rByte_memmoveL_out l 0 sl _ j (Or.inr (by omega))
    · exact length_memmoveL _ _ _ _
    · exact Nat.le_refl _
  omega

/-- The parsed directory of `archW`, as the engine's front end computes it. -/
def rdW : ReadOut :=
  readCDs archW (0 + 102)
    ((findFirst archW 0 (0 + (readEOCD archW 80).cdOffset) lfhMagic).getD
      (0 + (readEOCD archW 80).cdOffset) - 0)
    (readEOCD archW 80).numRecords (0 + (readEOCD archW 80).cdOffset)
    (0 + (readEOCD archW 80).cdOffset + (readEOCD archW 80).cdSize)

/-- The compaction-loop outcome on `archW`. -/
def lpW : LoopOut :=
  compactLoop oid cfg0 0 102 rdW.baseOff (sortByOffset rdW.cds)
    (memmoveL archW 0 0
      ((findFirst archW 0 (0 + (readEOCD archW 80).cdOffset) lfhMagic).getD
        (0 + (readEOCD archW 80).cdOffset) - 0))
    ((findFirst archW 0 (0 + (readEOCD archW 80).cdOffset) lfhMagic).getD
      (0 + (readEOCD archW 80).cdOffset) - 0)

/-- The directory-writer outcome on `archW`. -/
def dwW : List Nat × Nat := writeDir rdW.baseOff lpW.cds lpW.buf lpW.pw

/-- C4, instantiated on the valid archive `archW` (chain bound `D = 33`:
the single entry's extent is bytes 0-32, the directory spans 47 bytes and
the EOCD 22, and 33 + 47 + 22 = 102, the input length). -/
theorem C4_output_le_input_witness :
    (zipLeanify oid cfg0 0 archW 102).size ≤ 102 :=
  C4_output_le_input oid cfg0 0 archW 102 80 (by decide) (by decide) (by decide)
    (by decide) (by decide) (by decide) rdW lpW rfl rfl
    (fun b => Nat.le_refl b.length) (by decide) 33 (by decide) (by decide)


/-- C10, instantiated on the valid archive `archW`. -/
theorem C10_self_describing_witness :
    (zipLeanify oid cfg0 0 archW 102).size = dwW.2 + 22 ∧
    readBytesN (zipLeanify oid cfg0 0 archW 102).buf dwW.2 4 = eocdMagic ∧
    r16 (zipLeanify oid cfg0 0 archW 102).buf (dwW.2 + 20) = 0 ∧
    rdW.baseOff + r32 (zipLeanify oid cfg0 0 archW 102).buf (dwW.2 + 16) = lpW.pw ∧
    lpW.pw + r32 (zipLeanify oid cfg0 0 archW 102).buf (dwW.2 + 12) = dwW.2 :=
  C10_self_describing oid cfg0 0 archW 102 80 (by decide) (by decide) (by decide)
    (by decide) (by decide) (by decide) rdW lpW dwW rfl rfl rfl (by decide) (by decide)

/-! ## Claim C9: shift lemmas for an `N`-byte stub prefix -/

theorem rByte_shift (stub l : List Nat) (j : Nat) :
    rByte (stub ++ l) (stub.length + j) = rByte l j := by
  induction stub with
  | nil => rw [List.nil_append, List.length_nil, Nat.zero_add]
  | cons s tail ih =>
    show rByte (s :: (tail ++ l)) (tail.length + 1 + j) = rByte l j
    rw [show tail.length + 1 + j = (tail.length + j) + 1 by omega]
    unfold rByte at ih ⊢
    rw [List.getD_cons_succ]
    exact ih

theorem readBytesN_shift (stub l : List Nat) (a n : Nat) :
    readBytesN (stub ++ l) (stub.length + a) n = readBytesN l a n := by
  unfold readBytesN
  apply List.map_congr_left
  intro k hk
  rw [show stub.length + a + k = stub.length + (a + k) by omega]
  exact rByte_shift stub l (a + k)

theorem r16_shift (stub l : List Nat) (a : Nat) :
    r16 (stub ++ l) (stub.length + a) = r16 l a := by
  unfold r16
  rw [show stub.length + a + 1 = stub.length + (a + 1) by omega,
    rByte_shift, rByte_shift]

theorem r32_shift (stub l : List Nat) (a : Nat) :
    r32 (stub ++ l) (stub.length + a) = r32 l a := by
  unfold r32
  rw [show stub.length + a + 1 = stub.length + (a + 1) by omega,
    show stub.length + a + 2 = stub.length + (a + 2) by omega,
    show stub.length + a + 3 = stub.length + (a + 3) by omega,
    rByte_shift, rByte_shift, rByte_shift, rByte_shift]

theorem matchAt_shift (stub l pat : List Nat) (a : Nat) :
    matchAt (stub ++ l) (stub.length + a) pat = matchAt l a pat := by
  unfold matchAt
  rw [readBytesN_shift]

theorem movedHeaderSize_shift (stub l : List Nat) (a : Nat) :
    movedHeaderSize (stub ++ l) (stub.length + a) = movedHeaderSize l a := by
  unfold movedHeaderSize
  rw [show stub.length + a + 26 = stub.length + (a + 26) by omega, r16_shift]

theorem wByte_shift (stub l : List Nat) (a v : Nat) :
    wByte (stub ++ l) (stub.length + a) v = stub ++ wByte l a v := by
  induction stub with
  | nil => rw [List.nil_append, List.length_nil, Nat.zero_add, List.nil_append]
  | cons s tail ih =>
    show wByte (s :: (tail ++ l)) (tail.length + 1 + a) v = s :: (tail ++ wByte l a v)
    rw [show tail.length + 1 + a = (tail.length + a) + 1 by omega]
    exact congrArg (List.cons s) ih

theorem w16_shift (stub l : List Nat) (a v : Nat) :
    w16 (stub ++ l) (stub.length + a) v = stub ++ w16 l a v := by
  unfold w16
  rw [wByte_shift, show stub.length + a + 1 = stub.length + (a + 1) by omega, wByte_shift]

theorem w32_shift (stub l : List Nat) (a v : Nat) :
    w32 (stub ++ l) (stub.length + a) v = stub ++ w32 l a v := by
  unfold w32
  rw [wByte_shift,
    show stub.length + a + 1 = stub.length + (a + 1) by omega, wByte_shift,
    show stub.length + a + 2 = stub.length + (a + 2) by omega, wByte_shift,
    show stub.length + a + 3 = stub.length + (a + 3) by omega, wByte_shift]

theorem writeBytes_shift (stub : List Nat) :
    ∀ (bs l : List Nat) (a : Nat),
    writeBytes (stub ++ l) (stub.length + a) bs = stub ++ writeBytes l a bs := by
  intro bs
  induction bs with
  | nil => intro l a; rfl
  | cons b bs ih =>
    intro l a
    show writeBytes (wByte (stub ++ l) (stub.length + a) b) (stub.length + a + 1) bs =
      stub ++ writeBytes (wByte l a b) (a + 1) bs
    rw [wByte_shift, show stub.length + a + 1 = stub.length + (a + 1) by omega]
    exact ih (wByte l a b) (a + 1)

theorem memmoveL_shift (stub l : List Nat) (dst src n : Nat) :
    memmoveL (stub ++ l) (stub.length + dst) (stub.length + src) n =
      stub ++ memmoveL l dst src n := by
  unfold memmoveL
  rw [readBytesN_shift, writeBytes_shift]

theorem writeBytes_cons_succ :
    ∀ (bs : List Nat) (x : Nat) (xs : List Nat) (a : Nat),
    writeBytes (x :: xs) (a + 1) bs = x :: writeBytes xs a bs := by
  intro bs
  induction bs with
  | nil => intro x xs a; rfl
  | cons b tail ih =>
    intro x xs a
    show writeBytes (wByte (x :: xs) (a + 1) b) (a + 1 + 1) tail = _
    rw [show wByte (x :: xs) (a + 1) b = x :: wByte xs a b from rfl,
      show (a : Nat) + 1 + 1 = (a + 1) + 1 by omega]
    exact ih x (wByte xs a b) (a + 1)

theorem writeBytes_self_id :
    ∀ (bs l : List Nat), (∀ b ∈ bs, b < 256) →
    writeBytes (bs ++ l) 0 bs = bs ++ l := by
  intro bs
  induction bs with
  | nil => intro l h; rfl
  | cons b tail ih =>
    intro l h
    show writeBytes (wByte (b :: (tail ++ l)) 0 b) (0 + 1) tail = b :: (tail ++ l)
    rw [show wByte (b :: (tail ++ l)) 0 b = b :: (tail ++ l) from by
        unfold wByte
        rw [show b % 256 = b from Nat.mod_eq_of_lt (h b (List.mem_cons_self b tail))]
        rfl,
      writeBytes_cons_succ]
    rw [ih l fun x hx => h x (List.mem_cons_of_mem b hx)]

theorem readBytesN_stub (stub l : List Nat) (hstub : ∀ b ∈ stub, b < 256) :
    readBytesN (stub ++ l) 0 stub.length = stub := by
  apply List.ext_getElem
  · rw [length_readBytesN]
  · intro i h1 h2
    rw [length_readBytesN] at h1
    simp only [readBytesN, List.getElem_map, List.getElem_range]
    unfold rByte
    rw [Nat.zero_add, List.getD_eq_getElem _ _ (by rw [List.length_append]; omega),
      List.getElem_append_left h1]
    exact Nat.mod_eq_of_lt (hstub _ (stub.getElem_mem h1))

theorem memmove_prefix_id (stub l : List Nat) (hstub : ∀ b ∈ stub, b < 256) :
    memmoveL (stub ++ l) 0 0 stub.length = stub ++ l := by
  unfold memmoveL
  rw [readBytesN_stub stub l hstub]
  exact writeBytes_self_id stub l hstub

theorem readCDHeader_shift (stub l : List Nat) (a : Nat) :
    readCDHeader (stub ++ l) (stub.length + a) = readCDHeader l a := by
  unfold readCDHeader
  simp only [show ∀ k, stub.length + a + k = stub.length + (a + k) from fun k => by omega]
  simp only [r16_shift, r32_shift]

theorem readEOCD_shift (stub l : List Nat) (a : Nat) :
    readEOCD (stub ++ l) (stub.length + a) = readEOCD l a := by
  unfold readEOCD
  simp only [show ∀ k, stub.length + a + k = stub.length + (a + k) from fun k => by omega]
  simp only [r16_shift, r32_shift]

theorem writeCDHeader_shift (stub l : List Nat) (a : Nat) (cd : CDHeader) :
    writeCDHeader (stub ++ l) (stub.length + a) cd = stub ++ writeCDHeader l a cd := by
  unfold writeCDHeader
  simp only [show ∀ k, stub.length + a + k = stub.length + (a + k) from fun k => by omega]
  simp only [writeBytes_shift, w16_shift, w32_shift]

theorem writeEOCD_shift (stub l : List Nat) (a : Nat) (e : EOCD) :
    writeEOCD (stub ++ l) (stub.length + a) e = stub ++ writeEOCD l a e := by
  unfold writeEOCD
  simp only [show ∀ k, stub.length + a + k = stub.length + (a + k) from fun k => by omega]
  simp only [writeBytes_shift, w16_shift, w32_shift]

theorem findLast_shift (stub l pat : List Nat) (lo hi lo2 pe : Nat)
    (hA : findLast l lo hi pat = some pe) (hlo2 : lo2 ≤ stub.length + pe) :
    findLast (stub ++ l) lo2 (stub.length + hi) pat = some (stub.length + pe) := by
  obtain ⟨u1, u2, u3, u4⟩ := findLast_some_spec l pat lo hi pe hA
  apply findLast_eq_some
  · exact hlo2
  · omega
  · rw [matchAt_shift]
    exact u3
  · intro y hy1 hy2
    obtain ⟨z, rfl⟩ : ∃ z, y = stub.length + z := ⟨y - stub.length, by omega⟩
    rw [matchAt_shift]
    exact u4 z (by omega) (by omega)

theorem entryDispatch_shift (o : Oracles) (cfg : Config) (cd1 : CDHeader)
    (stub l3 : List Nat) (pw pwD prD origComp flag : Nat) (w1 : List Warn) :
    entryDispatch o cfg cd1 (stub ++ l3) (stub.length + pw) (stub.length + pwD)
      (stub.length + prD) origComp flag w1 =
      ⟨(entryDispatch o cfg cd1 l3 pw pwD prD origComp flag w1).cd,
       stub ++ (entryDispatch o cfg cd1 l3 pw pwD prD origComp flag w1).buf,
       stub.length + (entryDispatch o cfg cd1 l3 pw pwD prD origComp flag w1).pw,
       (entryDispatch o cfg cd1 l3 pw pwD prD origComp flag w1).warns,
       (entryDispatch o cfg cd1 l3 pw pwD prD origComp flag w1).ctl⟩ := by
  unfold entryDispatch
  simp only [Nat.add_assoc, readBytesN_shift, r16_shift, r32_shift, writeBytes_shift,
    w16_shift, w32_shift, memmoveL_shift]
  split_ifs <;> try rfl
  split <;> try rfl
  split_ifs <;> rfl

set_option maxHeartbeats 1000000 in
theorem processEntry_shift (o : Oracles) (cfg : Config) (size base : Nat)
    (cd : CDHeader) (stub l : List Nat) (pw : Nat) :
    processEntry o cfg 0 (stub.length + size) (stub.length + base) cd (stub ++ l)
      (stub.length + pw) =
      ⟨(processEntry o cfg 0 size base cd l pw).cd,
       stub ++ (processEntry o cfg 0 size base cd l pw).buf,
       stub.length + (processEntry o cfg 0 size base cd l pw).pw,
       (processEntry o cfg 0 size base cd l pw).warns,
       (processEntry o cfg 0 size base cd l pw).ctl⟩ := by
  unfold processEntry
  dsimp only
  set pr := 0 + base + cd.localHeaderOffset with hpr
  set pE := 0 + size with hpE
  have hprS : 0 + (stub.length + base) + cd.localHeaderOffset = stub.length + pr := by
    rw [hpr]; omega
  have hpES : 0 + (stub.length + size) = stub.length + pE := by rw [hpE]; omega
  rw [hprS, hpES]
  have hpwk : ∀ k, stub.length + pw + k = stub.length + (pw + k) := fun k => by omega
  have hprk : ∀ k, stub.length + pr + k = stub.length + (pr + k) := fun k => by omega
  simp only [hpwk, hprk, Nat.add_sub_add_left, readBytesN_shift, r16_shift, r32_shift,
    movedHeaderSize_shift, memmoveL_shift, w16_shift, w32_shift]
  set hdr := movedHeaderSize l pr with hhdr
  set M := memmoveL l pw pr hdr with hM
  by_cases c1 : pr + 30 > pE ∨ readBytesN l pr 4 ≠ lfhMagic
  · have c1S : stub.length + (pr + 30) > stub.length + pE ∨
        readBytesN l pr 4 ≠ lfhMagic := by
      rcases c1 with h | h
      · exact Or.inl (by omega)
      · exact Or.inr h
    rw [if_pos c1S, if_pos c1]
  · have c1S : ¬(stub.length + (pr + 30) > stub.length + pE ∨
        readBytesN l pr 4 ≠ lfhMagic) := by
      rw [not_or] at c1 ⊢
      exact ⟨by omega, c1.2⟩
    rw [if_neg c1S, if_neg c1]
    by_cases c2 : pr + hdr > pE
    · have c2S : stub.length + (pr + hdr) > stub.length + pE := by omega
      rw [if_pos c2S, if_pos c2]
    · have c2S : ¬(stub.length + (pr + hdr) > stub.length + pE) := by omega
      rw [if_neg c2S, if_neg c2]
      obtain ⟨L2, hL2S, hL2A⟩ : ∃ L2,
          (if r16 M (pw + 28) = 0 then stub ++ M
           else stub ++ w16 M (pw + 28) 0) = stub ++ L2 ∧
          (if r16 M (pw + 28) = 0 then M else w16 M (pw + 28) 0) = L2 := by
        by_cases c3 : r16 M (pw + 28) = 0
        · exact ⟨M, by rw [if_pos c3], by rw [if_pos c3]⟩
        · exact ⟨w16 M (pw + 28) 0, by rw [if_neg c3], by rw [if_neg c3]⟩
      rw [hL2S, hL2A]
      simp only [r16_shift, r32_shift, w16_shift, w32_shift]
      obtain ⟨L3, hL3S, hL3A⟩ : ∃ L3,
          (if r16 L2 (pw + 6) &&& 8 ≠ 0 then
             stub ++ w32 (w32 (w32 (w16 L2 (pw + 6) (r16 L2 (pw + 6) &&& 65527))
               (pw + 14) cd.crc32) (pw + 18) cd.compressedSize)
               (pw + 22) cd.uncompressedSize
           else stub ++ L2) = stub ++ L3 ∧
          (if r16 L2 (pw + 6) &&& 8 ≠ 0 then
             w32 (w32 (w32 (w16 L2 (pw + 6) (r16 L2 (pw + 6) &&& 65527))
               (pw + 14) cd.crc32) (pw + 18) cd.compressedSize)
               (pw + 22) cd.uncompressedSize
           else L2) = L3 := by
        by_cases cb : r16 L2 (pw + 6) &&& 8 ≠ 0
        · exact ⟨_, by rw [if_pos cb], by rw [if_pos cb]⟩
        · exact ⟨L2, by rw [if_neg cb], by rw [if_neg cb]⟩
      rw [hL3S, hL3A]
      set OC := (if r16 L2 (pw + 6) &&& 8 ≠ 0 then cd.compressedSize
        else r32 L2 (pw + 18)) with hOC
      by_cases c4 : pr + r16 M (pw + 28) + OC > pE
      · have c4S : stub.length + (pr + r16 M (pw + 28)) + OC > stub.length + pE := by
          omega
        rw [if_pos c4S, if_pos c4]
      · have c4S : ¬(stub.length + (pr + r16 M (pw + 28)) + OC > stub.length + pE) := by
          omega
        rw [if_neg c4S, if_neg c4]
        rw [show stub.length + (pr + r16 M (pw + 28)) + hdr =
          stub.length + (pr + r16 M (pw + 28) + hdr) by omega]
        rw [entryDispatch_shift]

theorem compactLoop_shift (o : Oracles) (cfg : Config) (size base : Nat)
    (stub : List Nat) :
    ∀ (cds : List CDHeader) (l : List Nat) (pw : Nat),
    compactLoop o cfg 0 (stub.length + size) (stub.length + base) cds (stub ++ l)
      (stub.length + pw) =
      ⟨(compactLoop o cfg 0 size base cds l pw).cds,
       stub ++ (compactLoop o cfg 0 size base cds l pw).buf,
       stub.length + (compactLoop o cfg 0 size base cds l pw).pw,
       (compactLoop o cfg 0 size base cds l pw).warns⟩ := by
  intro cds
  induction cds with
  | nil => intro l pw; rfl
  | cons cd rest ih =>
    intro l pw
    unfold compactLoop
    dsimp only
    rw [processEntry_shift]
    dsimp only
    split
    · rfl
    · rw [ih]

theorem writeDir_shift (base : Nat) (stub : List Nat) :
    ∀ (cds : List CDHeader) (l : List Nat) (pw : Nat),
    writeDir (stub.length + base) cds (stub ++ l) (stub.length + pw) =
      (stub ++ (writeDir base cds l pw).1, stub.length + (writeDir base cds l pw).2) := by
  intro cds
  induction cds with
  | nil => intro l pw; rfl
  | cons cd rest ih =>
    intro l pw
    unfold writeDir
    dsimp only
    rw [writeCDHeader_shift,
      show stub.length + pw + 46 = stub.length + (pw + 46) by omega,
      show stub.length + base +
          ({ cd with flag := cd.flag &&& 65527, extraFieldLen := 0, commentLen := 0 } : CDHeader).localHeaderOffset + 30 =
        stub.length + (base + ({ cd with flag := cd.flag &&& 65527, extraFieldLen := 0, commentLen := 0 } : CDHeader).localHeaderOffset + 30) by omega,
      memmoveL_shift,
      show stub.length + (pw + 46) +
          ({ cd with flag := cd.flag &&& 65527, extraFieldLen := 0, commentLen := 0 } : CDHeader).filenameLen =
        stub.length + (pw + 46 + ({ cd with flag := cd.flag &&& 65527, extraFieldLen := 0, commentLen := 0 } : CDHeader).filenameLen) by omega,
      ih]

theorem readCDsAux_shift (stub l : List Nat) (pEnd zoS zoA : Nat) :
    ∀ (fuel pr cdEnd b : Nat),
    readCDsAux (stub ++ l) (stub.length + pEnd) zoS fuel false (stub.length + pr)
      (stub.length + cdEnd) (stub.length + b) =
      ⟨(readCDsAux l pEnd zoA fuel false pr cdEnd b).cds,
       stub.length + (readCDsAux l pEnd zoA fuel false pr cdEnd b).baseOff,
       stub.length + (readCDsAux l pEnd zoA fuel false pr cdEnd b).prFinal,
       stub.length + (readCDsAux l pEnd zoA fuel false pr cdEnd b).cdEndFinal,
       (readCDsAux l pEnd zoA fuel false pr cdEnd b).warns⟩ := by
  intro fuel
  induction fuel with
  | zero => intro pr cdEnd b; rfl
  | succ n ih =>
    intro pr cdEnd b
    unfold readCDsAux
    dsimp only
    by_cases c1 : pr + 46 > cdEnd
    · rw [if_pos (show stub.length + pr + 46 > stub.length + cdEnd by omega), if_pos c1]
    · rw [if_neg (show ¬(stub.length + pr + 46 > stub.length + cdEnd) by omega),
        if_neg c1]
      rw [readBytesN_shift]
      by_cases c2 : readBytesN l pr 4 = cdMagic
      · rw [if_pos c2, if_pos c2, readCDHeader_shift]
        rw [show stub.length + pr + 46 + (readCDHeader l pr).filenameLen +
            (readCDHeader l pr).extraFieldLen + (readCDHeader l pr).commentLen =
          stub.length + (pr + 46 + (readCDHeader l pr).filenameLen +
            (readCDHeader l pr).extraFieldLen + (readCDHeader l pr).commentLen) by omega]
        rw [ih]
      · rw [if_neg c2, if_neg c2]
        rw [if_neg (by simp), if_neg (by simp)]

theorem readCDs_shift_recover (stub l : List Nat) (size cdOff cdSize num : Nat)
    (hmagA : readBytesN l cdOff 4 = cdMagic)
    (hmagS : readBytesN (stub ++ l) cdOff 4 ≠ cdMagic)
    (hnum : 1 ≤ num) (hcs : 46 ≤ cdSize) (hfit : cdOff + cdSize ≤ size) :
    readCDs (stub ++ l) (stub.length + size) stub.length num cdOff (cdOff + cdSize) =
      ⟨(readCDs l size 0 num cdOff (cdOff + cdSize)).cds,
       stub.length + (readCDs l size 0 num cdOff (cdOff + cdSize)).baseOff,
       stub.length + (readCDs l size 0 num cdOff (cdOff + cdSize)).prFinal,
       stub.length + (readCDs l size 0 num cdOff (cdOff + cdSize)).cdEndFinal,
       (readCDs l size 0 num cdOff (cdOff + cdSize)).warns⟩ := by
  obtain ⟨k, rfl⟩ : ∃ k, num = k + 1 := ⟨num - 1, by omega⟩
  unfold readCDs
  unfold readCDsAux
  dsimp only
  rw [if_neg (show ¬(cdOff + 46 > cdOff + cdSize) by omega),
    if_neg (show ¬(cdOff + 46 > cdOff + cdSize) by omega)]
  rw [if_neg hmagS, if_pos hmagA]
  rw [if_pos (show (true = true) ∧ cdOff + cdSize + stub.length ≤ stub.length + size ∧
    readBytesN (stub ++ l) (cdOff + stub.length) 4 = cdMagic from
    ⟨rfl, by omega, by rw [show cdOff + stub.length = stub.length + cdOff by omega,
      readBytesN_shift]; exact hmagA⟩)]
  dsimp only
  rw [show cdOff + stub.length = stub.length + cdOff by omega, readCDHeader_shift]
  rw [show stub.length + cdOff + 46 + (readCDHeader l cdOff).filenameLen +
      (readCDHeader l cdOff).extraFieldLen + (readCDHeader l cdOff).commentLen =
    stub.length + (cdOff + 46 + (readCDHeader l cdOff).filenameLen +
      (readCDHeader l cdOff).extraFieldLen + (readCDHeader l cdOff).commentLen) by omega]
  rw [show cdOff + cdSize + stub.length = stub.length + (cdOff + cdSize) by omega]
  have H := readCDsAux_shift stub l size stub.length 0 k
    (cdOff + 46 + (readCDHeader l cdOff).filenameLen +
      (readCDHeader l cdOff).extraFieldLen + (readCDHeader l cdOff).commentLen)
    (cdOff + cdSize) 0
  rw [show stub.length + 0 = stub.length from by omega] at H
  rw [H]

/-- C9: stub-prefix equivalence.  If a valid archive `A = l` (EOCD found,
archive-level checks pass, its first local-header magic at offset 0, its
directory magic where the EOCD says) is prepended with an `N`-byte stub
`S = stub` such that in `S ++ A` the first local-header magic is at offset
`N` and the nominal directory start holds no magic (so the base-offset
recovery of zip.cpp:102-113 commits `base_offset = zip_offset = N`), then
processing `S ++ A` gives exactly the result of processing `A`, with the
stub bytes preserved verbatim at the start of the output. -/
theorem C9_stub_preserved (o : Oracles) (cfg : Config) (stub l : List Nat)
    (size pe : Nat)
    (hstub : ∀ b ∈ stub, b < 256)
    (hfl : findLast l (max 0 (0 + size - 65539)) (0 + size) eocdMagic = some pe)
    (hpe : pe + 22 ≤ 0 + size)
    (hd1 : (readEOCD l pe).diskNum = 0)
    (hd2 : (readEOCD l pe).diskCdStart = 0)
    (hd3 : (readEOCD l pe).numRecords = (readEOCD l pe).numRecordsTotal)
    (hcd : 0 + (readEOCD l pe).cdOffset + (readEOCD l pe).cdSize ≤ pe)
    (hffA : findFirst l 0 (0 + (readEOCD l pe).cdOffset) lfhMagic = some 0)
    (hffS : findFirst (stub ++ l) 0 (0 + (readEOCD l pe).cdOffset) lfhMagic =
      some stub.length)
    (hmagA : readBytesN l (readEOCD l pe).cdOffset 4 = cdMagic)
    (hmagS : readBytesN (stub ++ l) (readEOCD l pe).cdOffset 4 ≠ cdMagic)
    (hnum : 1 ≤ (readEOCD l pe).numRecords)
    (hcs : 46 ≤ (readEOCD l pe).cdSize) :
    zipLeanify o cfg 0 (stub ++ l) (stub.length + size) =
      ⟨stub ++ (zipLeanify o cfg 0 l size).buf,
       stub.length + (zipLeanify o cfg 0 l size).size,
       (zipLeanify o cfg 0 l size).warns⟩ := by
  have hshiftE : readEOCD (stub ++ l) (stub.length + pe) = readEOCD l pe :=
    readEOCD_shift stub l pe
  have hflS : findLast (stub ++ l) (max 0 (0 + (stub.length + size) - 65539))
      (0 + (stub.length + size)) eocdMagic = some (stub.length + pe) := by
    have hsp := findLast_some_spec l eocdMagic _ _ pe hfl
    have h1 : 0 + size - 65539 ≤ pe := Nat.le_trans (Nat.le_max_right _ _) hsp.1
    rw [show (0 : Nat) + (stub.length + size) = stub.length + (0 + size) by omega]
    exact findLast_shift stub l eocdMagic (max 0 (0 + size - 65539)) (0 + size) _ pe hfl
      (Nat.max_le.mpr ⟨Nat.zero_le _, by omega⟩)
  rw [zipLeanify_eq o cfg 0 (stub ++ l) (stub.length + size) (stub.length + pe) hflS
      (by omega) (by rw [hshiftE]; exact hd1) (by rw [hshiftE]; exact hd2)
      (by rw [hshiftE]; exact hd3) (by rw [hshiftE]; omega),
    zipLeanify_eq o cfg 0 l size pe hfl hpe hd1 hd2 hd3 hcd]
  dsimp only
  rw [hshiftE]
  rw [hffS, hffA]
  simp only [Option.getD_some, Nat.sub_zero]
  rw [show (0 : Nat) + (stub.length + size) = stub.length + size by omega,
    show (0 : Nat) + (readEOCD l pe).cdOffset = (readEOCD l pe).cdOffset by omega,
    show (0 : Nat) + size = size by omega]
  have hfit : (readEOCD l pe).cdOffset + (readEOCD l pe).cdSize ≤ size := by omega
  simp only [readCDs_shift_recover stub l size (readEOCD l pe).cdOffset
    (readEOCD l pe).cdSize (readEOCD l pe).numRecords hmagA hmagS hnum hcs hfit]
  set rdA := readCDs l size 0 (readEOCD l pe).numRecords (readEOCD l pe).cdOffset
    ((readEOCD l pe).cdOffset + (readEOCD l pe).cdSize) with hrdA
  simp only [memmove_prefix_id stub l hstub]
  simp only [show memmoveL l 0 0 0 = l from rfl]
  have HC := compactLoop_shift o cfg size rdA.baseOff stub (sortByOffset rdA.cds) l 0
  rw [show stub.length + 0 = stub.length from rfl] at HC
  simp only [HC]
  set lpA := compactLoop o cfg 0 size rdA.baseOff (sortByOffset rdA.cds) l 0 with hlpA
  simp only [writeDir_shift rdA.baseOff stub lpA.cds lpA.buf lpA.pw]
  set dwA := writeDir rdA.baseOff lpA.cds lpA.buf lpA.pw with hdwA
  simp only [Nat.add_sub_add_left]
  have hw0 : (if stub.length + rdA.prFinal = stub.length + rdA.cdEndFinal
      then ([] : List Warn) else [Warn.cdSizeMismatch]) =
      (if rdA.prFinal = rdA.cdEndFinal then ([] : List Warn)
       else [Warn.cdSizeMismatch]) := by
    by_cases h : rdA.prFinal = rdA.cdEndFinal
    · rw [if_pos h, if_pos (by omega)]
    · rw [if_neg h, if_neg (by omega)]
  simp only [hw0]
  simp only [writeEOCD_shift]
  rw [show stub.length + dwA.2 + 22 = stub.length + (dwA.2 + 22) by omega]

/-- A 3-byte stub for the C9 witness. -/
def stubW : List Nat := [1, 2, 3]

/-- C9, instantiated: prepending the 3-byte stub to the valid archive
`archW` (whose directory offsets then resolve through the base-offset
recovery) gives the same result with the stub preserved at the start. -/
theorem C9_stub_preserved_witness :
    zipLeanify oid cfg0 0 (stubW ++ archW) (stubW.length + 102) =
      ⟨stubW ++ (zipLeanify oid cfg0 0 archW 102).buf,
       stubW.length + (zipLeanify oid cfg0 0 archW 102).size,
       (zipLeanify oid cfg0 0 archW 102).warns⟩ :=
  C9_stub_preserved oid cfg0 stubW archW 102 80 (by decide) (by decide) (by decide)
    (by decide) (by decide) (by decide) (by decide) (by decide) (by decide)
    (by decide) (by decide) (by decide) (by decide)

end ZipSpec
